import Mathlib

/-!
# The jsxer token reader

A shallow embedding of `src/jsxer/reader.cpp`: the `Reader` that decodes the
alphabet-encoded JSXBIN token stream into bytes, numbers, strings, symbol
names and variants.

Conventions of the embedding.

* A `Token` and a `Byte` are 8-bit unsigned values, kept as `Nat` with an
  explicit `% 256` wherever the C++ narrows to `uint8_t`.
* `size_t` fields (`_cursor`, `_start`, `_end`, `_depth`) are `Nat` with an
  explicit `% 2 ^ 64` wherever the C++ arithmetic can wrap.
* A `Number` (C++ `double`) is kept as its IEEE-754 binary64 bit pattern,
  a `Nat` below `2 ^ 64`.
* `Reader::get` contains a `while` loop; operations built on it return an
  `Option`, where `none` stands for a loop that never ends.
-/

namespace jsxer

/-- One byte of the stripped input (`uint8_t`). -/
abbrev Token := Nat

/-- A decoded byte (`uint8_t`). -/
abbrev Byte := Nat

/-- A C++ `double`, kept as its IEEE-754 binary64 bit pattern. -/
abbrev Number := Nat

/-- A sequence of UTF-16 code units (`uint16_t`). -/
abbrev ByteString := List Nat

/-- The modulus of `size_t` arithmetic. -/
def SIZE_MOD : Nat := 2 ^ 64

/-- The error codes the reader uses. -/
inductive ParseError where
  | None
  | InvalidVersion
  | DecodeError
  | ReachedEnd
  deriving DecidableEq, Repr

/-- The container versions the reader knows. -/
inductive JsxbinVersion where
  | Invalid
  | v10
  | v20
  | v21
  deriving DecidableEq, Repr

/-! ## Numbers as bit patterns -/

namespace Number

/-- The sign bit of a binary64 pattern. -/
def signBit (x : Number) : Nat := x / 2 ^ 63 % 2

/-- The biased exponent field of a binary64 pattern. -/
def expField (x : Number) : Nat := x / 2 ^ 52 % 2 ^ 11

/-- The fraction field of a binary64 pattern. -/
def fracField (x : Number) : Nat := x % 2 ^ 52

/-- Whether the pattern is a NaN: exponent all ones and a non-zero fraction. -/
def isNaN (x : Number) : Bool := expField x == 2047 && fracField x != 0

/-- The pattern with its sign bit flipped. -/
def flipSign (x : Number) : Number :=
  if signBit x = 1 then x - 2 ^ 63 else x + 2 ^ 63

/-- The product `sign * x` for `sign` one of `1.0` (`neg = false`) and `-1.0`
(`neg = true`). On every non-NaN operand IEEE-754 makes it exact: the operand
itself, or the operand with the sign flipped. For a NaN operand the standard
fixes only that the result is a quiet NaN; the embedding returns the operand
with its quiet bit set, as common hardware does. -/
def mulSign (neg : Bool) (x : Number) : Number :=
  if isNaN x then x ||| 2 ^ 51 else if neg then flipSign x else x

/-- The position of the highest set bit among the low `fuel` bits of `n`. -/
def ilog2Aux : Nat → Nat → Nat
  | 0, _ => 0
  | fuel + 1, n => if 2 ≤ n then ilog2Aux fuel (n / 2) + 1 else 0

/-- The position of the highest set bit of `n`, for `0 < n < 2 ^ 64`. -/
def ilog2 (n : Nat) : Nat := ilog2Aux 64 n

/-- The double that equals the natural number `n`, for `n < 2 ^ 53` (the
conversion `uint8_t`, `uint16_t` or a small count to `double`, which is exact
in that range). -/
def ofNat (n : Nat) : Number :=
  if n = 0 then 0
  else (1023 + ilog2 n) * 2 ^ 52 + (n - 2 ^ ilog2 n) * 2 ^ (52 - ilog2 n)

/-- The double that equals the integer `z`, for a magnitude below `2 ^ 53`: the
double of the magnitude, with the sign bit set when `z` is negative. -/
def ofInt (z : Int) : Number :=
  if z < 0 then ofNat z.natAbs + 2 ^ 63 else ofNat z.natAbs

/-- The magnitude of a double truncated toward zero, as a natural number;
infinities and NaNs, which no integer type can hold, give `0`. -/
def truncMag (x : Number) : Nat :=
  let e := expField x
  let m := fracField x
  if e = 2047 then 0
  else if e < 1023 then 0
  else if 1075 ≤ e then (2 ^ 52 + m) * 2 ^ (e - 1075)
  else (2 ^ 52 + m) / 2 ^ (1075 - e)

/-- The byte `i` of the pattern replaced by `b`: the store
`((Byte*) &res)[i] = b` on a little-endian machine. -/
def setByte (x : Number) (i : Nat) (b : Byte) : Number :=
  x - (x / 256 ^ i % 256) * 256 ^ i + (b % 256) * 256 ^ i

end Number

/-- Modelled from the spec: `utils::number_as_int<T>` (util.h is not among the
sources), the conversion of a decoded Number to an unsigned integer of `w` bits
(a length, a 16-bit code unit). A non-negative value in range is truncated
toward zero; for the values C++ leaves undefined (negative, too large, NaN)
the embedding keeps the truncated magnitude modulo `2 ^ w`. -/
def number_as_int (w : Nat) (x : Number) : Nat :=
  Number.truncMag x % 2 ^ w

/-- The least value of a 32-bit `int`. -/
def INT_MIN : Int := -2147483648

/-- The greatest value of a 32-bit `int`. -/
def INT_MAX : Int := 2147483647

/-- The C++ cast `(int) id` of a double to the 32-bit `int`: truncation toward
zero when the truncated value is in the range of `int`. For every other double
(too large, too small, an infinity, a NaN) C++ leaves the result undefined; the
embedding gives what the conversion instruction of x86-64 gives for all of
them, `INT_MIN`. -/
def number_to_int (x : Number) : Int :=
  let v : Int :=
    if Number.signBit x = 1 then -(Number.truncMag x : Int) else (Number.truncMag x : Int)
  if Number.expField x = 2047 then INT_MIN
  else if INT_MIN ≤ v ∧ v ≤ INT_MAX then v
  else INT_MIN

/-! ## The reader state -/

/-- The fields of `jsxer::Reader`. `_symbols` is the id to name map, kept as an
association list in insertion order. -/
structure Reader where
  _data : List Token
  _start : Nat
  _cursor : Nat
  _end : Nat
  _depth : Nat
  _error : ParseError
  _version : JsxbinVersion
  _jsxblind_deobfuscate : Bool
  _symbols : List (Number × ByteString)
  deriving DecidableEq, Repr

/-- Modelled from the spec: `utils::string_strip_char` (util.h is not among the
sources) removes every occurrence of one character from the string. -/
def string_strip_char (input : List Token) (c : Token) : List Token :=
  input.filter (fun t => t != c)

/-- The constructor `Reader::Reader(jsxbin, jsxblind_deobfuscate)`. -/
def Reader.new (jsxbin : List Token) (jsxblind_deobfuscate : Bool) : Reader :=
  let input0 := jsxbin
  let input1 := string_strip_char input0 0x20
  let input2 := string_strip_char input1 0x09
  let input3 := string_strip_char input2 0x0D
  let input4 := string_strip_char input3 0x0A
  let input5 := string_strip_char input4 0x5C
  let input_len := input5.length
  { _data := input5
    _start := 0
    _cursor := 0
    _end := (input_len + SIZE_MOD - 1) % SIZE_MOD
    _depth := 0
    _error := ParseError.None
    _version := JsxbinVersion.Invalid
    _jsxblind_deobfuscate := jsxblind_deobfuscate
    _symbols := [] }

namespace Reader

/-- The element `_data[i]`. An index outside the buffer is undefined in C++;
the embedding reads `0` there. -/
def dataAt (r : Reader) (i : Nat) : Token := r._data.getD i 0

/-- The method `Reader::step(offset)`: `_cursor += offset` in `size_t`. -/
def step (r : Reader) (offset : Int) : Reader :=
  { r with _cursor := (((r._cursor : Int) + offset) % (SIZE_MOD : Int)).toNat }

/-- The method `Reader::_next`. -/
def _next (r : Reader) : Token × Reader :=
  if r._cursor < r._end then
    (r.dataAt r._cursor, { r with _cursor := r._cursor + 1 })
  else
    (r.dataAt r._end, { r with _error := ParseError.ReachedEnd })

/-- The method `Reader::_ignorable`. -/
def _ignorable (value : Token) : Bool :=
  value == 0x20 || value == 0x09 || value == 0x0D || value == 0x0A

/-- The `while (_ignorable(token)) token = _next();` loop of `Reader::get`,
with a bound on the number of iterations; `none` when the bound is used up. -/
def getLoop : Nat → Token → Reader → Option (Token × Reader)
  | 0, _, _ => none
  | fuel + 1, token, r =>
    if _ignorable token then getLoop fuel (r._next).1 (r._next).2
    else some (token, r)

/-- The method `Reader::get`. The loop is given `_end - _cursor + 2` iterations:
once the cursor can no longer advance `_next` keeps returning `_data[_end]`, so
a loop that has not ended by then never ends (`getLoop_none_forever`). -/
def get (r : Reader) : Option (Token × Reader) :=
  getLoop ((r._next).2._end - (r._next).2._cursor + 2) (r._next).1 (r._next).2

/-- The method `Reader::getByte`. -/
def getByte (r : Reader) : Option (Byte × Reader) :=
  if r._depth > 0 then
    some (0, { r with _depth := r._depth - 1 })
  else
    match r.get with
    | none => none
    | some (m, r1) =>
      if m = 0x30 then
        match r1.get with
        | none => none
        | some (n, r2) =>
          if n > 0x5A then
            some (0, { r2 with _error := ParseError.DecodeError })
          else
            some (0, { r2 with _depth := (((n : Int) - 0x40) % (SIZE_MOD : Int)).toNat })
      else if m > 0x5A then
        if m > 0x6E then
          some (0, { r1 with _error := ParseError.DecodeError })
        else
          match r1.get with
          | none => none
          | some (z, r2) =>
            let rr := 32 * (m + 1) % 256
            if z > 0x5A then
              if z > 0x66 then
                some (0, { r2 with _error := ParseError.DecodeError })
              else
                some (((z + 256 - 0x47) % 256) ||| rr, r2)
            else
              some (((z + 256 - 0x41) % 256) ||| rr, r2)
      else
        some ((m + 256 - 0x41) % 256, r1)

/-- The `for (int i = 0; i < t - 48; ++i) ((Byte*) &res)[i] = getByte();` loop of
`Reader::getNumber`: `k` iterations remain, `i` is the loop counter. -/
def getNumberBytes : Nat → Nat → Number → Reader → Option (Number × Reader)
  | 0, _, res, r => some (res, r)
  | k + 1, i, res, r =>
    match r.getByte with
    | none => none
    | some (b, r1) => getNumberBytes k (i + 1) (Number.setByte res i b) r1

/-- The method `Reader::getNumber`. -/
def getNumber (r : Reader) : Option (Number × Reader) :=
  if r._depth > 0 then
    some (0, { r with _depth := r._depth - 1 })
  else
    match r.get with
    | none => none
    | some (t0, r1) =>
      match (if t0 ≠ 0x79 then some (t0, false, r1)
             else match r1.get with
                  | none => none
                  | some (t1, r2) => some (t1, true, r2)) with
      | none => none
      | some (t, neg, r2) =>
        if t = 0x32 ∨ t = 0x34 ∨ t = 0x38 then
          match getNumberBytes (t - 48) 0 0 r2 with
          | none => none
          | some (res, r3) => some (Number.mulSign neg res, r3)
        else
          match (r2.step (-1)).getByte with
          | none => none
          | some (b, r3) => some (Number.mulSign neg (Number.ofNat b), r3)

/-- The `for (int i = 0; i < length; ++i)` loop of `Reader::getString`, `k`
iterations remaining. (Past `2 ^ 31 - 1` iterations the `int` counter of the
C++ overflows; the embedding keeps counting.) -/
def getStringLoop : Nat → ByteString → Reader → Option (ByteString × Reader)
  | 0, result, r => some (result, r)
  | k + 1, result, r =>
    match r.getNumber with
    | none => none
    | some (x, r1) => getStringLoop k (result ++ [number_as_int 16 x]) r1

/-- The method `Reader::getString`. -/
def getString (r : Reader) : Option (ByteString × Reader) :=
  match r.getNumber with
  | none => none
  | some (x, r1) => getStringLoop (number_as_int 64 x) [] r1

/-- The method `Reader::getBoolean`. -/
def getBoolean (r : Reader) : Option (Bool × Reader) :=
  match r.get with
  | none => none
  | some (t, r1) =>
    if t = 0x74 then some (true, r1)
    else if t = 0x66 then some (false, r1)
    else some (false, { r1 with _error := ParseError.DecodeError })

end Reader

/-! ## Symbol names -/

/-- Modelled from the spec: `utils::to_byte_string` (util.h is not among the
sources) turns a text into the ByteString of its characters. -/
def to_byte_string (s : String) : ByteString := s.toList.map Char.toNat

/-- The `OPERATORS` list of `should_replace_name`. -/
def OPERATORS : List String :=
  [ "=", "==", "!=", "!==", "===", "<=", ">=", ">", "<",
    "|=", "||=", "&&=", "&=", "^=", "??=",
    "|", "||", "&", "&&", "^", "??", "!", "?", ":",
    "instanceof", "typeof",
    "+", "+=",
    "-", "-=",
    "*", "*=",
    "%", "%=",
    "/", "/=",
    "**", "**=",
    "<<", "<<=",
    ">>", ">>=",
    ">>>", ">>>=" ]

/-- Modelled from the spec: the test `utils::to_string(symbol) == op` of
`should_replace_name` (util.h is not among the sources): the name is exactly
the lexeme. -/
def symbol_eq_op (symbol : ByteString) (op : String) : Bool :=
  symbol == to_byte_string op

/-- The function `should_replace_name`. -/
def should_replace_name (symbol : ByteString) : Bool :=
  if symbol.isEmpty then false
  else if OPERATORS.any (fun op => symbol_eq_op symbol op) then false
  else symbol.any (fun character => decide (character > 0x7a ∨ character < 0x41))

namespace Number

/-- The order `a < b` of two doubles, read off their bit patterns: false when
either is a NaN, and otherwise the order of the signed magnitudes (so the two
zeros are equal). -/
def lt (a b : Number) : Bool :=
  if isNaN a || isNaN b then false
  else
    let va : Int := if signBit a = 1 then -((a % 2 ^ 63 : Nat) : Int) else ((a % 2 ^ 63 : Nat) : Int)
    let vb : Int := if signBit b = 1 then -((b % 2 ^ 63 : Nat) : Int) else ((b % 2 ^ 63 : Nat) : Int)
    decide (va < vb)

/-- Two keys an ordered map takes for the same key: neither is below the
other. -/
def sameKey (a b : Number) : Bool := !lt a b && !lt b a

end Number

namespace Reader

/-- Modelled from the spec: the type of `_symbols` is declared in reader.h (not
among the sources); the spec calls it a sparse mapping from numeric id to
name. The lookup of the entry for `id`. -/
def findSymbol (symbols : List (Number × ByteString)) (id : Number) : Option ByteString :=
  match symbols with
  | [] => none
  | (k, v) :: rest => if Number.sameKey k id then some v else findSymbol rest id

/-- The assignment `_symbols[id] = symbol` on the association list: the entry
for `id` is overwritten, or a new one is added. -/
def setSymbol (symbols : List (Number × ByteString)) (id : Number) (symbol : ByteString) :
    List (Number × ByteString) :=
  match symbols with
  | [] => [(id, symbol)]
  | (k, v) :: rest =>
    if Number.sameKey k id then (k, symbol) :: rest else (k, v) :: setSymbol rest id symbol

/-- The method `Reader::getSymbol`: `_symbols[id]`, which also creates an empty
entry when `id` has none. -/
def getSymbol (r : Reader) (id : Number) : ByteString × Reader :=
  match findSymbol r._symbols id with
  | some v => (v, r)
  | none => ([], { r with _symbols := setSymbol r._symbols id [] })

/-- The method `Reader::addSymbol`. -/
def addSymbol (r : Reader) (id : Number) (symbol : ByteString) : Reader :=
  { r with _symbols := setSymbol r._symbols id symbol }

/-- The method `Reader::readSID`. -/
def readSID (r : Reader) : Option (ByteString × Reader) :=
  match r.get with
  | none => none
  | some (t, r1) =>
    if t = 0x7A then
      match r1.getString with
      | none => none
      | some (symbol, r2) =>
        match r2.getNumber with
        | none => none
        | some (id, r3) =>
          let symbol1 :=
            if r3._jsxblind_deobfuscate && should_replace_name symbol then
              to_byte_string ("symbol_" ++ toString (number_to_int id))
            else symbol
          some (symbol1, r3.addSymbol id symbol1)
    else
      match (r1.step (-1)).getNumber with
      | none => none
      | some (id, r2) => some (r2.getSymbol id)

end Reader

/-! ## Variants -/

/-- The tags of a `Variant`. -/
inductive VariantType where
  | None
  | Undefined
  | Null
  | Boolean
  | Number
  | String
  deriving DecidableEq, Repr

/-- The payload union of a `Variant`: all zero, or one member written. -/
inductive ValueType where
  | zero
  | _bool (b : Bool)
  | _double (d : Number)
  | _string (s : ByteString)
  deriving DecidableEq, Repr

/-- The class `Variant`. -/
structure Variant where
  _type : VariantType
  _value : ValueType
  deriving DecidableEq, Repr

namespace Variant

/-- The method `Variant::doErase`: the payload is zeroed. -/
def doErase (v : Variant) : Variant := { v with _value := ValueType.zero }

/-- The constructor `Variant::Variant()`. -/
def new : Variant := doErase { _type := VariantType.None, _value := ValueType.zero }

/-- The method `Variant::setNull`. -/
def setNull (v : Variant) : Variant := doErase { v with _type := VariantType.Null }

/-- The method `Variant::setBool`. -/
def setBool (v : Variant) (value : Bool) : Variant :=
  { doErase { v with _type := VariantType.Boolean } with _value := ValueType._bool value }

/-- The method `Variant::setDouble`. -/
def setDouble (v : Variant) (value : Number) : Variant :=
  { doErase { v with _type := VariantType.Number } with _value := ValueType._double value }

/-- The method `Variant::setString`. -/
def setString (v : Variant) (value : ByteString) : Variant :=
  { doErase { v with _type := VariantType.String } with _value := ValueType._string value }

end Variant

namespace Reader

/-- The method `Reader::getVariant`; the inner `none` is the null pointer. -/
def getVariant (r : Reader) : Option (Option Variant × Reader) :=
  match r.get with
  | none => none
  | some (t, r1) =>
    if t = 0x6E then some (none, r1)
    else
      match (r1.step (-1)).get with
      | none => none
      | some (t2, r2) =>
        let type := (t2 + 256 - 0x61) % 256
        let result := Variant.new
        if type = 0 then some (some (result.doErase.setNull), r2)
        else if type = 1 then some (some result.setNull, r2)
        else if type = 2 then
          match r2.getBoolean with
          | none => none
          | some (b, r3) => some (some (result.setBool b), r3)
        else if type = 3 then
          match r2.getNumber with
          | none => none
          | some (x, r3) => some (some (result.setDouble x), r3)
        else if type = 4 then
          match r2.getString with
          | none => none
          | some (s, r3) => some (some (result.setString s), r3)
        else some (some result, { r2 with _error := ParseError.DecodeError })

end Reader

/-! ## The signature -/

/-- The constants `JSXBIN_SIGNATURE_V10`, `JSXBIN_SIGNATURE_V20`,
`JSXBIN_SIGNATURE_V21` and `JSXBIN_SIGNATURE_LEN`, which reader.h (not among
the sources) defines: they are parameters of `verifySignature`. -/
structure Signatures where
  JSXBIN_SIGNATURE_V10 : List Token
  JSXBIN_SIGNATURE_V20 : List Token
  JSXBIN_SIGNATURE_V21 : List Token
  JSXBIN_SIGNATURE_LEN : Nat
  deriving DecidableEq, Repr

/-- The three signatures are distinct texts of `JSXBIN_SIGNATURE_LEN` bytes, and
that length is a `size_t`. -/
def Signatures.WellFormed (sig : Signatures) : Prop :=
  sig.JSXBIN_SIGNATURE_V10.length = sig.JSXBIN_SIGNATURE_LEN ∧
  sig.JSXBIN_SIGNATURE_V20.length = sig.JSXBIN_SIGNATURE_LEN ∧
  sig.JSXBIN_SIGNATURE_V21.length = sig.JSXBIN_SIGNATURE_LEN ∧
  sig.JSXBIN_SIGNATURE_V10 ≠ sig.JSXBIN_SIGNATURE_V20 ∧
  sig.JSXBIN_SIGNATURE_V10 ≠ sig.JSXBIN_SIGNATURE_V21 ∧
  sig.JSXBIN_SIGNATURE_V20 ≠ sig.JSXBIN_SIGNATURE_V21 ∧
  sig.JSXBIN_SIGNATURE_LEN < SIZE_MOD

instance (sig : Signatures) : Decidable sig.WellFormed := by
  unfold Signatures.WellFormed; infer_instance

/-- The signatures of the JSXBIN container: `@JSXBIN@ES@1.0@`,
`@JSXBIN@ES@2.0@` and `@JSXBIN@ES@2.1@`, 15 bytes each. -/
def jsxbinSignatures : Signatures :=
  { JSXBIN_SIGNATURE_V10 :=
      [0x40, 0x4A, 0x53, 0x58, 0x42, 0x49, 0x4E, 0x40, 0x45, 0x53, 0x40, 0x31, 0x2E, 0x30, 0x40]
    JSXBIN_SIGNATURE_V20 :=
      [0x40, 0x4A, 0x53, 0x58, 0x42, 0x49, 0x4E, 0x40, 0x45, 0x53, 0x40, 0x32, 0x2E, 0x30, 0x40]
    JSXBIN_SIGNATURE_V21 :=
      [0x40, 0x4A, 0x53, 0x58, 0x42, 0x49, 0x4E, 0x40, 0x45, 0x53, 0x40, 0x32, 0x2E, 0x31, 0x40]
    JSXBIN_SIGNATURE_LEN := 15 }

/-- Modelled from the spec: `utils::bytes_eq` (util.h is not among the sources)
compares the first `len` bytes of two buffers. A buffer that has fewer than
`len` bytes has no such prefix and compares unequal to one that has. -/
def bytes_eq (a b : List Token) (len : Nat) : Bool :=
  a.take len == b.take len

namespace Reader

/-- The method `Reader::verifySignature`. -/
def verifySignature (sig : Signatures) (r : Reader) : Bool × Reader :=
  let advance (r1 : Reader) : Bool × Reader :=
    (true, { r1 with _cursor := (r1._cursor + sig.JSXBIN_SIGNATURE_LEN) % SIZE_MOD
                     _start := (r1._cursor + sig.JSXBIN_SIGNATURE_LEN) % SIZE_MOD })
  if bytes_eq r._data sig.JSXBIN_SIGNATURE_V10 sig.JSXBIN_SIGNATURE_LEN then
    advance { r with _version := JsxbinVersion.v10 }
  else if bytes_eq r._data sig.JSXBIN_SIGNATURE_V20 sig.JSXBIN_SIGNATURE_LEN then
    advance { r with _version := JsxbinVersion.v20 }
  else if bytes_eq r._data sig.JSXBIN_SIGNATURE_V21 sig.JSXBIN_SIGNATURE_LEN then
    advance { r with _version := JsxbinVersion.v21 }
  else
    (false, { r with _error := ParseError.InvalidVersion })

end Reader

/-! ## Vocabulary of the statements -/

/-- The reader after `k` of the tokens in front of the cursor were read by
`_next`, for a cursor within the buffer and `k` at most the number of tokens
left: the cursor has moved over them, except that it stops on the last token
of the buffer, and reading that one raises `ReachedEnd`. -/
def Reader.after (r : Reader) (k : Nat) : Reader :=
  if r._cursor + k ≤ r._end then { r with _cursor := r._cursor + k }
  else { r with _cursor := r._end, _error := ParseError.ReachedEnd }

/-- The buffer is not empty and `_end` is the index of its last token, as the
constructor sets it. -/
def Reader.EndIsLast (r : Reader) : Prop := r._end + 1 = r._data.length

instance (r : Reader) : Decidable r.EndIsLast := by
  unfold Reader.EndIsLast; infer_instance

/-- The tokens `toks` stand in the buffer from `j` places past the cursor on. -/
def Reader.tokensAt (r : Reader) (j : Nat) (toks : List Token) : Prop :=
  toks <+: r._data.drop (r._cursor + j)

instance (r : Reader) (j : Nat) (toks : List Token) : Decidable (r.tokensAt j toks) := by
  unfold Reader.tokensAt; infer_instance

/-- The second token of the two-token encoding of a byte: its low five bits,
`A`..`Z` for 0..25 and `a`..`f` for 26..31. -/
def lowToken (x : Nat) : Token := if x < 26 then 0x41 + x else 0x61 + (x - 26)

/-- The single-token encoding of a byte below 26. -/
def encodeByte1 (v : Byte) : List Token := [0x41 + v]

/-- The two-token encoding of a byte. -/
def encodeByte2 (v : Byte) : List Token := [0x67 + v / 32, lowToken (v % 32)]

/-- The results of `k` calls of `getByte`, one after the other. -/
def Reader.getBytes : Nat → Reader → Option (List Byte × Reader)
  | 0, r => some ([], r)
  | k + 1, r =>
    match r.getByte with
    | none => none
    | some (b, r1) =>
      match Reader.getBytes k r1 with
      | none => none
      | some (bs, r2) => some (b :: bs, r2)

/-- The pattern whose byte `i` is the `i`-th byte of the list and whose other
bits are zero. -/
def fromBytesLE : List Byte → Nat
  | [] => 0
  | b :: bs => b + 256 * fromBytesLE bs

/-- The first `k` bytes of a pattern, lowest first (little-endian). -/
def bytesLE : Nat → Nat → List Byte
  | 0, _ => []
  | k + 1, d => d % 256 :: bytesLE k (d / 256)

/-- The token list `e` is an encoding of the byte `v`: the single token for a
value below 26, or the two tokens. -/
def IsByteEncoding (v : Byte) (e : List Token) : Prop :=
  (v < 26 ∧ e = encodeByte1 v) ∨ (v < 256 ∧ e = encodeByte2 v)

instance (v : Byte) (e : List Token) : Decidable (IsByteEncoding v e) := by
  unfold IsByteEncoding; infer_instance

/-- Each token list of `encs` is an encoding of the byte at the same place of
`vs`. -/
def AreByteEncodings : List Byte → List (List Token) → Prop
  | [], [] => True
  | v :: vs, e :: es => IsByteEncoding v e ∧ AreByteEncodings vs es
  | _, _ => False

instance decAreByteEncodings : (vs : List Byte) → (encs : List (List Token)) →
    Decidable (AreByteEncodings vs encs)
  | [], [] => isTrue trivial
  | v :: vs, e :: es =>
    match (inferInstance : Decidable (IsByteEncoding v e)), decAreByteEncodings vs es with
    | isTrue h1, isTrue h2 => isTrue ⟨h1, h2⟩
    | isFalse h1, _ => isFalse (fun h => h1 h.1)
    | _, isFalse h2 => isFalse (fun h => h2 h.2)
  | [], _ :: _ => isFalse (fun h => h)
  | _ :: _, [] => isFalse (fun h => h)

/-- One of the two decode calls that honour the node depth. -/
inductive PrimCall where
  | byte
  | number
  deriving DecidableEq, Repr

/-- The call of `getByte` or of `getNumber`; the value is the byte, or the bit
pattern of the double (zero for `0.0`). -/
def Reader.callPrim (c : PrimCall) (r : Reader) : Option (Nat × Reader) :=
  match c with
  | PrimCall.byte => r.getByte
  | PrimCall.number => r.getNumber

/-- The calls of the list made one after the other, with their results. -/
def Reader.runCalls : List PrimCall → Reader → Option (List Nat × Reader)
  | [], r => some ([], r)
  | c :: cs, r =>
    match r.callPrim c with
    | none => none
    | some (v, r1) =>
      match Reader.runCalls cs r1 with
      | none => none
      | some (vs, r2) => some (v :: vs, r2)

/-- The results of `k` calls of `getNumber`, one after the other. -/
def Reader.getNumbers : Nat → Reader → Option (List Number × Reader)
  | 0, r => some ([], r)
  | k + 1, r =>
    match r.getNumber with
    | none => none
    | some (x, r1) =>
      match Reader.getNumbers k r1 with
      | none => none
      | some (xs, r2) => some (x :: xs, r2)

/-- The token list `toks` is an encoding of the double with pattern `d`: the
selector `8`, then encodings of the eight bytes of `d`, lowest byte first. -/
def IsNumberEncoding (d : Number) (toks : List Token) : Prop :=
  ∃ encs : List (List Token), AreByteEncodings (bytesLE 8 d) encs ∧ toks = 0x38 :: encs.flatten

/-- Each token list of `encs` is an encoding of the double at the same place of
`ds`. -/
def AreNumberEncodings : List Number → List (List Token) → Prop
  | [], [] => True
  | d :: ds, e :: es => IsNumberEncoding d e ∧ AreNumberEncodings ds es
  | _, _ => False

/-- The shortest encoding of a byte. -/
def encodeByte (v : Byte) : List Token := if v < 26 then encodeByte1 v else encodeByte2 v

/-- The encoding of a double with the selector `8` and the shortest encoding of
each byte. -/
def encodeNumber (d : Number) : List Token := 0x38 :: ((bytesLE 8 d).map encodeByte).flatten

/-- The reader `r1` differs from `r` at most in the cursor, the depth and the
error: the buffer, its end, the version, the deobfuscation mode and the symbol
table are those of `r`. -/
def Reader.SameTable (r r1 : Reader) : Prop :=
  r1._data = r._data ∧ r1._start = r._start ∧ r1._end = r._end ∧ r1._version = r._version ∧
  r1._jsxblind_deobfuscate = r._jsxblind_deobfuscate ∧ r1._symbols = r._symbols

/-! ## The lazy node depth -/

/-- The method `Reader::peek(offset)`: `_data[_cursor + offset]`. -/
def Reader.peek (r : Reader) (offset : Int) : Token :=
  r.dataAt (((r._cursor : Int) + offset) % (SIZE_MOD : Int)).toNat

/-- The method `Reader::parse_node_depth`, with a bound on the depth of its
recursion; `none` when the bound is used up or a `get` never ends. The calls
`peek()` and `step()` take the default arguments of reader.h (not among the
sources): offset 0 and offset 1, the token at the cursor and one token forward.
The sum `levels + parse_node_depth()` is kept as a mathematical integer. -/
def Reader.parse_node_depth_loop : Nat → Reader → Option (Int × Reader)
  | 0, _ => none
  | fuel + 1, r =>
    let current := r.peek 0
    if current = 0x41 then
      some (1, r.step 1)
    else if current = 0x30 then
      match (r.step 1).get with
      | none => none
      | some (t, r2) =>
        let levels : Int := (t : Int) - 0x3f
        if levels > 0x1b then
          match Reader.parse_node_depth_loop fuel r2 with
          | none => none
          | some (d, r3) => some (levels + d, r3)
        else some (levels, r2)
    else some (0, r)

/-- The method `Reader::parse_node_depth`. Every level of the recursion starts
on a `0` of the buffer further right than the one before, so there are at most
as many levels as the buffer has tokens. -/
def Reader.parse_node_depth (r : Reader) : Option (Int × Reader) :=
  Reader.parse_node_depth_loop (r._data.length + 1) r

/-- The method `Reader::update_node_depth`: the `int` is stored in a `size_t`. -/
def Reader.update_node_depth (r : Reader) : Option Reader :=
  match r.parse_node_depth with
  | none => none
  | some (d, r1) => some { r1 with _depth := (d % (SIZE_MOD : Int)).toNat }

/-- The method `Reader::get_node_depth`. -/
def Reader.get_node_depth (r : Reader) : Option (Nat × Reader) :=
  if r._depth = 0 then
    match r.update_node_depth with
    | none => none
    | some r1 => some (r1._depth, r1)
  else some (r._depth, r)

/-- The method `Reader::decrement_node_depth`. -/
def Reader.decrement_node_depth (r : Reader) : Option (Bool × Reader) :=
  match r.get_node_depth with
  | none => none
  | some (d, r1) =>
    if d = 0 then some (false, r1)
    else some (true, { r1 with _depth := r1._depth - 1 })

/-! ## Vocabulary of the later statements -/

/-- No token of the buffer is one that `get` skips. -/
def Reader.Stripped (r : Reader) : Prop := ∀ t ∈ r._data, Reader._ignorable t = false

instance (r : Reader) : Decidable r.Stripped := by
  unfold Reader.Stripped; infer_instance

/-- One of the five characters the constructor removes: blank, tab, CR, LF,
backslash. -/
def isStrippedChar (t : Token) : Bool :=
  t == 0x20 || t == 0x09 || t == 0x0D || t == 0x0A || t == 0x5C

/-- The `size_t` fields that index the buffer, and the length of the buffer,
are below `2 ^ 64`. -/
def Reader.Sized (r : Reader) : Prop :=
  r._cursor < SIZE_MOD ∧ r._end < SIZE_MOD ∧ r._data.length < SIZE_MOD

instance (r : Reader) : Decidable r.Sized := by
  unfold Reader.Sized; infer_instance

/-- The index at which `Reader::_next` reads `_data`: `_cursor` while
`_cursor < _end`, and `_end` otherwise. -/
def Reader.nextIndex (r : Reader) : Nat := if r._cursor < r._end then r._cursor else r._end

/-- What every operation keeps: the buffer and its end, an error once it is
raised, and a cursor in the range of `size_t`. -/
def Reader.Sticky (r r1 : Reader) : Prop :=
  r1._data = r._data ∧ r1._end = r._end ∧
  (r._error ≠ ParseError.None → r1._error ≠ ParseError.None) ∧
  (r._end < SIZE_MOD → r._cursor < SIZE_MOD → r1._cursor < SIZE_MOD)

/-- The operations of the reader. -/
inductive Op where
  | get
  | getByte
  | getNumber
  | getString
  | getBoolean
  | getVariant
  | readSID
  | get_node_depth
  | decrement_node_depth
  | verifySignature
  deriving DecidableEq, Repr

/-- The reader after one operation; `none` when the operation never returns. -/
def Reader.perform (sig : Signatures) (op : Op) (r : Reader) : Option Reader :=
  match op with
  | Op.get => (r.get).map (fun p => p.2)
  | Op.getByte => (r.getByte).map (fun p => p.2)
  | Op.getNumber => (r.getNumber).map (fun p => p.2)
  | Op.getString => (r.getString).map (fun p => p.2)
  | Op.getBoolean => (r.getBoolean).map (fun p => p.2)
  | Op.getVariant => (r.getVariant).map (fun p => p.2)
  | Op.readSID => (r.readSID).map (fun p => p.2)
  | Op.get_node_depth => (r.get_node_depth).map (fun p => p.2)
  | Op.decrement_node_depth => (r.decrement_node_depth).map (fun p => p.2)
  | Op.verifySignature => some (r.verifySignature sig).2

/-- The signed magnitude of a non-NaN double, which orders as the double does. -/
def Number.order (a : Number) : Int :=
  if Number.signBit a = 1 then -((a % 2 ^ 63 : Nat) : Int) else ((a % 2 ^ 63 : Nat) : Int)

/-- The call `readSID` on `r` decodes a definition whose id is the key `i`. -/
def Reader.Redefines (i : Number) (r : Reader) : Prop :=
  ∃ (r1 r2 r3 : Reader) (s : ByteString) (id : Number),
    r.get = some (0x7A, r1) ∧ r1.getString = some (s, r2) ∧ r2.getNumber = some (id, r3) ∧
    Number.sameKey id i = true

/-- The reader `r1` is reached from `r` by a sequence of operations, each
allowed by `ok` in the state it is made in. -/
inductive Reader.Reaches (sig : Signatures) (ok : Op → Reader → Prop) : Reader → Reader → Prop
  | refl (r : Reader) : Reader.Reaches sig ok r r
  | step (r r1 r2 : Reader) (op : Op) : Reader.Reaches sig ok r r1 → ok op r1 →
      r1.perform sig op = some r2 → Reader.Reaches sig ok r r2

/-- No key of the table is a NaN. -/
def NoNaNKey (m : List (Number × ByteString)) : Prop := ∀ e ∈ m, Number.isNaN e.1 = false

instance (m : List (Number × ByteString)) : Decidable (NoNaNKey m) := by
  unfold NoNaNKey; infer_instance

/-! ## The XML assignment expression -/

/-- A child as `XMLAssignmentExpr` holds it, an `AstNode*`: the address, which is
the identity of the node, and the text its `jsx()` returns. -/
structure AstNode where
  addr : Nat
  jsx : String
  deriving DecidableEq, Repr

/-- Modelled from the spec: the member `children` is declared in
XMLAssignmentExpr.h (not among the sources); the spec calls it an
order-preserving association from child node to a small integer. It is kept as
the list of its entries in insertion order. -/
abbrev Children := List (AstNode × Int)

/-- The call `children.insert_or_assign(child, tag)`: the entry of the same node
gets the new tag, or the pair becomes the last entry. -/
def insert_or_assign (children : Children) (child : AstNode) (tag : Int) : Children :=
  match children with
  | [] => [(child, tag)]
  | (c, t) :: rest =>
    if c.addr = child.addr then (c, tag) :: rest
    else (c, t) :: insert_or_assign rest child tag

/-- The functions `decoders::d_length` and `decoders::d_node` of decoders.h (not
among the sources), which the node calls on the reader: they are parameters of
`parse`. -/
structure Decoders where
  d_length : Reader → Option (Nat × Reader)
  d_node : Reader → Option (AstNode × Reader)

namespace XMLAssignmentExpr

/-- The loop of `XMLAssignmentExpr::parse`, `k` iterations remaining. C++ does not
fix the order in which the two arguments of
`insert_or_assign(d_node(reader), d_length(reader))` are evaluated: with
`nodeFirst` the compiler evaluates them left to right, without it right to
left. -/
def parseLoop (dec : Decoders) (nodeFirst : Bool) : Nat → Children → Reader →
    Option (Children × Reader)
  | 0, children, r => some (children, r)
  | k + 1, children, r =>
    if nodeFirst then
      match dec.d_node r with
      | none => none
      | some (child, r1) =>
        match dec.d_length r1 with
        | none => none
        | some (tag, r2) => parseLoop dec nodeFirst k (insert_or_assign children child tag) r2
    else
      match dec.d_length r with
      | none => none
      | some (tag, r1) =>
        match dec.d_node r1 with
        | none => none
        | some (child, r2) => parseLoop dec nodeFirst k (insert_or_assign children child tag) r2

/-- The method `XMLAssignmentExpr::parse`. -/
def parse (dec : Decoders) (nodeFirst : Bool) (children : Children) (r : Reader) :
    Option (Children × Reader) :=
  match dec.d_length r with
  | none => none
  | some (length, r1) => parseLoop dec nodeFirst length children r1

/-- The constant `TYPE_NORMAL` of `XMLAssignmentExpr::jsx`. -/
def TYPE_NORMAL : Int := 0

/-- The constant `TYPE_ELEM_PLACEHOLDER` of `XMLAssignmentExpr::jsx`. -/
def TYPE_ELEM_PLACEHOLDER : Int := 1

/-- The constant `TYPE_ATTR_PLACEHOLDER` of `XMLAssignmentExpr::jsx`. -/
def TYPE_ATTR_PLACEHOLDER : Int := 2

/-- The constant `TYPE_VALUE_PLACEHOLDER` of `XMLAssignmentExpr::jsx`. -/
def TYPE_VALUE_PLACEHOLDER : Int := 3

/-- The method `XMLAssignmentExpr::jsx`. -/
def jsx (children : Children) : String :=
  children.foldl
    (fun result child =>
      if child.2 = TYPE_NORMAL then result ++ child.1.jsx
      else result ++ (" + " ++ child.1.jsx ++ " + "))
    ""

end XMLAssignmentExpr

/-- The text one child contributes: its own text when tagged 0, and its text
between two ` + ` otherwise. -/
def renderChild (child : AstNode × Int) : String :=
  if child.2 = 0 then child.1.jsx else " + " ++ child.1.jsx ++ " + "

/-- The texts of the children, one after the other. -/
def renderChildren : List (AstNode × Int) → String
  | [] => ""
  | child :: rest => renderChild child ++ renderChildren rest

/-- The association after the pairs were inserted in order. -/
def insertAll (pairs : List (AstNode × Int)) : Children :=
  pairs.foldl (fun children p => insert_or_assign children p.1 p.2) []

/-- The children of the pairs are different nodes. -/
def DistinctChildren (pairs : List (AstNode × Int)) : Prop :=
  pairs.Pairwise (fun p q => p.1.addr ≠ q.1.addr)

instance (pairs : List (AstNode × Int)) : Decidable (DistinctChildren pairs) := by
  unfold DistinctChildren; infer_instance

/-- Modelled from the spec: `decoders::d_length`, "a length-prefixed Number
decode": the next Number as a count. -/
def d_length (r : Reader) : Option (Nat × Reader) :=
  match r.getNumber with
  | none => none
  | some (x, r1) => some (number_as_int 64 x, r1)

/-- Modelled from the spec: a stand-in for `decoders::d_node`, whose dispatch
table is not among the sources: it reads one tag token and makes a leaf node
that renders as that character; the address of the new node is the place of the
tag in the buffer. -/
def d_node_leaf (r : Reader) : Option (AstNode × Reader) :=
  match r.get with
  | none => none
  | some (t, r1) => some ({ addr := r._cursor, jsx := String.singleton (Char.ofNat t) }, r1)

/-- The decoders used to run `parse` on a concrete stream. -/
def leafDecoders : Decoders := { d_length := d_length, d_node := d_node_leaf }

/-- The pairs read from the stream in the order child, tag, child, tag, ...:
`k` pairs, each a `d_node` followed by a `d_length`. -/
def decodePairs (dec : Decoders) : Nat → Reader → Option (List (AstNode × Int) × Reader)
  | 0, r => some ([], r)
  | k + 1, r =>
    match dec.d_node r with
    | none => none
    | some (child, r1) =>
      match dec.d_length r1 with
      | none => none
      | some (tag, r2) =>
        match decodePairs dec k r2 with
        | none => none
        | some (pairs, r3) => some ((child, (tag : Int)) :: pairs, r3)

/-! # Theorems -/

/-! ## The signature check -/

/-- With well-formed signatures a buffer matches a signature exactly when its
prefix of `JSXBIN_SIGNATURE_LEN` bytes is that signature. -/
theorem bytes_eq_iff_take (data s : List Token) (len : Nat) (hs : s.length = len) :
    bytes_eq data s len = true ↔ data.take len = s := by
  unfold bytes_eq
  rw [beq_iff_eq, ← hs, List.take_length]

theorem Reader._ignorable_of_gt (t : Nat) (h : 0x20 < t) : Reader._ignorable t = false := by
  have h1 : t ≠ 0x20 := by omega
  have h2 : t ≠ 0x09 := by omega
  have h3 : t ≠ 0x0D := by omega
  have h4 : t ≠ 0x0A := by omega
  simp [Reader._ignorable, h1, h2, h3, h4]

theorem Reader.getLoop_of_not_ignorable (fuel : Nat) (t : Nat) (r : Reader)
    (h : Reader._ignorable t = false) : Reader.getLoop (fuel + 1) t r = some (t, r) := by
  simp [Reader.getLoop, h]

theorem Reader.get_of_not_ignorable (r : Reader) (h : Reader._ignorable (r._next).1 = false) :
    r.get = some r._next := by
  unfold Reader.get
  rw [Reader.getLoop_of_not_ignorable _ _ _ h]

theorem Reader.after_zero (r : Reader) (h : r._cursor ≤ r._end) : r.after 0 = r := by
  simp [Reader.after, h]

@[simp] theorem Reader.after_depth (r : Reader) (k : Nat) : (r.after k)._depth = r._depth := by
  unfold Reader.after; split <;> rfl

@[simp] theorem Reader.after_data (r : Reader) (k : Nat) : (r.after k)._data = r._data := by
  unfold Reader.after; split <;> rfl

@[simp] theorem Reader.after_end (r : Reader) (k : Nat) : (r.after k)._end = r._end := by
  unfold Reader.after; split <;> rfl

@[simp] theorem Reader.after_symbols (r : Reader) (k : Nat) :
    (r.after k)._symbols = r._symbols := by
  unfold Reader.after; split <;> rfl

@[simp] theorem Reader.after_deobfuscate (r : Reader) (k : Nat) :
    (r.after k)._jsxblind_deobfuscate = r._jsxblind_deobfuscate := by
  unfold Reader.after; split <;> rfl

theorem Reader.after_error (r : Reader) (k : Nat) :
    (r.after k)._error = r._error ∨ (r.after k)._error = ParseError.ReachedEnd := by
  unfold Reader.after; split
  · left; rfl
  · right; rfl

theorem Reader.tokensAt_getElem (r : Reader) (j : Nat) (toks : List Token)
    (h : r.tokensAt j toks) (i : Nat) (t : Nat) (ht : toks[i]? = some t) :
    r._data[r._cursor + j + i]? = some t := by
  obtain ⟨rest, hrest⟩ := h
  have h1 : (r._data.drop (r._cursor + j))[i]? = some t := by
    rw [← hrest, List.getElem?_append_left, ht]
    exact (List.getElem?_eq_some_iff.mp ht).1
  rwa [List.getElem?_drop] at h1

/-- Reading one token that is not ignorable: the token in front of the cursor
is returned and the reader has moved over it. -/
theorem Reader.get_after (r : Reader) (hw : r.EndIsLast) (j : Nat) (t : Nat)
    (ht : r._data[r._cursor + j]? = some t) (hi : Reader._ignorable t = false) :
    (r.after j).get = some (t, r.after (j + 1)) := by
  have hlt : r._cursor + j < r._data.length := (List.getElem?_eq_some_iff.mp ht).1
  unfold Reader.EndIsLast at hw
  have hle : r._cursor + j ≤ r._end := by omega
  have hd : r._data[r._cursor + j]?.getD 0 = t := by
    rw [ht]; rfl
  by_cases hc : r._cursor + j < r._end
  · have hn : (r.after j)._next = (t, r.after (j + 1)) := by
      have h1 : r._cursor + (j + 1) ≤ r._end := by omega
      simp [Reader.after, hle, h1, Reader._next, hc, Reader.dataAt, hd, Nat.add_assoc]
    rw [Reader.get_of_not_ignorable _ (by rw [hn]; exact hi), hn]
  · have he : r._cursor + j = r._end := by omega
    have hn : (r.after j)._next = (t, r.after (j + 1)) := by
      have h1 : ¬ r._cursor + (j + 1) ≤ r._end := by omega
      simp [Reader.after, hle, h1, Reader._next, Reader.dataAt, he]
      rw [← he]; exact hd
    rw [Reader.get_of_not_ignorable _ (by rw [hn]; exact hi), hn]

/-! ## Bytes -/

set_option maxRecDepth 100000 in
theorem lor_low_high : ∀ v, v < 256 → (v % 32) ||| (32 * (v / 32)) = v := by decide

theorem Reader.getByte_encodeByte1 (r : Reader) (hw : r.EndIsLast) (hd : r._depth = 0)
    (j : Nat) (v : Nat) (hv : v < 26) (ht : r._data[r._cursor + j]? = some (0x41 + v)) :
    (r.after j).getByte = some (v, r.after (j + 1)) := by
  have hi : Reader._ignorable (0x41 + v) = false := by
    apply Reader._ignorable_of_gt; omega
  have hg := Reader.get_after r hw j _ ht hi
  unfold Reader.getByte
  have h1 : ¬ (0x41 + v = 0x30) := by omega
  have h2 : ¬ (0x41 + v > 0x5A) := by omega
  have h3 : (0x41 + v + 256 - 0x41) % 256 = v := by omega
  simp only [Reader.after_depth, hd, gt_iff_lt, lt_irrefl, if_false, hg, h1, h2, h3]

theorem Reader.getByte_encodeByte2 (r : Reader) (hw : r.EndIsLast) (hd : r._depth = 0)
    (j : Nat) (v : Nat) (hv : v < 256)
    (ht0 : r._data[r._cursor + j]? = some (0x67 + v / 32))
    (ht1 : r._data[r._cursor + j + 1]? = some (lowToken (v % 32))) :
    (r.after j).getByte = some (v, r.after (j + 2)) := by
  have hi0 : Reader._ignorable (0x67 + v / 32) = false := by
    apply Reader._ignorable_of_gt; omega
  have hi1 : Reader._ignorable (lowToken (v % 32)) = false := by
    apply Reader._ignorable_of_gt; unfold lowToken; split <;> omega
  have hg0 := Reader.get_after r hw j _ ht0 hi0
  have hg1 := Reader.get_after r hw (j + 1) _ (by rw [← Nat.add_assoc]; exact ht1) hi1
  unfold Reader.getByte
  have h1 : ¬ (0x67 + v / 32 = 0x30) := by omega
  have h2 : 0x67 + v / 32 > 0x5A := by omega
  have h3 : ¬ (0x67 + v / 32 > 0x6E) := by omega
  have hr : 32 * (0x67 + v / 32 + 1) % 256 = 32 * (v / 32) := by omega
  simp only [Reader.after_depth, hd, gt_iff_lt, lt_irrefl, if_false, hg0, h1, hg1, hr]
  simp only [gt_iff_lt] at h2 h3
  simp only [h2, h3, if_true, if_false]
  by_cases hx : v % 32 < 26
  · have hz : lowToken (v % 32) = 0x41 + v % 32 := by simp [lowToken, hx]
    have h4 : ¬ (0x5A < 0x41 + v % 32) := by omega
    have h5 : (0x41 + v % 32 + 256 - 0x41) % 256 = v % 32 := by omega
    rw [hz]
    simp only [h4, if_false, h5, lor_low_high v hv]
  · have hz : lowToken (v % 32) = 0x61 + (v % 32 - 26) := by simp [lowToken, hx]
    have h4 : 0x5A < 0x61 + (v % 32 - 26) := by omega
    have h4b : ¬ (0x66 < 0x61 + (v % 32 - 26)) := by omega
    have h5 : (0x61 + (v % 32 - 26) + 256 - 0x47) % 256 = v % 32 := by omega
    rw [hz]
    simp only [h4, h4b, if_true, if_false, h5, lor_low_high v hv]

/-- C2. Byte round-trip through `getByte` at depth 0. (a) For every `v` in
0..25 the single token `0x41 + v` in front of the cursor decodes to `v`.
(b) For every `v` in 0..255 the two tokens `0x67 + v / 32`, `lowToken (v % 32)`
decode to exactly `v`. In both cases the tokens are consumed and the error
state is what it was, or `ReachedEnd` when the encoding ends the buffer: this
call sets no `DecodeError`. -/
theorem getByte_roundtrip (r : Reader) (hw : r.EndIsLast) (hd : r._depth = 0) :
    (∀ v : Nat, v < 26 → r.tokensAt 0 (encodeByte1 v) →
      r.getByte = some (v, r.after 1) ∧
      ((r.after 1)._error = r._error ∨ (r.after 1)._error = ParseError.ReachedEnd)) ∧
    (∀ v : Nat, v < 256 → r.tokensAt 0 (encodeByte2 v) →
      r.getByte = some (v, r.after 2) ∧
      ((r.after 2)._error = r._error ∨ (r.after 2)._error = ParseError.ReachedEnd)) := by
  constructor
  · intro v hv ht
    have h0 := Reader.tokensAt_getElem r 0 _ ht 0 (0x41 + v) (by simp [encodeByte1])
    have hc : r._cursor ≤ r._end := by
      have := (List.getElem?_eq_some_iff.mp h0).1
      unfold Reader.EndIsLast at hw; omega
    have := Reader.getByte_encodeByte1 r hw hd 0 v hv h0
    rw [Reader.after_zero r hc] at this
    exact ⟨this, Reader.after_error r 1⟩
  · intro v hv ht
    have h0 := Reader.tokensAt_getElem r 0 _ ht 0 (0x67 + v / 32) (by simp [encodeByte2])
    have h1 := Reader.tokensAt_getElem r 0 _ ht 1 (lowToken (v % 32)) (by simp [encodeByte2])
    have hc : r._cursor ≤ r._end := by
      have := (List.getElem?_eq_some_iff.mp h0).1
      unfold Reader.EndIsLast at hw; omega
    have := Reader.getByte_encodeByte2 r hw hd 0 v hv h0 h1
    rw [Reader.after_zero r hc] at this
    exact ⟨this, Reader.after_error r 2⟩

/-- Witness of C2: in the buffer `nf` the two-token encoding of 255 ends the
buffer; `getByte` returns 255 and the error is `ReachedEnd`, not `DecodeError`. -/
theorem getByte_roundtrip_witness :
    (Reader.new [0x6E, 0x66] false).getByte =
      some (255, (Reader.new [0x6E, 0x66] false).after 2) ∧
    ((Reader.new [0x6E, 0x66] false).after 2)._error = ParseError.ReachedEnd :=
  ⟨((getByte_roundtrip (Reader.new [0x6E, 0x66] false) (by decide) (by decide)).2
      255 (by decide) (by decide)).1, by decide⟩

/-! ## Numbers -/

theorem Reader.getByte_lt (r r1 : Reader) (b : Nat) (h : r.getByte = some (b, r1)) :
    b < 256 := by
  unfold Reader.getByte at h
  have hl : ∀ x y : Nat, x % 256 ||| y % 256 < 256 := fun x y =>
    Nat.or_lt_two_pow (n := 8) (Nat.mod_lt _ (by norm_num)) (Nat.mod_lt _ (by norm_num))
  split at h
  · cases h; norm_num
  · split at h
    · cases h
    · split at h
      · split at h
        · cases h
        · split at h <;> (cases h; norm_num)
      · split at h
        · split at h
          · cases h; norm_num
          · split at h
            · cases h
            · dsimp only at h
              split at h
              · split at h
                · cases h; norm_num
                · cases h; exact hl _ _
              · cases h; exact hl _ _
        · cases h; exact Nat.mod_lt _ (by norm_num)

theorem Reader.getBytes_spec (k : Nat) : ∀ (r r1 : Reader) (bs : List Nat),
    Reader.getBytes k r = some (bs, r1) → bs.length = k ∧ ∀ b ∈ bs, b < 256 := by
  induction k with
  | zero =>
    intro r r1 bs h
    simp only [Reader.getBytes, Option.some.injEq, Prod.mk.injEq] at h
    obtain ⟨rfl, -⟩ := h
    simp
  | succ k ih =>
    intro r r1 bs h
    unfold Reader.getBytes at h
    split at h
    · cases h
    · rename_i b r2 hb
      split at h
      · cases h
      · rename_i bs2 r3 hbs
        cases h
        obtain ⟨hl, hall⟩ := ih _ _ _ hbs
        refine ⟨by simp [hl], ?_⟩
        intro x hx
        rcases List.mem_cons.mp hx with rfl | hx
        · exact Reader.getByte_lt _ _ _ hb
        · exact hall x hx

theorem fromBytesLE_lt : ∀ (bs : List Nat), (∀ b ∈ bs, b < 256) →
    fromBytesLE bs < 256 ^ bs.length
  | [], _ => by simp [fromBytesLE]
  | b :: bs, h => by
    have hb : b < 256 := h b (List.mem_cons_self _ _)
    have ih := fromBytesLE_lt bs (fun x hx => h x (List.mem_cons_of_mem _ hx))
    simp only [fromBytesLE, List.length_cons, pow_succ]
    nlinarith

/-- The byte `i` of `fromBytesLE bs` is the `i`-th element of `bs`. -/
theorem fromBytesLE_byte : ∀ (bs : List Nat), (∀ b ∈ bs, b < 256) → ∀ i, i < bs.length →
    fromBytesLE bs / 256 ^ i % 256 = bs.getD i 0
  | [], _, i, hi => by simp at hi
  | b :: bs, h, 0, _ => by
    have hb : b < 256 := h b (List.mem_cons_self _ _)
    simp only [fromBytesLE, pow_zero, Nat.div_one, List.getD_cons_zero]
    omega
  | b :: bs, h, i + 1, hi => by
    have hb : b < 256 := h b (List.mem_cons_self _ _)
    have ih := fromBytesLE_byte bs (fun x hx => h x (List.mem_cons_of_mem _ hx)) i
      (by simpa using hi)
    simp only [fromBytesLE, List.getD_cons_succ]
    rw [pow_succ, Nat.mul_comm (256 ^ i) 256, ← Nat.div_div_eq_div_mul]
    have : (b + 256 * fromBytesLE bs) / 256 = fromBytesLE bs := by omega
    rw [this, ih]

theorem fromBytesLE_bytesLE : ∀ (k d : Nat), fromBytesLE (bytesLE k d) = d % 256 ^ k
  | 0, d => by simp [bytesLE, fromBytesLE, Nat.mod_one]
  | k + 1, d => by
    simp only [bytesLE, fromBytesLE, fromBytesLE_bytesLE k (d / 256)]
    rw [pow_succ, Nat.mul_comm (256 ^ k) 256, Nat.mod_mul]

theorem add_mul_lt_of_byte (res b p : Nat) (h1 : res < p) (h2 : b < 256) :
    res + b * p < p * 256 := by
  have : b * p ≤ 255 * p := Nat.mul_le_mul_right _ (by omega)
  omega

theorem Number.setByte_fresh (x i b : Nat) (hx : x < 256 ^ i) (hb : b < 256) :
    Number.setByte x i b = x + b * 256 ^ i := by
  unfold Number.setByte
  rw [Nat.div_eq_of_lt hx, Nat.mod_eq_of_lt hb]
  simp

/-- The byte loop of `getNumber` is `k` calls of `getByte` whose results are
laid out lowest byte first. -/
theorem Reader.getNumberBytes_eq (k : Nat) : ∀ (i res : Nat) (r : Reader), res < 256 ^ i →
    Reader.getNumberBytes k i res r =
      (Reader.getBytes k r).map (fun p => (res + fromBytesLE p.1 * 256 ^ i, p.2)) := by
  induction k with
  | zero => intro i res r _; simp [Reader.getNumberBytes, Reader.getBytes, fromBytesLE]
  | succ k ih =>
    intro i res r hres
    unfold Reader.getNumberBytes Reader.getBytes
    cases hb : r.getByte with
    | none => simp
    | some p =>
      obtain ⟨b, r1⟩ := p
      have hlt := Reader.getByte_lt _ _ _ hb
      have hs := Number.setByte_fresh res i b hres hlt
      have hres1 : Number.setByte res i b < 256 ^ (i + 1) := by
        rw [hs, pow_succ]; exact add_mul_lt_of_byte _ _ _ hres hlt
      simp only [ih (i + 1) _ r1 hres1]
      cases hbs : Reader.getBytes k r1 with
      | none => simp
      | some q =>
        simp only [Option.map_some', hs, fromBytesLE, pow_succ]
        congr 2
        ring

theorem Number.mulSign_of_not_nan (neg : Bool) (x : Nat) (h : Number.isNaN x = false) :
    Number.mulSign neg x = if neg then Number.flipSign x else x := by
  simp [Number.mulSign, h]

theorem Reader.tokensAt_append (r : Reader) (j : Nat) (a b : List Nat)
    (h : r.tokensAt j (a ++ b)) : r.tokensAt j a ∧ r.tokensAt (j + a.length) b := by
  obtain ⟨rest, hrest⟩ := h
  constructor
  · exact ⟨b ++ rest, by rw [← hrest, List.append_assoc]⟩
  · refine ⟨rest, ?_⟩
    have : r._data.drop (r._cursor + (j + a.length)) =
        (r._data.drop (r._cursor + j)).drop a.length := by
      rw [List.drop_drop]; congr 1; omega
    rw [this, ← hrest, List.append_assoc, List.drop_left]

theorem Reader.tokensAt_cons (r : Reader) (j : Nat) (t : Nat) (b : List Nat)
    (h : r.tokensAt j (t :: b)) :
    r._data[r._cursor + j]? = some t ∧ r.tokensAt (j + 1) b := by
  have h2 := Reader.tokensAt_append r j [t] b h
  exact ⟨Reader.tokensAt_getElem r j _ h 0 t (by simp), h2.2⟩

/-- Reading back a sequence of encoded bytes. -/
theorem Reader.getBytes_encodings (r : Reader) (hw : r.EndIsLast) (hd : r._depth = 0) :
    ∀ (vs : List Nat) (encs : List (List Nat)), AreByteEncodings vs encs →
    ∀ j, r.tokensAt j encs.flatten →
      Reader.getBytes vs.length (r.after j) = some (vs, r.after (j + encs.flatten.length))
  | [], [], _, j, _ => by simp [Reader.getBytes]
  | [], _ :: _, h, _, _ => by simp [AreByteEncodings] at h
  | _ :: _, [], h, _, _ => by simp [AreByteEncodings] at h
  | v :: vs, e :: es, h, j, ht => by
    obtain ⟨he, hes⟩ := h
    rw [List.flatten_cons] at ht
    obtain ⟨hte, htes⟩ := Reader.tokensAt_append r j e es.flatten ht
    have ih := Reader.getBytes_encodings r hw hd vs es hes (j + e.length) htes
    have hb : (r.after j).getByte = some (v, r.after (j + e.length)) := by
      rcases he with ⟨hv, rfl⟩ | ⟨hv, rfl⟩
      · exact Reader.getByte_encodeByte1 r hw hd j v hv
          (Reader.tokensAt_getElem r j _ hte 0 _ (by simp [encodeByte1, encodeByte2]))
      · exact Reader.getByte_encodeByte2 r hw hd j v hv
          (Reader.tokensAt_getElem r j _ hte 0 _ (by simp [encodeByte1, encodeByte2]))
          (Reader.tokensAt_getElem r j _ hte 1 _ (by simp [encodeByte2]))
    simp only [List.length_cons, Reader.getBytes, hb, ih, List.flatten_cons, List.length_append,
      Nat.add_assoc]

/-- Reading back an encoded number: the selector `8` and the encodings of the
eight bytes of `d` give back the pattern `d`. -/
theorem Reader.getNumber_encoded (r : Reader) (hw : r.EndIsLast) (hd : r._depth = 0)
    (d : Nat) (hd64 : d < 2 ^ 64) (hnan : Number.isNaN d = false) (encs : List (List Nat))
    (henc : AreByteEncodings (bytesLE 8 d) encs) (j : Nat)
    (ht : r.tokensAt j (0x38 :: encs.flatten)) :
    (r.after j).getNumber = some (d, r.after (j + (1 + encs.flatten.length))) := by
  obtain ⟨h0, hrest⟩ := Reader.tokensAt_cons r j _ _ ht
  have hg := Reader.get_after r hw j 0x38 h0 (by decide)
  have hbs := Reader.getBytes_encodings r hw hd _ _ henc (j + 1) hrest
  have hlen : (bytesLE 8 d).length = 8 := by simp [bytesLE]
  rw [hlen] at hbs
  have hnb := Reader.getNumberBytes_eq 8 0 0 (r.after (j + 1)) (by norm_num)
  rw [hbs] at hnb
  have hfb : fromBytesLE (bytesLE 8 d) = d := by
    rw [fromBytesLE_bytesLE]; exact Nat.mod_eq_of_lt (by norm_num; exact hd64)
  simp only [Option.map_some', hfb, pow_zero, Nat.mul_one, Nat.zero_add] at hnb
  unfold Reader.getNumber
  simp only [Reader.after_depth, hd, gt_iff_lt, lt_irrefl, if_false, hg]
  simp [hnb, Number.mulSign, hnan, Nat.add_assoc]

/-- C3. Number round-trip at the bit level. For every pattern `d` of a non-NaN
double, `getNumber` at depth 0 on the selector token `8` followed by encodings
of the eight bytes of `d`, lowest byte first, returns exactly `d` and consumes
the tokens. More generally, after a selector `2`, `4` or `8` (with or without
the sign token `y` before it) `getNumber` makes exactly that many `getByte`
calls and byte `i` of the pattern it builds from zero is the result of call
`i`; the value returned is that pattern times the sign. -/
theorem getNumber_roundtrip (r : Reader) (hd : r._depth = 0) :
    (r.EndIsLast → ∀ (d : Nat) (encs : List (List Nat)), d < 2 ^ 64 → Number.isNaN d = false →
      AreByteEncodings (bytesLE 8 d) encs → r.tokensAt 0 (0x38 :: encs.flatten) →
      r.getNumber = some (d, r.after (1 + encs.flatten.length))) ∧
    (∀ (t : Nat) (r1 : Reader), r.get = some (t, r1) → (t = 0x32 ∨ t = 0x34 ∨ t = 0x38) →
      r.getNumber = (Reader.getBytes (t - 48) r1).map
        (fun p => (Number.mulSign false (fromBytesLE p.1), p.2))) ∧
    (∀ (t : Nat) (r1 r2 : Reader), r.get = some (0x79, r1) → r1.get = some (t, r2) →
      (t = 0x32 ∨ t = 0x34 ∨ t = 0x38) →
      r.getNumber = (Reader.getBytes (t - 48) r2).map
        (fun p => (Number.mulSign true (fromBytesLE p.1), p.2))) ∧
    (∀ (k : Nat) (r1 r2 : Reader) (bs : List Nat), Reader.getBytes k r1 = some (bs, r2) →
      bs.length = k ∧ fromBytesLE bs < 256 ^ k ∧
      ∀ i, i < k → fromBytesLE bs / 256 ^ i % 256 = bs.getD i 0) := by
  refine ⟨?_, ?_, ?_, ?_⟩
  · intro hw d encs hd64 hnan henc ht
    have h0 := (Reader.tokensAt_cons r 0 _ _ ht).1
    have hc : r._cursor ≤ r._end := by
      have := (List.getElem?_eq_some_iff.mp h0).1
      unfold Reader.EndIsLast at hw; omega
    have := Reader.getNumber_encoded r hw hd d hd64 hnan encs henc 0 ht
    rwa [Reader.after_zero r hc, Nat.zero_add] at this
  · intro t r1 hg ht
    have hy : t ≠ 0x79 := by omega
    have hnb := Reader.getNumberBytes_eq (t - 48) 0 0 r1 (by norm_num)
    unfold Reader.getNumber
    simp only [hd, gt_iff_lt, lt_irrefl, if_false, hg, hy, ne_eq, not_false_eq_true, if_true, ht,
      hnb]
    cases Reader.getBytes (t - 48) r1 <;> simp
  · intro t r1 r2 hg hg2 ht
    have hnb := Reader.getNumberBytes_eq (t - 48) 0 0 r2 (by norm_num)
    unfold Reader.getNumber
    simp only [hd, gt_iff_lt, lt_irrefl, if_false, hg, ne_eq, not_true_eq_false, hg2, ht, if_true,
      hnb]
    cases Reader.getBytes (t - 48) r2 <;> simp
  · intro k r1 r2 bs h
    obtain ⟨hl, hall⟩ := Reader.getBytes_spec k r1 r2 bs h
    refine ⟨hl, hl ▸ fromBytesLE_lt bs hall, fun i hi => ?_⟩
    exact fromBytesLE_byte bs hall i (hl ▸ hi)

/-- Witness of C3: the doubles `0.0`, `-1.0` and `1234.5` written with the
selector `8` (buffers `8AAAAAAAA`, `8AAAAAAnQlf`, `8AAAAAiKkTiA`) are read back
bit for bit. -/
theorem getNumber_roundtrip_witness :
    (Reader.new [0x38, 0x41, 0x41, 0x41, 0x41, 0x41, 0x41, 0x41, 0x41] false).getNumber =
      some (0x0000000000000000,
        (Reader.new [0x38, 0x41, 0x41, 0x41, 0x41, 0x41, 0x41, 0x41, 0x41] false).after 9) ∧
    (Reader.new [0x38, 0x41, 0x41, 0x41, 0x41, 0x41, 0x41, 0x6E, 0x51, 0x6C, 0x66]
        false).getNumber =
      some (0xBFF0000000000000,
        (Reader.new [0x38, 0x41, 0x41, 0x41, 0x41, 0x41, 0x41, 0x6E, 0x51, 0x6C, 0x66]
          false).after 11) ∧
    (Reader.new [0x38, 0x41, 0x41, 0x41, 0x41, 0x41, 0x69, 0x4B, 0x6B, 0x54, 0x69, 0x41]
        false).getNumber =
      some (0x40934A0000000000,
        (Reader.new [0x38, 0x41, 0x41, 0x41, 0x41, 0x41, 0x69, 0x4B, 0x6B, 0x54, 0x69, 0x41]
          false).after 12) :=
  ⟨(getNumber_roundtrip _ (by decide)).1 (by decide) 0x0000000000000000
      [[0x41], [0x41], [0x41], [0x41], [0x41], [0x41], [0x41], [0x41]]
      (by decide) (by decide) (by decide) (by decide),
   (getNumber_roundtrip _ (by decide)).1 (by decide) 0xBFF0000000000000
      [[0x41], [0x41], [0x41], [0x41], [0x41], [0x41], [0x6E, 0x51], [0x6C, 0x66]]
      (by decide) (by decide) (by decide) (by decide),
   (getNumber_roundtrip _ (by decide)).1 (by decide) 0x40934A0000000000
      [[0x41], [0x41], [0x41], [0x41], [0x41], [0x69, 0x4B], [0x6B, 0x54], [0x69, 0x41]]
      (by decide) (by decide) (by decide) (by decide)⟩

/-! ## The single-byte fallback of `getNumber` -/

/-- Away from the last token of the buffer the fallback of `getNumber` is
`getByte`: when the token in front of the cursor is not the last one, is not
ignorable and is none of `y`, `2`, `4`, `8`, then at depth 0 `getNumber` returns
the byte `getByte` returns from the same state, as a double, and leaves the
state `getByte` leaves. -/
theorem getNumber_fallback_inner (r : Reader) (hd : r._depth = 0) (hc : r._cursor < r._end)
    (hend : r._end < SIZE_MOD)
    (hi : Reader._ignorable (r.dataAt r._cursor) = false)
    (hy : r.dataAt r._cursor ≠ 0x79) (h2 : r.dataAt r._cursor ≠ 0x32)
    (h4 : r.dataAt r._cursor ≠ 0x34) (h8 : r.dataAt r._cursor ≠ 0x38) :
    r.getNumber = (r.getByte).map (fun p => (Number.mulSign false (Number.ofNat p.1), p.2)) := by
  have hn : r._next = (r.dataAt r._cursor, { r with _cursor := r._cursor + 1 }) := by
    simp [Reader._next, hc]
  have hg : r.get = some (r.dataAt r._cursor, { r with _cursor := r._cursor + 1 }) := by
    rw [Reader.get_of_not_ignorable r (by rw [hn]; exact hi), hn]
  have hs : Reader.step { r with _cursor := r._cursor + 1 } (-1) = r := by
    unfold Reader.step
    have : (((r._cursor + 1 : Nat) : Int) + -1) % (SIZE_MOD : Int) = (r._cursor : Int) := by
      have h1 : (((r._cursor + 1 : Nat) : Int) + -1) = (r._cursor : Int) := by push_cast; ring
      rw [h1]
      apply Int.emod_eq_of_lt (by omega)
      have : r._cursor < SIZE_MOD := by omega
      exact_mod_cast this
    simp only [this, Int.toNat_ofNat]
  have hd0 : ¬ (r._depth > 0) := by omega
  unfold Reader.getNumber
  rw [if_neg hd0]
  simp only [hg, hy, ne_eq, not_false_eq_true, if_true, h2, h4, h8, or_self, if_false, hs]
  cases r.getByte <;> rfl

/-- C4 at the last token of the buffer. The reader is built from
`@JSXBIN@ES@2.0@C` and the signature is verified, so the cursor stands on the
last token `C`. `getByte` decodes `C` to 2, but `getNumber` steps back over a
token it never consumed and decodes the `@` before it: it returns 255.0. -/
theorem getNumber_fallback_last_token :
    (((Reader.new [0x40, 0x4A, 0x53, 0x58, 0x42, 0x49, 0x4E, 0x40, 0x45, 0x53, 0x40, 0x32,
        0x2E, 0x30, 0x40, 0x43] false).verifySignature jsxbinSignatures).2.getByte).map
      (fun p => (Number.ofNat p.1, p.2._cursor, p.2._depth, p.2._error)) =
      some (Number.ofNat 2, 15, 0, ParseError.ReachedEnd) ∧
    (((Reader.new [0x40, 0x4A, 0x53, 0x58, 0x42, 0x49, 0x4E, 0x40, 0x45, 0x53, 0x40, 0x32,
        0x2E, 0x30, 0x40, 0x43] false).verifySignature jsxbinSignatures).2.getNumber).map
      (fun p => (p.1, p.2._cursor, p.2._depth, p.2._error)) =
      some (Number.ofNat 255, 15, 0, ParseError.ReachedEnd) ∧
    Number.ofNat 2 ≠ Number.ofNat 255 := by
  decide

/-! ## Node depth -/

theorem Reader.callPrim_elided (c : PrimCall) (r : Reader) (h : 0 < r._depth) :
    r.callPrim c = some (0, { r with _depth := r._depth - 1 }) := by
  cases c <;> simp [Reader.callPrim, Reader.getByte, Reader.getNumber, h]

theorem Reader.runCalls_elided : ∀ (cs : List PrimCall) (r : Reader), cs.length ≤ r._depth →
    Reader.runCalls cs r =
      some (List.replicate cs.length 0, { r with _depth := r._depth - cs.length })
  | [], r, _ => by simp [Reader.runCalls]
  | c :: cs, r, h => by
    have h0 : 0 < r._depth := by simp only [List.length_cons] at h; omega
    have ih := Reader.runCalls_elided cs { r with _depth := r._depth - 1 }
      (by simp only [List.length_cons] at h; show cs.length ≤ r._depth - 1; omega)
    simp only [Reader.runCalls, Reader.callPrim_elided c r h0, ih, List.length_cons,
      List.replicate_succ, Option.some.injEq, Prod.mk.injEq, true_and]
    congr 1
    omega

theorem Reader.runCalls_append : ∀ (cs ds : List PrimCall) (r : Reader),
    Reader.runCalls (cs ++ ds) r =
      (Reader.runCalls cs r).bind (fun p =>
        (Reader.runCalls ds p.2).map (fun q => (p.1 ++ q.1, q.2)))
  | [], ds, r => by
    simp only [List.nil_append, Reader.runCalls, Option.some_bind]
    cases Reader.runCalls ds r <;> simp
  | c :: cs, ds, r => by
    have ih := Reader.runCalls_append cs ds
    simp only [List.cons_append, Reader.runCalls, List.append_eq]
    cases hc : r.callPrim c with
    | none => simp
    | some p =>
      obtain ⟨v, r1⟩ := p
      simp only [ih r1]
      cases h1 : Reader.runCalls cs r1 with
      | none => simp
      | some q =>
        simp only [Option.some_bind]
        cases Reader.runCalls ds q.2 <;> simp

/-- C5. Node-depth elision. From a reader whose depth is `k`, any `j ≤ k`
calls, each `getByte` or `getNumber` in any mix, all return zero and change
nothing but the depth, which is `k - j` after them (so the cursor, buffer,
error state and symbol table are untouched throughout, and the depth is 0
after `k` calls); and the call after `k` such calls is the call made on the
same reader with depth 0, which reads the token stream at the unchanged
cursor. -/
theorem depth_elision (r : Reader) (cs : List PrimCall)
    (hcs : cs.length ≤ r._depth) :
    Reader.runCalls cs r =
      some (List.replicate cs.length 0, { r with _depth := r._depth - cs.length }) ∧
    (cs.length = r._depth → ∀ c : PrimCall,
      Reader.runCalls (cs ++ [c]) r =
        (Reader.callPrim c { r with _depth := 0 }).map
          (fun p => (List.replicate cs.length 0 ++ [p.1], p.2))) := by
  have h1 := Reader.runCalls_elided cs r hcs
  refine ⟨h1, fun hlen c => ?_⟩
  rw [Reader.runCalls_append, h1]
  simp only [Option.some_bind, hlen, Nat.sub_self, Reader.runCalls]
  cases Reader.callPrim c { r with _depth := 0 } <;> simp

/-- Witness of C5: in the buffer `0BC` the marker `0B` makes `getByte` return 0
and set the depth to 2; the next two calls (`getNumber`, `getByte`) return zero
and leave the cursor on `C`, and the call after them decodes `C` to 2. -/
theorem depth_elision_witness :
    ((Reader.new [0x30, 0x42, 0x43] false).getByte).map (fun p => (p.1, p.2._depth, p.2._cursor)) =
      some (0, 2, 2) ∧
    Reader.runCalls [PrimCall.number, PrimCall.byte]
        { Reader.new [0x30, 0x42, 0x43] false with _depth := 2, _cursor := 2 } =
      some ([0, 0], { Reader.new [0x30, 0x42, 0x43] false with _depth := 0, _cursor := 2 }) ∧
    Reader.runCalls [PrimCall.number, PrimCall.byte, PrimCall.byte]
        { Reader.new [0x30, 0x42, 0x43] false with _depth := 2, _cursor := 2 } =
      some ([0, 0, 2], { Reader.new [0x30, 0x42, 0x43] false with
        _depth := 0, _cursor := 2, _error := ParseError.ReachedEnd }) :=
  ⟨by decide,
   (depth_elision { Reader.new [0x30, 0x42, 0x43] false with _depth := 2, _cursor := 2 }
      [PrimCall.number, PrimCall.byte] (by decide)).1,
   by decide⟩

/-! ## Integers as doubles -/

theorem Number.ilog2Aux_spec : ∀ (fuel n : Nat), 0 < n → n < 2 ^ fuel →
    2 ^ Number.ilog2Aux fuel n ≤ n ∧ n < 2 ^ (Number.ilog2Aux fuel n + 1)
  | 0, n, h0, h => by simp at h; omega
  | fuel + 1, n, h0, h => by
    unfold Number.ilog2Aux
    by_cases h2 : 2 ≤ n
    · have ih := Number.ilog2Aux_spec fuel (n / 2) (by omega) (by rw [pow_succ] at h; omega)
      simp only [h2, if_true, pow_succ]
      omega
    · simp only [h2, if_false]
      omega

theorem Number.ilog2_spec (n : Nat) (h0 : 0 < n) (h : n < 2 ^ 53) :
    2 ^ Number.ilog2 n ≤ n ∧ n < 2 ^ (Number.ilog2 n + 1) ∧ Number.ilog2 n ≤ 52 := by
  have h64 : n < 2 ^ 64 := lt_trans h (by norm_num)
  obtain ⟨h1, h2⟩ := Number.ilog2Aux_spec 64 n h0 h64
  refine ⟨h1, h2, ?_⟩
  by_contra hc
  have : 2 ^ 53 ≤ 2 ^ Number.ilog2 n := Nat.pow_le_pow_right (by norm_num) (by omega)
  have h1' : 2 ^ Number.ilog2 n ≤ n := h1
  omega

/-- The fields of the double made from a natural number below `2 ^ 53`. -/
theorem Number.ofNat_fields (n : Nat) (h0 : 0 < n) (h : n < 2 ^ 53) :
    Number.ofNat n < 2 ^ 63 ∧
    Number.expField (Number.ofNat n) = 1023 + Number.ilog2 n ∧
    Number.fracField (Number.ofNat n) =
      (n - 2 ^ Number.ilog2 n) * 2 ^ (52 - Number.ilog2 n) := by
  obtain ⟨h1, h2, h3⟩ := Number.ilog2_spec n h0 h
  set e := Number.ilog2 n with he
  have hf : (n - 2 ^ e) * 2 ^ (52 - e) < 2 ^ 52 := by
    have hlt : n - 2 ^ e < 2 ^ e := by rw [pow_succ] at h2; omega
    calc (n - 2 ^ e) * 2 ^ (52 - e) < 2 ^ e * 2 ^ (52 - e) :=
          Nat.mul_lt_mul_of_pos_right hlt (by positivity)
      _ = 2 ^ 52 := by rw [← pow_add]; congr 1; omega
  have hof : Number.ofNat n = (1023 + e) * 2 ^ 52 + (n - 2 ^ e) * 2 ^ (52 - e) := by
    unfold Number.ofNat
    rw [if_neg (by omega)]
  refine ⟨?_, ?_, ?_⟩
  · rw [hof]
    have hle : (1023 + e) * 2 ^ 52 ≤ 1075 * 2 ^ 52 := Nat.mul_le_mul_right _ (by omega)
    calc (1023 + e) * 2 ^ 52 + (n - 2 ^ e) * 2 ^ (52 - e)
        < 1075 * 2 ^ 52 + 2 ^ 52 := Nat.add_lt_add_of_le_of_lt hle hf
      _ < 2 ^ 63 := by norm_num
  · unfold Number.expField
    rw [hof, Nat.add_comm, Nat.add_mul_div_right _ _ (by positivity), Nat.div_eq_of_lt hf,
      Nat.zero_add]
    exact Nat.mod_eq_of_lt (by norm_num; omega)
  · unfold Number.fracField
    rw [hof, Nat.add_comm, Nat.add_mul_mod_self_right]
    exact Nat.mod_eq_of_lt hf

theorem Number.truncMag_ofNat (n : Nat) (h : n < 2 ^ 53) :
    Number.truncMag (Number.ofNat n) = n := by
  by_cases h0 : n = 0
  · subst h0; decide
  have hpos : 0 < n := Nat.pos_of_ne_zero h0
  obtain ⟨h1, h2, h3⟩ := Number.ilog2_spec n hpos h
  obtain ⟨-, hexp, hfrac⟩ := Number.ofNat_fields n hpos h
  unfold Number.truncMag
  simp only [hexp, hfrac]
  set e := Number.ilog2 n with he
  rw [if_neg (by omega), if_neg (by omega)]
  have hsplit : 2 ^ 52 = 2 ^ e * 2 ^ (52 - e) := by rw [← pow_add]; congr 1; omega
  have hsum : 2 ^ 52 + (n - 2 ^ e) * 2 ^ (52 - e) = n * 2 ^ (52 - e) := by
    rw [hsplit, ← Nat.add_mul]; congr 1; omega
  by_cases he52 : 1075 ≤ 1023 + e
  · have : e = 52 := by omega
    rw [if_pos he52, hsum, this]; simp
  · rw [if_neg he52, hsum]
    have : 1075 - (1023 + e) = 52 - e := by omega
    rw [this, Nat.mul_div_cancel _ (by positivity)]

theorem Number.isNaN_ofNat (n : Nat) (h : n < 2 ^ 53) : Number.isNaN (Number.ofNat n) = false := by
  by_cases h0 : n = 0
  · subst h0; decide
  have hpos : 0 < n := Nat.pos_of_ne_zero h0
  obtain ⟨-, -, h3⟩ := Number.ilog2_spec n hpos h
  obtain ⟨-, hexp, -⟩ := Number.ofNat_fields n hpos h
  have hne : 1023 + Number.ilog2 n ≠ 2047 := by omega
  simp [Number.isNaN, hexp, hne]

theorem Number.ofNat_lt (n : Nat) (h : n < 2 ^ 53) : Number.ofNat n < 2 ^ 64 := by
  by_cases h0 : n = 0
  · subst h0; decide
  have := (Number.ofNat_fields n (Nat.pos_of_ne_zero h0) h).1
  exact lt_trans this (by norm_num)

theorem Number.signBit_ofNat (n : Nat) (h : n < 2 ^ 53) : Number.signBit (Number.ofNat n) = 0 := by
  by_cases h0 : n = 0
  · subst h0; decide
  have := (Number.ofNat_fields n (Nat.pos_of_ne_zero h0) h).1
  unfold Number.signBit
  rw [Nat.div_eq_of_lt this]

/-- A length or a code unit survives the trip through a double. -/
theorem number_as_int_ofNat (w n : Nat) (h53 : n < 2 ^ 53) (h : n < 2 ^ w) :
    number_as_int w (Number.ofNat n) = n := by
  unfold number_as_int
  rw [Number.truncMag_ofNat n h53, Nat.mod_eq_of_lt h]

theorem Number.expField_ofNat_ne (n : Nat) (h : n < 2 ^ 53) :
    Number.expField (Number.ofNat n) ≠ 2047 := by
  by_cases h0 : n = 0
  · subst h0; decide
  have hpos : 0 < n := Nat.pos_of_ne_zero h0
  obtain ⟨-, -, h3⟩ := Number.ilog2_spec n hpos h
  obtain ⟨-, hexp, -⟩ := Number.ofNat_fields n hpos h
  omega

/-- The fields of a double do not change with its sign bit. -/
theorem Number.fields_add_sign (x : Nat) (hx : x < 2 ^ 63) :
    Number.signBit (x + 2 ^ 63) = 1 ∧ Number.expField (x + 2 ^ 63) = Number.expField x ∧
    Number.fracField (x + 2 ^ 63) = Number.fracField x := by
  unfold Number.signBit Number.expField Number.fracField
  omega

/-- A non-negative integer id in the range of `int` survives the trip through a
double and the cast. -/
theorem number_to_int_ofNat (n : Nat) (h : n < 2 ^ 31) :
    number_to_int (Number.ofNat n) = (n : Int) := by
  have h53 : n < 2 ^ 53 := lt_trans h (by norm_num)
  unfold number_to_int
  simp only [Number.signBit_ofNat n h53, Number.truncMag_ofNat n h53,
    if_neg (Number.expField_ofNat_ne n h53), INT_MIN, INT_MAX]
  norm_num
  omega

/-- An integer id in the range of `int` survives the trip through a double and
the cast. -/
theorem number_to_int_ofInt (z : Int) (hlo : -2 ^ 31 ≤ z) (hhi : z < 2 ^ 31) :
    number_to_int (Number.ofInt z) = z := by
  by_cases hz : z < 0
  · have h53 : z.natAbs < 2 ^ 53 := by omega
    have h63 : Number.ofNat z.natAbs < 2 ^ 63 := by
      by_cases h0 : z.natAbs = 0
      · rw [h0]; decide
      · exact (Number.ofNat_fields _ (Nat.pos_of_ne_zero h0) h53).1
    obtain ⟨hs, he, hf⟩ := Number.fields_add_sign _ h63
    have ht : Number.truncMag (Number.ofNat z.natAbs + 2 ^ 63) = z.natAbs := by
      have e : Number.truncMag (Number.ofNat z.natAbs + 2 ^ 63) =
          Number.truncMag (Number.ofNat z.natAbs) := by
        unfold Number.truncMag
        rw [he, hf]
      rw [e, Number.truncMag_ofNat z.natAbs h53]
    unfold number_to_int Number.ofInt
    simp only [if_pos hz, hs, if_true, ht, he,
      if_neg (Number.expField_ofNat_ne z.natAbs h53), INT_MIN, INT_MAX]
    rw [if_pos (by omega)]
    omega
  · have hn : z.natAbs < 2 ^ 31 := by omega
    have e : Number.ofInt z = Number.ofNat z.natAbs := by
      unfold Number.ofInt; rw [if_neg hz]
    rw [e, number_to_int_ofNat _ hn]
    omega

/-- Outside the range of `int` the cast of an integer id gives `INT_MIN`. -/
theorem number_to_int_ofInt_large (z : Int) (hout : z < -2 ^ 31 ∨ 2 ^ 31 ≤ z)
    (h53 : z.natAbs < 2 ^ 53) : number_to_int (Number.ofInt z) = INT_MIN := by
  by_cases hz : z < 0
  · have h63 : Number.ofNat z.natAbs < 2 ^ 63 := by
      by_cases h0 : z.natAbs = 0
      · rw [h0]; decide
      · exact (Number.ofNat_fields _ (Nat.pos_of_ne_zero h0) h53).1
    obtain ⟨hs, he, hf⟩ := Number.fields_add_sign _ h63
    have ht : Number.truncMag (Number.ofNat z.natAbs + 2 ^ 63) = z.natAbs := by
      have e : Number.truncMag (Number.ofNat z.natAbs + 2 ^ 63) =
          Number.truncMag (Number.ofNat z.natAbs) := by
        unfold Number.truncMag
        rw [he, hf]
      rw [e, Number.truncMag_ofNat z.natAbs h53]
    unfold number_to_int Number.ofInt
    simp only [if_pos hz, hs, if_true, ht, he,
      if_neg (Number.expField_ofNat_ne z.natAbs h53), INT_MIN, INT_MAX]
    rw [if_neg (by omega)]
  · obtain ⟨n, rfl⟩ := Int.eq_ofNat_of_zero_le (by omega : 0 ≤ z)
    have hn : n < 2 ^ 53 := by simpa using h53
    have hlo : 2 ^ 31 ≤ n := by omega
    have e : Number.ofInt (n : Int) = Number.ofNat n := by
      unfold Number.ofInt; rw [if_neg hz]; rfl
    rw [e]
    unfold number_to_int
    simp only [Number.signBit_ofNat _ hn, Number.truncMag_ofNat _ hn,
      if_neg (Number.expField_ofNat_ne _ hn), INT_MIN, INT_MAX]
    norm_num
    omega

/-! ## Strings -/

/-- Reading back a sequence of encoded numbers. -/
theorem Reader.getNumbers_encodings (r : Reader) (hw : r.EndIsLast) (hd : r._depth = 0) :
    ∀ (ds : List Nat) (encs : List (List Nat)), AreNumberEncodings ds encs →
    (∀ d ∈ ds, d < 2 ^ 64 ∧ Number.isNaN d = false) →
    ∀ j, r.tokensAt j encs.flatten →
      Reader.getNumbers ds.length (r.after j) = some (ds, r.after (j + encs.flatten.length))
  | [], [], _, _, j, _ => by simp [Reader.getNumbers]
  | [], _ :: _, h, _, _, _ => by simp [AreNumberEncodings] at h
  | _ :: _, [], h, _, _, _ => by simp [AreNumberEncodings] at h
  | d :: ds, e :: es, h, hds, j, ht => by
    obtain ⟨⟨bencs, hb, rfl⟩, hes⟩ := h
    rw [List.flatten_cons] at ht
    obtain ⟨hte, htes⟩ := Reader.tokensAt_append r j _ es.flatten ht
    obtain ⟨hd64, hnan⟩ := hds d (List.mem_cons_self _ _)
    have ih := Reader.getNumbers_encodings r hw hd ds es hes
      (fun x hx => hds x (List.mem_cons_of_mem _ hx)) _ htes
    have hn := Reader.getNumber_encoded r hw hd d hd64 hnan bencs hb j hte
    have e1 : j + (0x38 :: bencs.flatten).length = j + (1 + bencs.flatten.length) := by
      simp only [List.length_cons]; omega
    have e2 : j + (1 + bencs.flatten.length) + es.flatten.length =
        j + ((0x38 :: bencs.flatten) ++ es.flatten).length := by
      simp only [List.length_cons, List.length_append]; omega
    rw [e1, e2] at ih
    simp only [List.length_cons, Reader.getNumbers, hn, ih, List.flatten_cons]

theorem Reader.getNumbers_succ_some (k : Nat) (r r2 : Reader) (x : Nat) (xs : List Nat)
    (h : Reader.getNumbers (k + 1) r = some (x :: xs, r2)) :
    ∃ r1, r.getNumber = some (x, r1) ∧ Reader.getNumbers k r1 = some (xs, r2) := by
  unfold Reader.getNumbers at h
  cases hx : r.getNumber with
  | none => rw [hx] at h; cases h
  | some p =>
    obtain ⟨y, r1⟩ := p
    rw [hx] at h
    dsimp only at h
    cases hxs : Reader.getNumbers k r1 with
    | none => rw [hxs] at h; cases h
    | some q =>
      obtain ⟨ys, r3⟩ := q
      rw [hxs] at h
      simp only [Option.some.injEq, Prod.mk.injEq, List.cons.injEq] at h
      obtain ⟨⟨rfl, rfl⟩, rfl⟩ := h
      exact ⟨r1, rfl, hxs⟩

/-- The loop of `getString` is `k` calls of `getNumber`, each result turned into
a code unit and appended. -/
theorem Reader.getStringLoop_eq : ∀ (k : Nat) (acc : List Nat) (r : Reader),
    Reader.getStringLoop k acc r =
      (Reader.getNumbers k r).map (fun p => (acc ++ p.1.map (number_as_int 16), p.2))
  | 0, acc, r => by simp [Reader.getStringLoop, Reader.getNumbers]
  | k + 1, acc, r => by
    unfold Reader.getStringLoop Reader.getNumbers
    cases hx : r.getNumber with
    | none => simp
    | some p =>
      obtain ⟨x, r1⟩ := p
      simp only [Reader.getStringLoop_eq k _ r1]
      cases Reader.getNumbers k r1 <;> simp

/-- C6. String round-trip. For every sequence `us` of UTF-16 code units,
`getString` at depth 0 on the encoding of the number `us.length` followed by
the encodings of the numbers `us[0]`, `us[1]`, ... returns exactly `us`, in
order, and consumes the tokens; what it reads is what `1 + us.length` calls of
`getNumber` read: the length, then the code units. (The length is below
`2 ^ 31`, the range of the loop counter.) -/
theorem getString_roundtrip (r : Reader) (hw : r.EndIsLast) (hd : r._depth = 0)
    (us : List Nat) (encs : List (List Nat)) (hn : us.length < 2 ^ 31)
    (hu : ∀ u ∈ us, u < 2 ^ 16)
    (henc : AreNumberEncodings (Number.ofNat us.length :: us.map Number.ofNat) encs)
    (ht : r.tokensAt 0 encs.flatten) :
    r.getString = some (us, r.after encs.flatten.length) ∧
    Reader.getNumbers (1 + us.length) r =
      some (Number.ofNat us.length :: us.map Number.ofNat, r.after encs.flatten.length) := by
  have hlen53 : us.length < 2 ^ 53 := lt_trans hn (by norm_num)
  have hds : ∀ d ∈ Number.ofNat us.length :: us.map Number.ofNat,
      d < 2 ^ 64 ∧ Number.isNaN d = false := by
    intro d hdm
    rcases List.mem_cons.mp hdm with rfl | hdm
    · exact ⟨Number.ofNat_lt _ hlen53, Number.isNaN_ofNat _ hlen53⟩
    · obtain ⟨u, hum, rfl⟩ := List.mem_map.mp hdm
      have : u < 2 ^ 53 := lt_trans (hu u hum) (by norm_num)
      exact ⟨Number.ofNat_lt _ this, Number.isNaN_ofNat _ this⟩
  have hall := Reader.getNumbers_encodings r hw hd _ encs henc hds 0 ht
  have hc : r._cursor ≤ r._end := by
    cases encs with
    | nil => simp [AreNumberEncodings] at henc
    | cons e es =>
      obtain ⟨⟨bencs, -, he⟩, -⟩ := henc
      subst he
      rw [List.flatten_cons, List.cons_append] at ht
      have h0 := (Reader.tokensAt_cons r 0 _ _ ht).1
      have := (List.getElem?_eq_some_iff.mp h0).1
      unfold Reader.EndIsLast at hw; omega
  rw [Reader.after_zero r hc, Nat.zero_add] at hall
  simp only [List.length_cons, List.length_map] at hall
  have hall2 : Reader.getNumbers (1 + us.length) r =
      some (Number.ofNat us.length :: us.map Number.ofNat, r.after encs.flatten.length) := by
    rw [Nat.add_comm]; exact hall
  refine ⟨?_, hall2⟩
  obtain ⟨r1, hx, hxs⟩ := Reader.getNumbers_succ_some _ _ _ _ _ hall
  have hlen : number_as_int 64 (Number.ofNat us.length) = us.length :=
    number_as_int_ofNat 64 us.length hlen53 (lt_trans hn (by norm_num))
  have hmap : (us.map Number.ofNat).map (number_as_int 16) = us := by
    rw [List.map_map]
    calc us.map (number_as_int 16 ∘ Number.ofNat) = us.map id :=
          List.map_congr_left (fun u hum =>
            number_as_int_ofNat 16 u (lt_trans (hu u hum) (by norm_num)) (hu u hum))
      _ = us := List.map_id us
  unfold Reader.getString
  simp only [hx, hlen, Reader.getStringLoop_eq, hxs, Option.map_some', List.nil_append, hmap]

/-- Witness of C6: the text `hi` (code units 0x0068, 0x0069), written as the
numbers 2.0, 104.0 and 105.0 (`8AAAAAAAiA`, `8AAAAAAiaiA`, `8AAAAAiAiaiA`), is
read back by `getString`. -/
theorem getString_roundtrip_witness :
    (Reader.new [0x38, 0x41, 0x41, 0x41, 0x41, 0x41, 0x41, 0x41, 0x69, 0x41,
        0x38, 0x41, 0x41, 0x41, 0x41, 0x41, 0x41, 0x69, 0x61, 0x69, 0x41,
        0x38, 0x41, 0x41, 0x41, 0x41, 0x41, 0x69, 0x41, 0x69, 0x61, 0x69, 0x41]
        false).getString =
      some ([0x0068, 0x0069],
        (Reader.new [0x38, 0x41, 0x41, 0x41, 0x41, 0x41, 0x41, 0x41, 0x69, 0x41,
        0x38, 0x41, 0x41, 0x41, 0x41, 0x41, 0x41, 0x69, 0x61, 0x69, 0x41,
        0x38, 0x41, 0x41, 0x41, 0x41, 0x41, 0x69, 0x41, 0x69, 0x61, 0x69, 0x41]
        false).after 33) :=
  (getString_roundtrip _ (by decide) (by decide) [0x0068, 0x0069]
    [[0x38, 0x41, 0x41, 0x41, 0x41, 0x41, 0x41, 0x41, 0x69, 0x41],
     [0x38, 0x41, 0x41, 0x41, 0x41, 0x41, 0x41, 0x69, 0x61, 0x69, 0x41],
     [0x38, 0x41, 0x41, 0x41, 0x41, 0x41, 0x69, 0x41, 0x69, 0x61, 0x69, 0x41]]
    (by decide) (by decide)
    ⟨⟨[[0x41], [0x41], [0x41], [0x41], [0x41], [0x41], [0x41], [0x69, 0x41]],
        by decide, rfl⟩,
     ⟨[[0x41], [0x41], [0x41], [0x41], [0x41], [0x41], [0x69, 0x61], [0x69, 0x41]],
        by decide, rfl⟩,
     ⟨[[0x41], [0x41], [0x41], [0x41], [0x41], [0x69, 0x41], [0x69, 0x61], [0x69, 0x41]],
        by decide, rfl⟩,
     trivial⟩
    (by decide)).1

/-! ## What the decode calls leave alone -/

theorem Reader.SameTable.refl (r : Reader) : r.SameTable r := ⟨rfl, rfl, rfl, rfl, rfl, rfl⟩

theorem Reader.SameTable.trans {r r1 r2 : Reader} (h1 : r.SameTable r1) (h2 : r1.SameTable r2) :
    r.SameTable r2 := by
  rcases h1 with ⟨hdata, hstart, hend, hversion, hmode, hsymbols⟩
  rcases h2 with ⟨kdata, kstart, kend, kversion, kmode, ksymbols⟩
  refine ⟨?_, ?_, ?_, ?_, ?_, ?_⟩
  · rw [kdata, hdata]
  · rw [kstart, hstart]
  · rw [kend, hend]
  · rw [kversion, hversion]
  · rw [kmode, hmode]
  · rw [ksymbols, hsymbols]

theorem Reader.sameTable_cursor (r : Reader) (c : Nat) : r.SameTable { r with _cursor := c } :=
  ⟨rfl, rfl, rfl, rfl, rfl, rfl⟩

theorem Reader.sameTable_depth (r : Reader) (d : Nat) : r.SameTable { r with _depth := d } :=
  ⟨rfl, rfl, rfl, rfl, rfl, rfl⟩

theorem Reader.sameTable_error (r : Reader) (e : ParseError) :
    r.SameTable { r with _error := e } :=
  ⟨rfl, rfl, rfl, rfl, rfl, rfl⟩

theorem Reader.sameTable_step (r : Reader) (o : Int) : r.SameTable (r.step o) :=
  ⟨rfl, rfl, rfl, rfl, rfl, rfl⟩

theorem Reader.sameTable_next (r : Reader) : r.SameTable (r._next).2 := by
  unfold Reader._next
  split
  · exact Reader.sameTable_cursor r _
  · exact Reader.sameTable_error r _

theorem Reader.sameTable_getLoop : ∀ (fuel : Nat) (t : Nat) (r : Reader) (t1 : Nat)
    (r1 : Reader), Reader.getLoop fuel t r = some (t1, r1) → r.SameTable r1
  | 0, _, _, _, _, h => by simp [Reader.getLoop] at h
  | fuel + 1, t, r, t1, r1, h => by
    unfold Reader.getLoop at h
    split at h
    · exact (Reader.sameTable_next r).trans (Reader.sameTable_getLoop fuel _ _ _ _ h)
    · cases h; exact Reader.SameTable.refl r

theorem Reader.sameTable_get (r : Reader) (t : Nat) (r1 : Reader) (h : r.get = some (t, r1)) :
    r.SameTable r1 :=
  (Reader.sameTable_next r).trans (Reader.sameTable_getLoop _ _ _ _ _ h)

theorem Reader.sameTable_getByte (r : Reader) (b : Nat) (r1 : Reader)
    (h : r.getByte = some (b, r1)) : r.SameTable r1 := by
  unfold Reader.getByte at h
  split at h
  · cases h; exact Reader.sameTable_depth r _
  · split at h
    · cases h
    · rename_i m r2 hg
      have f1 := Reader.sameTable_get r m r2 hg
      split at h
      · split at h
        · cases h
        · rename_i n r3 hg2
          have f2 := f1.trans (Reader.sameTable_get r2 n r3 hg2)
          split at h
          · cases h; exact f2.trans (Reader.sameTable_error r3 _)
          · cases h; exact f2.trans (Reader.sameTable_depth r3 _)
      · split at h
        · split at h
          · cases h; exact f1.trans (Reader.sameTable_error r2 _)
          · split at h
            · cases h
            · rename_i z r3 hg2
              have f2 := f1.trans (Reader.sameTable_get r2 z r3 hg2)
              dsimp only at h
              split at h
              · split at h
                · cases h; exact f2.trans (Reader.sameTable_error r3 _)
                · cases h; exact f2
              · cases h; exact f2
        · cases h; exact f1

theorem Reader.sameTable_getNumberBytes : ∀ (k i res : Nat) (r : Reader) (x : Nat)
    (r1 : Reader), Reader.getNumberBytes k i res r = some (x, r1) → r.SameTable r1
  | 0, _, _, r, _, _, h => by
    simp only [Reader.getNumberBytes, Option.some.injEq, Prod.mk.injEq] at h
    rw [← h.2]; exact Reader.SameTable.refl r
  | k + 1, i, res, r, x, r1, h => by
    unfold Reader.getNumberBytes at h
    split at h
    · cases h
    · rename_i b r2 hb
      exact (Reader.sameTable_getByte r b r2 hb).trans
        (Reader.sameTable_getNumberBytes k _ _ r2 x r1 h)

theorem Reader.sameTable_getNumber (r : Reader) (x : Nat) (r1 : Reader)
    (h : r.getNumber = some (x, r1)) : r.SameTable r1 := by
  unfold Reader.getNumber at h
  split at h
  · cases h; exact Reader.sameTable_depth r _
  · split at h
    · cases h
    · rename_i t0 r2 hg
      have f1 := Reader.sameTable_get r t0 r2 hg
      split at h
      · cases h
      · rename_i t neg r3 hsel
        have f2 : r.SameTable r3 := by
          split at hsel
          · cases hsel; exact f1
          · split at hsel
            · cases hsel
            · rename_i t1 r4 hg2
              cases hsel
              exact f1.trans (Reader.sameTable_get r2 _ _ hg2)
        split at h
        · split at h
          · cases h
          · rename_i res r4 hb
            cases h
            exact f2.trans (Reader.sameTable_getNumberBytes _ _ _ _ _ _ hb)
        · split at h
          · cases h
          · rename_i b r4 hb
            cases h
            exact (f2.trans (Reader.sameTable_step r3 _)).trans
              (Reader.sameTable_getByte _ _ _ hb)

theorem Reader.sameTable_getStringLoop : ∀ (k : Nat) (acc : List Nat) (r : Reader)
    (s : List Nat) (r1 : Reader), Reader.getStringLoop k acc r = some (s, r1) → r.SameTable r1
  | 0, _, r, _, _, h => by
    simp only [Reader.getStringLoop, Option.some.injEq, Prod.mk.injEq] at h
    rw [← h.2]; exact Reader.SameTable.refl r
  | k + 1, acc, r, s, r1, h => by
    unfold Reader.getStringLoop at h
    split at h
    · cases h
    · rename_i x r2 hx
      exact (Reader.sameTable_getNumber r x r2 hx).trans
        (Reader.sameTable_getStringLoop k _ r2 s r1 h)

theorem Reader.sameTable_getString (r : Reader) (s : List Nat) (r1 : Reader)
    (h : r.getString = some (s, r1)) : r.SameTable r1 := by
  unfold Reader.getString at h
  split at h
  · cases h
  · rename_i x r2 hx
    exact (Reader.sameTable_getNumber r x r2 hx).trans
      (Reader.sameTable_getStringLoop _ _ r2 s r1 h)

/-! ## Symbols -/

theorem Number.lt_irrefl (a : Nat) : Number.lt a a = false := by
  unfold Number.lt
  split
  · rfl
  · simp

theorem Number.sameKey_self (a : Nat) : Number.sameKey a a = true := by
  simp [Number.sameKey, Number.lt_irrefl]

/-- After `_symbols[id] = symbol` the lookup of `id` gives `symbol`. -/
theorem Reader.findSymbol_setSymbol_self : ∀ (m : List (Nat × List Nat)) (id : Nat)
    (symbol : List Nat), Reader.findSymbol (Reader.setSymbol m id symbol) id = some symbol
  | [], id, symbol => by
    simp [Reader.setSymbol, Reader.findSymbol, Number.sameKey_self]
  | (k, v) :: rest, id, symbol => by
    unfold Reader.setSymbol
    by_cases hk : Number.sameKey k id = true
    · simp [hk, Reader.findSymbol]
    · simp only [hk, if_false, Reader.findSymbol, Bool.false_eq_true]
      exact Reader.findSymbol_setSymbol_self rest id symbol

/-- The definition branch of `readSID`, in either mode. -/
theorem Reader.readSID_definition (r r1 r2 r3 : Reader) (s : List Nat) (i : Nat)
    (hz : r.get = some (0x7A, r1)) (hs : r1.getString = some (s, r2))
    (hi : r2.getNumber = some (i, r3)) :
    r.readSID =
      some (if r._jsxblind_deobfuscate && should_replace_name s
              then to_byte_string ("symbol_" ++ toString (number_to_int i)) else s,
            r3.addSymbol i
              (if r._jsxblind_deobfuscate && should_replace_name s
                then to_byte_string ("symbol_" ++ toString (number_to_int i)) else s)) := by
  have hmode : r3._jsxblind_deobfuscate = r._jsxblind_deobfuscate :=
    (((Reader.sameTable_get r _ r1 hz).trans (Reader.sameTable_getString r1 s r2 hs)).trans
      (Reader.sameTable_getNumber r2 i r3 hi)).2.2.2.2.1
  unfold Reader.readSID
  simp only [hz, if_true, hs, hi, hmode]

/-- The reference branch of `readSID` when the id has an entry. -/
theorem Reader.readSID_reference (q q1 q2 : Reader) (t i : Nat) (name : List Nat)
    (hg : q.get = some (t, q1)) (ht : t ≠ 0x7A)
    (hi : (q1.step (-1)).getNumber = some (i, q2))
    (hfind : Reader.findSymbol q._symbols i = some name) :
    q.readSID = some (name, q2) := by
  have hsym : q2._symbols = q._symbols :=
    (((Reader.sameTable_get q _ q1 hg).trans (Reader.sameTable_step q1 _)).trans
      (Reader.sameTable_getNumber _ i q2 hi)).2.2.2.2.2
  unfold Reader.readSID
  simp only [hg, ht, if_false, hi, Reader.getSymbol, hsym, hfind]

/-- C7. Symbol definition then reference, deobfuscation disabled. When
`readSID` decodes a definition (`get` returns the marker `z`, `getString` the
name `s`, `getNumber` the id `i`) it returns `s` and registers `i -> s`; and any
later `readSID` on that symbol table that decodes a reference to `i` (a token
other than `z`, then the number `i`) returns `s`. -/
theorem readSID_define_then_reference (r r1 r2 r3 : Reader) (s : List Nat) (i : Nat)
    (hmode : r._jsxblind_deobfuscate = false)
    (hz : r.get = some (0x7A, r1)) (hs : r1.getString = some (s, r2))
    (hi : r2.getNumber = some (i, r3)) :
    r.readSID = some (s, r3.addSymbol i s) ∧
    Reader.findSymbol (r3.addSymbol i s)._symbols i = some s ∧
    ∀ (q q1 q2 : Reader) (t : Nat), q._symbols = (r3.addSymbol i s)._symbols →
      q.get = some (t, q1) → t ≠ 0x7A → (q1.step (-1)).getNumber = some (i, q2) →
      q.readSID = some (s, q2) := by
  have hdef := Reader.readSID_definition r r1 r2 r3 s i hz hs hi
  simp only [hmode, Bool.false_and, Bool.false_eq_true, if_false] at hdef
  have hfind : Reader.findSymbol (r3.addSymbol i s)._symbols i = some s :=
    Reader.findSymbol_setSymbol_self _ _ _
  refine ⟨hdef, hfind, ?_⟩
  intro q q1 q2 t hq hg ht hn
  exact Reader.readSID_reference q q1 q2 t i s hg ht hn (by rw [hq]; exact hfind)

/-- Witness of C7: in the buffer `zDjGjPjPFFA` the definition of id 5 with the
name `foo` is followed by a reference to id 5; both `readSID` calls return
`foo`. -/
theorem readSID_define_then_reference_witness :
    (Reader.new [0x7A, 0x44, 0x6A, 0x47, 0x6A, 0x50, 0x6A, 0x50, 0x46, 0x46, 0x41] false).readSID =
      some ([0x66, 0x6F, 0x6F],
        { Reader.new [0x7A, 0x44, 0x6A, 0x47, 0x6A, 0x50, 0x6A, 0x50, 0x46, 0x46, 0x41] false with
          _cursor := 9, _symbols := [(Number.ofNat 5, [0x66, 0x6F, 0x6F])] }) ∧
    Reader.readSID
        { Reader.new [0x7A, 0x44, 0x6A, 0x47, 0x6A, 0x50, 0x6A, 0x50, 0x46, 0x46, 0x41] false with
          _cursor := 9, _symbols := [(Number.ofNat 5, [0x66, 0x6F, 0x6F])] } =
      some ([0x66, 0x6F, 0x6F],
        { Reader.new [0x7A, 0x44, 0x6A, 0x47, 0x6A, 0x50, 0x6A, 0x50, 0x46, 0x46, 0x41] false with
          _cursor := 10, _symbols := [(Number.ofNat 5, [0x66, 0x6F, 0x6F])] }) := by
  have h := readSID_define_then_reference
    (Reader.new [0x7A, 0x44, 0x6A, 0x47, 0x6A, 0x50, 0x6A, 0x50, 0x46, 0x46, 0x41] false)
    { Reader.new [0x7A, 0x44, 0x6A, 0x47, 0x6A, 0x50, 0x6A, 0x50, 0x46, 0x46, 0x41] false with
      _cursor := 1 }
    { Reader.new [0x7A, 0x44, 0x6A, 0x47, 0x6A, 0x50, 0x6A, 0x50, 0x46, 0x46, 0x41] false with
      _cursor := 8 }
    { Reader.new [0x7A, 0x44, 0x6A, 0x47, 0x6A, 0x50, 0x6A, 0x50, 0x46, 0x46, 0x41] false with
      _cursor := 9 }
    [0x66, 0x6F, 0x6F] (Number.ofNat 5) (by decide) (by decide) (by decide) (by decide)
  refine ⟨h.1, ?_⟩
  exact h.2.2 _
    { Reader.new [0x7A, 0x44, 0x6A, 0x47, 0x6A, 0x50, 0x6A, 0x50, 0x46, 0x46, 0x41] false with
      _cursor := 10, _symbols := [(Number.ofNat 5, [0x66, 0x6F, 0x6F])] }
    _ 0x46 (by decide) (by decide) (by decide) (by decide)

/-! ## Deobfuscation -/

/-- The claim counts 45 lexemes; the `OPERATORS` list of the source has 44. -/
theorem operators_count_not_45 : OPERATORS.length = 44 ∧ OPERATORS.length ≠ 45 := by
  decide

theorem operators_not_replaced : ∀ op ∈ OPERATORS, should_replace_name (to_byte_string op) = false := by
  decide

/-- C9, amended. `should_replace_name name` is true if and only if `name` is
not empty, is not exactly one of the lexemes of the `OPERATORS` list, of which
there are 44, and has a code unit below 0x41 or above 0x7A. So every lexeme of
the list yields false, and a symbol whose name is a lexeme of the list is
registered unchanged by `readSID` whatever the deobfuscation mode. -/
theorem should_replace_name_spec :
    (∀ name : List Nat, should_replace_name name = true ↔
      (name ≠ [] ∧ (∀ op ∈ OPERATORS, name ≠ to_byte_string op) ∧
        ∃ c ∈ name, c < 0x41 ∨ 0x7A < c)) ∧
    OPERATORS.length = 44 ∧
    (∀ op ∈ OPERATORS, should_replace_name (to_byte_string op) = false) ∧
    (∀ (op : String) (r r1 r2 r3 : Reader) (i : Nat), op ∈ OPERATORS →
      r.get = some (0x7A, r1) → r1.getString = some (to_byte_string op, r2) →
      r2.getNumber = some (i, r3) →
      r.readSID = some (to_byte_string op, r3.addSymbol i (to_byte_string op))) := by
  refine ⟨?_, by decide, operators_not_replaced, ?_⟩
  · intro name
    unfold should_replace_name
    by_cases he : name = []
    · subst he; simp
    · have hemp : name.isEmpty = false := by
        cases name with
        | nil => exact absurd rfl he
        | cons a l => rfl
      simp only [hemp, Bool.false_eq_true, if_false, ne_eq, he, not_false_eq_true, true_and]
      by_cases hop : (OPERATORS.any (fun op => symbol_eq_op name op)) = true
      · simp only [hop, if_true, Bool.false_eq_true, false_iff, not_and]
        intro hall
        obtain ⟨op, hmem, heq⟩ := List.any_eq_true.mp hop
        exact absurd (by simpa [symbol_eq_op] using heq) (hall op hmem)
      · simp only [hop, Bool.false_eq_true, if_false, List.any_eq_true, decide_eq_true_eq]
        have hall : ∀ op ∈ OPERATORS, ¬ name = to_byte_string op := by
          intro op hmem heq
          exact hop (List.any_eq_true.mpr ⟨op, hmem, by simpa [symbol_eq_op] using heq⟩)
        constructor
        · rintro ⟨c, hc, h⟩
          exact ⟨hall, c, hc, h.symm⟩
        · rintro ⟨-, c, hc, h⟩
          exact ⟨c, hc, h.symm⟩
  · intro op r r1 r2 r3 i hmem hz hs hi
    have hdef := Reader.readSID_definition r r1 r2 r3 _ i hz hs hi
    simpa [operators_not_replaced op hmem] using hdef

/-- Witness of C9: with deobfuscation on, the buffer `zDhBhdhdFA` defines id 5
with the name `!==`, all of whose characters lie below 0x41; the name is
registered unchanged. -/
theorem should_replace_name_spec_witness :
    should_replace_name (to_byte_string "!==") = false ∧
    (Reader.new [0x7A, 0x44, 0x68, 0x42, 0x68, 0x64, 0x68, 0x64, 0x46, 0x41] true).readSID =
      some (to_byte_string "!==",
        { Reader.new [0x7A, 0x44, 0x68, 0x42, 0x68, 0x64, 0x68, 0x64, 0x46, 0x41] true with
          _cursor := 9, _symbols := [(Number.ofNat 5, to_byte_string "!==")] }) :=
  ⟨should_replace_name_spec.2.2.1 "!==" (by decide),
   should_replace_name_spec.2.2.2 "!=="
    (Reader.new [0x7A, 0x44, 0x68, 0x42, 0x68, 0x64, 0x68, 0x64, 0x46, 0x41] true)
    { Reader.new [0x7A, 0x44, 0x68, 0x42, 0x68, 0x64, 0x68, 0x64, 0x46, 0x41] true with
      _cursor := 1 }
    { Reader.new [0x7A, 0x44, 0x68, 0x42, 0x68, 0x64, 0x68, 0x64, 0x46, 0x41] true with
      _cursor := 8 }
    { Reader.new [0x7A, 0x44, 0x68, 0x42, 0x68, 0x64, 0x68, 0x64, 0x46, 0x41] true with
      _cursor := 9 }
    (Number.ofNat 5) (by decide) (by decide) (by decide) (by decide)⟩

/-! ## Variants -/

/-- Reading a token that is not the last of the buffer and stepping back. -/
theorem Reader.get_step_back (r : Reader) (hc : r._cursor < r._end) (hend : r._end < SIZE_MOD)
    (hi : Reader._ignorable (r.dataAt r._cursor) = false) :
    r.get = some (r.dataAt r._cursor, { r with _cursor := r._cursor + 1 }) ∧
    Reader.step { r with _cursor := r._cursor + 1 } (-1) = r := by
  have hn : r._next = (r.dataAt r._cursor, { r with _cursor := r._cursor + 1 }) := by
    simp [Reader._next, hc]
  refine ⟨by rw [Reader.get_of_not_ignorable r (by rw [hn]; exact hi), hn], ?_⟩
  unfold Reader.step
  have : (((r._cursor + 1 : Nat) : Int) + -1) % (SIZE_MOD : Int) = (r._cursor : Int) := by
    have h1 : (((r._cursor + 1 : Nat) : Int) + -1) = (r._cursor : Int) := by push_cast; ring
    rw [h1]
    apply Int.emod_eq_of_lt (by omega)
    have : r._cursor < SIZE_MOD := by omega
    exact_mod_cast this
  simp only [this, Int.toNat_ofNat]

theorem Reader.getVariant_never_undefined (r r1 : Reader) (v : Variant)
    (h : r.getVariant = some (some v, r1)) : v._type ≠ VariantType.Undefined := by
  unfold Reader.getVariant at h
  split at h
  · cases h
  · split at h
    · cases h
    · split at h
      · cases h
      · dsimp only at h
        split at h
        · cases h; decide
        · split at h
          · cases h; decide
          · split at h
            · split at h
              · cases h
              · cases h; simp [Variant.setBool, Variant.doErase, Variant.new]
            · split at h
              · split at h
                · cases h
                · cases h; simp [Variant.setDouble, Variant.doErase, Variant.new]
              · split at h
                · split at h
                  · cases h
                  · cases h; simp [Variant.setString, Variant.doErase, Variant.new]
                · cases h; decide

/-- The dispatch of `getVariant` on the tokens its two reads return. If the
first token read is `n` there is no Variant (the null pointer). Otherwise the
reader steps back and reads again: `a` and `b` give a Variant of type Null, `c`
a Boolean holding the result of `getBoolean`, `d` a Number holding the result
of `getNumber`, `e` a String holding the result of `getString`, and every other
token a DecodeError (with a Variant of type `None`). No call produces a Variant
of type Undefined. When the token in front of the cursor is not the last of the
buffer, both reads return that token. -/
theorem getVariant_dispatch (r : Reader) :
    (∀ r1 : Reader, r.get = some (0x6E, r1) → r.getVariant = some (none, r1)) ∧
    (∀ (t t2 : Nat) (r1 r2 : Reader), r.get = some (t, r1) → t ≠ 0x6E →
      (r1.step (-1)).get = some (t2, r2) → t2 < 256 →
      (t2 = 0x61 ∨ t2 = 0x62 →
        r.getVariant = some (some ⟨VariantType.Null, ValueType.zero⟩, r2)) ∧
      (t2 = 0x63 →
        r.getVariant = (r2.getBoolean).map
          (fun p => (some ⟨VariantType.Boolean, ValueType._bool p.1⟩, p.2))) ∧
      (t2 = 0x64 →
        r.getVariant = (r2.getNumber).map
          (fun p => (some ⟨VariantType.Number, ValueType._double p.1⟩, p.2))) ∧
      (t2 = 0x65 →
        r.getVariant = (r2.getString).map
          (fun p => (some ⟨VariantType.String, ValueType._string p.1⟩, p.2))) ∧
      (t2 < 0x61 ∨ 0x65 < t2 →
        r.getVariant = some (some ⟨VariantType.None, ValueType.zero⟩,
          { r2 with _error := ParseError.DecodeError }))) ∧
    (∀ (v : Variant) (r1 : Reader), r.getVariant = some (some v, r1) →
      v._type ≠ VariantType.Undefined) ∧
    (r._cursor < r._end → r._end < SIZE_MOD → Reader._ignorable (r.dataAt r._cursor) = false →
      r.get = some (r.dataAt r._cursor, { r with _cursor := r._cursor + 1 }) ∧
      (Reader.step { r with _cursor := r._cursor + 1 } (-1)).get =
        some (r.dataAt r._cursor, { r with _cursor := r._cursor + 1 })) := by
  refine ⟨?_, ?_, fun v r1 h => Reader.getVariant_never_undefined r r1 v h, ?_⟩
  · intro r1 h
    unfold Reader.getVariant
    simp only [h, if_true]
  · intro t t2 r1 r2 h1 ht h2 hlt
    have hv : r.getVariant =
        (if (t2 + 256 - 0x61) % 256 = 0 then some (some (Variant.new.doErase.setNull), r2)
        else if (t2 + 256 - 0x61) % 256 = 1 then some (some Variant.new.setNull, r2)
        else if (t2 + 256 - 0x61) % 256 = 2 then
          match r2.getBoolean with
          | none => none
          | some (b, r3) => some (some (Variant.new.setBool b), r3)
        else if (t2 + 256 - 0x61) % 256 = 3 then
          match r2.getNumber with
          | none => none
          | some (x, r3) => some (some (Variant.new.setDouble x), r3)
        else if (t2 + 256 - 0x61) % 256 = 4 then
          match r2.getString with
          | none => none
          | some (s, r3) => some (some (Variant.new.setString s), r3)
        else some (some Variant.new, { r2 with _error := ParseError.DecodeError })) := by
      unfold Reader.getVariant
      simp only [h1, ht, if_false, h2]
    refine ⟨?_, ?_, ?_, ?_, ?_⟩
    · rintro (h | h)
      · subst h; rw [hv]; rfl
      · subst h; rw [hv]; rfl
    · intro h; subst h; rw [hv]
      simp only [Nat.reduceAdd, Nat.reduceSub, Nat.reduceMod, OfNat.ofNat_ne_zero,
        OfNat.ofNat_ne_one, if_false, if_true]
      cases r2.getBoolean <;> rfl
    · intro h; subst h; rw [hv]
      have e : (0x64 + 256 - 0x61) % 256 = 3 := by norm_num
      simp only [e, if_true]
      cases r2.getNumber <;> rfl
    · intro h; subst h; rw [hv]
      have e : (0x65 + 256 - 0x61) % 256 = 4 := by norm_num
      simp only [e, if_true]
      cases r2.getString <;> rfl
    · intro h
      rw [hv]
      have e0 : ¬ (t2 + 256 - 0x61) % 256 = 0 := by omega
      have e1 : ¬ (t2 + 256 - 0x61) % 256 = 1 := by omega
      have e2 : ¬ (t2 + 256 - 0x61) % 256 = 2 := by omega
      have e3 : ¬ (t2 + 256 - 0x61) % 256 = 3 := by omega
      have e4 : ¬ (t2 + 256 - 0x61) % 256 = 4 := by omega
      simp only [e0, e1, e2, e3, e4, if_false]
      rfl
  · intro hc hend hi
    obtain ⟨hg, hs⟩ := Reader.get_step_back r hc hend hi
    exact ⟨hg, by rw [hs]; exact hg⟩

/-- An instance of the dispatch: in the buffer `dFA` the tag `d` is followed by
the number 5; `getVariant` returns a Variant of type Number holding 5.0. -/
theorem getVariant_dispatch_witness :
    (Reader.new [0x64, 0x46, 0x41] false).getVariant =
      some (some ⟨VariantType.Number, ValueType._double (Number.ofNat 5)⟩,
        { Reader.new [0x64, 0x46, 0x41] false with _cursor := 2 }) :=
  ((getVariant_dispatch (Reader.new [0x64, 0x46, 0x41] false)).2.1 0x64 0x64
    { Reader.new [0x64, 0x46, 0x41] false with _cursor := 1 }
    { Reader.new [0x64, 0x46, 0x41] false with _cursor := 1 }
    (by decide) (by decide) (by decide) (by decide)).2.2.1 rfl

/-- C10 at the last token of the buffer. The reader is built from
`@JSXBIN@ES@2.0@b` and the signature is verified, so the cursor stands on the
tag `b`, the last token. The first `get` returns `b` without moving the cursor;
`getVariant` steps back all the same and its second `get` returns the `@`
before the tag: the result is a Variant of type `None` and a DecodeError, not a
Variant of type Null. With one more token behind the tag (`@JSXBIN@ES@2.0@bA`)
the same tag gives the Variant of type Null and no error. -/
theorem getVariant_tag_last_token :
    (((Reader.new [0x40, 0x4A, 0x53, 0x58, 0x42, 0x49, 0x4E, 0x40, 0x45, 0x53, 0x40, 0x32,
        0x2E, 0x30, 0x40, 0x62] false).verifySignature jsxbinSignatures).2.get).map
      (fun p => (p.1, p.2._cursor)) = some (0x62, 15) ∧
    (((Reader.new [0x40, 0x4A, 0x53, 0x58, 0x42, 0x49, 0x4E, 0x40, 0x45, 0x53, 0x40, 0x32,
        0x2E, 0x30, 0x40, 0x62] false).verifySignature jsxbinSignatures).2.getVariant).map
      (fun p => (p.1, p.2._cursor, p.2._error)) =
      some (some ⟨VariantType.None, ValueType.zero⟩, 15, ParseError.DecodeError) ∧
    (((Reader.new [0x40, 0x4A, 0x53, 0x58, 0x42, 0x49, 0x4E, 0x40, 0x45, 0x53, 0x40, 0x32,
        0x2E, 0x30, 0x40, 0x62, 0x41] false).verifySignature jsxbinSignatures).2.getVariant).map
      (fun p => (p.1, p.2._cursor, p.2._error)) =
      some (some ⟨VariantType.Null, ValueType.zero⟩, 16, ParseError.None) := by
  decide

/-! ## The loop of `get` -/

/-- Once the cursor cannot advance and the error is raised, `_next` changes
nothing. -/
theorem Reader.next_stuck (r : Reader) (hc : ¬ r._cursor < r._end)
    (he : r._error = ParseError.ReachedEnd) : r._next = (r.dataAt r._end, r) := by
  unfold Reader._next
  rw [if_neg hc, ← he]

theorem Reader.getLoop_stuck (r : Reader) (hc : ¬ r._cursor < r._end)
    (he : r._error = ParseError.ReachedEnd)
    (hi : Reader._ignorable (r.dataAt r._end) = true) :
    ∀ fuel, Reader.getLoop fuel (r.dataAt r._end) r = none
  | 0 => rfl
  | fuel + 1 => by
    unfold Reader.getLoop
    rw [if_pos hi, Reader.next_stuck r hc he]
    exact Reader.getLoop_stuck r hc he hi fuel

theorem Reader.getLoop_none_of_bound : ∀ (n : Nat) (t : Nat) (r : Reader),
    r._end - r._cursor ≤ n → Reader.getLoop (n + 2) t r = none →
    ∀ fuel, Reader.getLoop fuel t r = none
  | 0, t, r, hn, h, fuel => by
    have hc : ¬ r._cursor < r._end := by omega
    have hnext : r._next = (r.dataAt r._end, { r with _error := ParseError.ReachedEnd }) := by
      unfold Reader._next; rw [if_neg hc]
    unfold Reader.getLoop at h
    by_cases ht : Reader._ignorable t = true
    · rw [if_pos ht, hnext] at h
      unfold Reader.getLoop at h
      by_cases ht2 : Reader._ignorable (r.dataAt r._end) = true
      · cases fuel with
        | zero => rfl
        | succ fuel =>
          unfold Reader.getLoop
          rw [if_pos ht, hnext]
          exact Reader.getLoop_stuck { r with _error := ParseError.ReachedEnd } hc rfl ht2 fuel
      · simp only [ht2, if_false] at h
        cases h
    · rw [if_neg ht] at h; cases h
  | n + 1, t, r, hn, h, fuel => by
    unfold Reader.getLoop at h
    by_cases ht : Reader._ignorable t = true
    · rw [if_pos ht] at h
      have hb : (r._next).2._end - (r._next).2._cursor ≤ n := by
        unfold Reader._next
        split
        · show r._end - (r._cursor + 1) ≤ n; omega
        · show r._end - r._cursor ≤ n; omega
      have ih := Reader.getLoop_none_of_bound n _ _ hb h
      cases fuel with
      | zero => rfl
      | succ fuel =>
        unfold Reader.getLoop
        rw [if_pos ht]
        exact ih fuel
    · rw [if_neg ht] at h; cases h

/-- The bound `get` puts on its loop loses nothing: when `get` is `none` the
loop does not end within any number of iterations. -/
theorem Reader.getLoop_none_forever (r : Reader) (h : r.get = none) :
    ∀ fuel, Reader.getLoop fuel (r._next).1 (r._next).2 = none :=
  Reader.getLoop_none_of_bound _ _ _ (le_refl _) h

/-- More iterations do not change a result the loop has reached. -/
theorem Reader.getLoop_mono : ∀ (fuel : Nat) (t : Nat) (r : Reader) (x : Nat × Reader),
    Reader.getLoop fuel t r = some x → Reader.getLoop (fuel + 1) t r = some x
  | 0, _, _, _, h => by simp [Reader.getLoop] at h
  | fuel + 1, t, r, x, h => by
    unfold Reader.getLoop at h ⊢
    by_cases ht : Reader._ignorable t = true
    · rw [if_pos ht] at h ⊢
      exact Reader.getLoop_mono fuel _ _ x h
    · rw [if_neg ht] at h ⊢
      exact h

/-! ## Every value has an encoding -/

theorem encodeByte_isByteEncoding (v : Nat) (hv : v < 256) : IsByteEncoding v (encodeByte v) := by
  unfold encodeByte IsByteEncoding
  by_cases h : v < 26
  · left; exact ⟨h, by rw [if_pos h]⟩
  · right; exact ⟨hv, by rw [if_neg h]⟩

theorem bytesLE_encodings : ∀ (k d : Nat),
    AreByteEncodings (bytesLE k d) ((bytesLE k d).map encodeByte)
  | 0, _ => trivial
  | k + 1, d =>
    ⟨encodeByte_isByteEncoding _ (Nat.mod_lt _ (by norm_num)), bytesLE_encodings k (d / 256)⟩

/-- The encoding `encodeNumber d` is an encoding of `d` in the sense of the
round-trip statements. -/
theorem encodeNumber_isNumberEncoding (d : Nat) : IsNumberEncoding d (encodeNumber d) :=
  ⟨(bytesLE 8 d).map encodeByte, bytesLE_encodings 8 d, rfl⟩

/-! ## `get` at the end of the buffer -/

/-- Before the last token `get` reads the token at the cursor, moves the cursor
one place and leaves the error alone. -/
theorem Reader.get_before_last (r : Reader) (hc : r._cursor < r._end)
    (hi : Reader._ignorable (r.dataAt r._cursor) = false) :
    r.get = some (r.dataAt r._cursor, { r with _cursor := r._cursor + 1 }) := by
  have hn : r._next = (r.dataAt r._cursor, { r with _cursor := r._cursor + 1 }) := by
    simp [Reader._next, hc]
  rw [Reader.get_of_not_ignorable r (by rw [hn]; exact hi), hn]

/-- On the last token, and past it, `get` returns the last token, does not move
and raises `ReachedEnd`. -/
theorem Reader.get_on_last (r : Reader) (hc : ¬ r._cursor < r._end)
    (hi : Reader._ignorable (r.dataAt r._end) = false) :
    r.get = some (r.dataAt r._end, { r with _error := ParseError.ReachedEnd }) := by
  have hn : r._next = (r.dataAt r._end, { r with _error := ParseError.ReachedEnd }) := by
    simp [Reader._next, hc]
  rw [Reader.get_of_not_ignorable r (by rw [hn]; exact hi), hn]

/-- C13 on the last token. The reader is built from `@JSXBIN@ES@2.0@AB` and the
signature is verified. The first `get` returns `A` and moves the cursor to 16,
which is a valid index: the token `B` is unread. The second `get` returns `B`
but leaves the cursor on 16 and raises `ReachedEnd`. -/
theorem get_last_token_raises_reached_end :
    (((Reader.new [0x40, 0x4A, 0x53, 0x58, 0x42, 0x49, 0x4E, 0x40, 0x45, 0x53, 0x40, 0x32,
        0x2E, 0x30, 0x40, 0x41, 0x42] false).verifySignature jsxbinSignatures).2.get).map
      (fun p => (p.1, p.2._cursor, p.2._error, decide (p.2._cursor < p.2._data.length))) =
      some (0x41, 16, ParseError.None, true) ∧
    ((((Reader.new [0x40, 0x4A, 0x53, 0x58, 0x42, 0x49, 0x4E, 0x40, 0x45, 0x53, 0x40, 0x32,
        0x2E, 0x30, 0x40, 0x41, 0x42] false).verifySignature jsxbinSignatures).2.get).bind
      (fun p => p.2.get)).map (fun p => (p.1, p.2._cursor, p.2._error)) =
      some (0x42, 16, ParseError.ReachedEnd) := by
  decide

/-! ## Decode errors of `getByte` -/

theorem Reader.next_error (r : Reader) :
    (r._next).2._error = r._error ∨ (r._next).2._error = ParseError.ReachedEnd := by
  unfold Reader._next
  split
  · left; rfl
  · right; rfl

theorem Reader.getLoop_error : ∀ (fuel : Nat) (t : Nat) (r : Reader) (t1 : Nat) (r1 : Reader),
    Reader.getLoop fuel t r = some (t1, r1) →
    r1._error = r._error ∨ r1._error = ParseError.ReachedEnd
  | 0, _, _, _, _, h => by simp [Reader.getLoop] at h
  | fuel + 1, t, r, t1, r1, h => by
    unfold Reader.getLoop at h
    split at h
    · rcases Reader.getLoop_error fuel _ _ _ _ h with h1 | h1
      · rcases Reader.next_error r with h2 | h2
        · left; rw [h1, h2]
        · right; rw [h1, h2]
      · right; exact h1
    · cases h; left; rfl

/-- A `get` leaves the error as it was or raises `ReachedEnd`. -/
theorem Reader.get_error (r : Reader) (t : Nat) (r1 : Reader) (h : r.get = some (t, r1)) :
    r1._error = r._error ∨ r1._error = ParseError.ReachedEnd := by
  rcases Reader.getLoop_error _ _ _ _ _ h with h1 | h1
  · rcases Reader.next_error r with h2 | h2
    · left; rw [h1, h2]
    · right; rw [h1, h2]
  · right; exact h1

/-- C14. Decode errors of `getByte` at depth 0, `m` being the first token read.
`getByte` returns 0 with the error `DecodeError` when `m > 0x6E`, or `m` is `0`
and the next token read exceeds 0x5A, or `0x5A < m ≤ 0x6E` and the next token
read exceeds 0x66. In every other case the error after the call is the one
before it or `ReachedEnd`, so no `DecodeError` is set; in particular a first
token at most 0x5A other than `0` (so also one below 0x41) yields
`(m - 0x41) mod 256`. -/
theorem getByte_decode_errors (r r1 : Reader) (m : Nat) (hd : r._depth = 0)
    (hg : r.get = some (m, r1)) :
    (0x6E < m → r.getByte = some (0, { r1 with _error := ParseError.DecodeError })) ∧
    (m = 0x30 → ∀ (n : Nat) (r2 : Reader), r1.get = some (n, r2) →
      (0x5A < n → r.getByte = some (0, { r2 with _error := ParseError.DecodeError })) ∧
      (n ≤ 0x5A → ∃ r3, r.getByte = some (0, r3) ∧
        (r3._error = r._error ∨ r3._error = ParseError.ReachedEnd))) ∧
    (0x5A < m → m ≤ 0x6E → ∀ (z : Nat) (r2 : Reader), r1.get = some (z, r2) →
      (0x66 < z → r.getByte = some (0, { r2 with _error := ParseError.DecodeError })) ∧
      (z ≤ 0x66 → ∃ b r3, r.getByte = some (b, r3) ∧
        (r3._error = r._error ∨ r3._error = ParseError.ReachedEnd))) ∧
    (m ≤ 0x5A → m ≠ 0x30 →
      r.getByte = some ((m + 256 - 0x41) % 256, r1) ∧
      (r1._error = r._error ∨ r1._error = ParseError.ReachedEnd)) := by
  have hd0 : ¬ (r._depth > 0) := by omega
  have he1 := Reader.get_error r m r1 hg
  have he2 : ∀ (n : Nat) (r2 : Reader), r1.get = some (n, r2) →
      (r2._error = r._error ∨ r2._error = ParseError.ReachedEnd) := by
    intro n r2 h2
    rcases Reader.get_error r1 n r2 h2 with h | h
    · rcases he1 with h1 | h1
      · left; rw [h, h1]
      · right; rw [h, h1]
    · right; exact h
  refine ⟨?_, ?_, ?_, ?_⟩
  · intro hm
    have h1 : ¬ m = 0x30 := by omega
    have h2 : m > 0x5A := by omega
    have h3 : m > 0x6E := hm
    unfold Reader.getByte
    rw [if_neg hd0]
    simp only [hg, h1, if_false, h2, h3, if_true]
  · intro hm n r2 h2
    subst hm
    constructor
    · intro hn
      have hn' : n > 0x5A := hn
      unfold Reader.getByte
      rw [if_neg hd0]
      simp only [hg, if_true, h2, hn']
    · intro hn
      have hn' : ¬ n > 0x5A := by omega
      refine ⟨{ r2 with _depth := (((n : Int) - 0x40) % (SIZE_MOD : Int)).toNat }, ?_, ?_⟩
      · unfold Reader.getByte
        rw [if_neg hd0]
        simp only [hg, if_true, h2, hn', if_false]
      · exact he2 n r2 h2
  · intro hm1 hm2 z r2 h2
    have h1 : ¬ m = 0x30 := by omega
    have h2' : m > 0x5A := hm1
    have h3 : ¬ m > 0x6E := by omega
    constructor
    · intro hz
      have hz1 : z > 0x5A := by omega
      have hz2 : z > 0x66 := hz
      unfold Reader.getByte
      rw [if_neg hd0]
      simp only [hg, h1, if_false, h2', if_true, h3, h2, hz1, hz2]
    · intro hz
      have hz2 : ¬ z > 0x66 := by omega
      by_cases hz1 : z > 0x5A
      · refine ⟨((z + 256 - 0x47) % 256) ||| (32 * (m + 1) % 256), r2, ?_, he2 z r2 h2⟩
        unfold Reader.getByte
        rw [if_neg hd0]
        simp only [hg, h1, if_false, h2', if_true, h3, h2, hz1, hz2]
      · refine ⟨((z + 256 - 0x41) % 256) ||| (32 * (m + 1) % 256), r2, ?_, he2 z r2 h2⟩
        unfold Reader.getByte
        rw [if_neg hd0]
        simp only [hg, h1, if_false, h2', if_true, h3, h2, hz1]
  · intro hm1 hm2
    have h2 : ¬ m > 0x5A := by omega
    refine ⟨?_, he1⟩
    unfold Reader.getByte
    rw [if_neg hd0]
    simp only [hg, hm2, if_false, h2]

/-- Witness of C14: in the buffer `oAA` the first token `o` (0x6F) is above
0x6E; `getByte` returns 0 and sets `DecodeError`. In the buffer `5AA` the first
token `5` (0x35) is below 0x41; `getByte` returns 244 and sets no error. -/
theorem getByte_decode_errors_witness :
    (Reader.new [0x6F, 0x41, 0x41] false).getByte =
      some (0, { Reader.new [0x6F, 0x41, 0x41] false with
        _cursor := 1, _error := ParseError.DecodeError }) ∧
    (Reader.new [0x35, 0x41, 0x41] false).getByte =
      some (244, { Reader.new [0x35, 0x41, 0x41] false with _cursor := 1 }) :=
  ⟨(getByte_decode_errors (Reader.new [0x6F, 0x41, 0x41] false)
      { Reader.new [0x6F, 0x41, 0x41] false with _cursor := 1 } 0x6F
      (by decide) (by decide)).1 (by decide),
   ((getByte_decode_errors (Reader.new [0x35, 0x41, 0x41] false)
      { Reader.new [0x35, 0x41, 0x41] false with _cursor := 1 } 0x35
      (by decide) (by decide)).2.2.2 (by decide) (by decide)).1⟩

/-! ## The constructor -/

theorem Reader.new_data (jsxbin : List Nat) (deob : Bool) :
    (Reader.new jsxbin deob)._data = jsxbin.filter (fun t => !isStrippedChar t) := by
  simp only [Reader.new, string_strip_char, List.filter_filter]
  congr 1
  funext t
  simp only [isStrippedChar, Bool.not_or, bne, Bool.and_assoc]
  cases (t == 0x20) <;> cases (t == 0x09) <;> cases (t == 0x0D) <;> cases (t == 0x0A) <;>
    cases (t == 0x5C) <;> rfl

theorem isStrippedChar_of_ignorable (t : Nat) (h : Reader._ignorable t = true) :
    isStrippedChar t = true := by
  unfold Reader._ignorable at h
  unfold isStrippedChar
  rw [h]; rfl

theorem Reader.new_stripped (jsxbin : List Nat) (deob : Bool) :
    (Reader.new jsxbin deob).Stripped := by
  intro t ht
  rw [Reader.new_data] at ht
  have h := (List.mem_filter.mp ht).2
  cases hi : Reader._ignorable t with
  | false => rfl
  | true => rw [isStrippedChar_of_ignorable t hi] at h; cases h

theorem Reader.new_end_lt (jsxbin : List Nat) (deob : Bool)
    (hne : (Reader.new jsxbin deob)._data ≠ []) :
    (Reader.new jsxbin deob)._end < (Reader.new jsxbin deob)._data.length := by
  have hpos : 0 < (Reader.new jsxbin deob)._data.length := List.length_pos.mpr hne
  have he : (Reader.new jsxbin deob)._end =
      ((Reader.new jsxbin deob)._data.length + SIZE_MOD - 1) % SIZE_MOD := rfl
  rw [he]
  have hM : 0 < SIZE_MOD := by norm_num [SIZE_MOD]
  have h1 : (Reader.new jsxbin deob)._data.length + SIZE_MOD - 1 =
      ((Reader.new jsxbin deob)._data.length - 1) + SIZE_MOD := by omega
  rw [h1, Nat.add_mod_right]
  exact lt_of_le_of_lt (Nat.mod_le _ _) (by omega)

/-- In a stripped buffer every read of `_data`, inside the buffer or outside,
gives a token that `get` does not skip. -/
theorem Reader.dataAt_not_ignorable (r : Reader) (hs : r.Stripped) (i : Nat) :
    Reader._ignorable (r.dataAt i) = false := by
  unfold Reader.dataAt
  by_cases hi : i < r._data.length
  · have : r._data.getD i 0 = r._data[i] := by
      rw [List.getD_eq_getElem?_getD, List.getElem?_eq_getElem hi]; rfl
    rw [this]
    exact hs _ (List.getElem_mem hi)
  · have : r._data.getD i 0 = 0 := by
      rw [List.getD_eq_getElem?_getD, List.getElem?_eq_none (by omega)]; rfl
    rw [this]; rfl

theorem Reader.next_not_ignorable (r : Reader) (hs : r.Stripped) :
    Reader._ignorable (r._next).1 = false := by
  unfold Reader._next
  split
  · exact Reader.dataAt_not_ignorable r hs _
  · exact Reader.dataAt_not_ignorable r hs _

/-- On a stripped buffer `get` is one `_next`. -/
theorem Reader.get_stripped (r : Reader) (hs : r.Stripped) : r.get = some r._next :=
  Reader.get_of_not_ignorable r (Reader.next_not_ignorable r hs)

/-- C19. For every input the buffer the constructor builds is the input with
exactly the characters blank, tab, CR, LF and backslash removed, in the same
order, and holds none of them. Hence, when that buffer is not empty, on every
state of a reader over it (same buffer, same `_end`) the token `_next` returns
is a token of the buffer, the loop of `get` ends at its first test, and `get`
returns the token and the state of that one `_next` call. -/
theorem constructor_strips (jsxbin : List Nat) (deob : Bool) :
    (Reader.new jsxbin deob)._data = jsxbin.filter (fun t => !isStrippedChar t) ∧
    (∀ t ∈ (Reader.new jsxbin deob)._data, isStrippedChar t = false) ∧
    ((Reader.new jsxbin deob)._data ≠ [] →
      ∀ r : Reader, r._data = (Reader.new jsxbin deob)._data →
        r._end = (Reader.new jsxbin deob)._end →
        (r._next).1 ∈ r._data ∧
        Reader.getLoop 1 (r._next).1 (r._next).2 = some r._next ∧
        r.get = some r._next) := by
  refine ⟨Reader.new_data jsxbin deob, ?_, ?_⟩
  · intro t ht
    rw [Reader.new_data] at ht
    have h := (List.mem_filter.mp ht).2
    cases hc : isStrippedChar t with
    | false => rfl
    | true => rw [hc] at h; cases h
  · intro hne r hdata hend
    have hs : r.Stripped := by
      intro t ht
      rw [hdata] at ht
      exact Reader.new_stripped jsxbin deob t ht
    have hlt : r._end < r._data.length := by
      rw [hdata, hend]; exact Reader.new_end_lt jsxbin deob hne
    have hin : ∀ i, i < r._data.length → r.dataAt i ∈ r._data := by
      intro i hi
      have : r._data.getD i 0 = r._data[i] := by
        rw [List.getD_eq_getElem?_getD, List.getElem?_eq_getElem hi]; rfl
      unfold Reader.dataAt
      rw [this]
      exact List.getElem_mem hi
    refine ⟨?_, ?_, Reader.get_stripped r hs⟩
    · unfold Reader._next
      split
      · rename_i hc
        exact hin _ (by omega)
      · exact hin _ hlt
    · exact Reader.getLoop_of_not_ignorable 0 _ _ (Reader.next_not_ignorable r hs)

/-- Witness of C19: the input `" A\\B\n"` (blank, `A`, backslash, `B`, line
feed) gives the buffer `AB`, and `get` on the new reader is one `_next`. -/
theorem constructor_strips_witness :
    (Reader.new [0x20, 0x41, 0x5C, 0x42, 0x0A] false)._data = [0x41, 0x42] ∧
    (Reader.new [0x20, 0x41, 0x5C, 0x42, 0x0A] false).get =
      some (Reader.new [0x20, 0x41, 0x5C, 0x42, 0x0A] false)._next :=
  ⟨(constructor_strips [0x20, 0x41, 0x5C, 0x42, 0x0A] false).1,
   ((constructor_strips [0x20, 0x41, 0x5C, 0x42, 0x0A] false).2.2 (by decide)
      (Reader.new [0x20, 0x41, 0x5C, 0x42, 0x0A] false) rfl rfl).2.2⟩

/-! ## The lazy node depth -/

theorem Reader.step_one (r : Reader) (h : r._cursor + 1 < SIZE_MOD) :
    r.step 1 = { r with _cursor := r._cursor + 1 } := by
  unfold Reader.step
  have : (((r._cursor : Int) + 1) % (SIZE_MOD : Int)).toNat = r._cursor + 1 := by
    have h1 : ((r._cursor : Int) + 1) = ((r._cursor + 1 : Nat) : Int) := by push_cast; ring
    rw [h1, Int.emod_eq_of_lt (by omega) (by exact_mod_cast h), Int.toNat_ofNat]
  rw [this]

theorem Reader.peek_zero (r : Reader) (h : r._cursor < SIZE_MOD) :
    r.peek 0 = r.dataAt r._cursor := by
  unfold Reader.peek
  have : (((r._cursor : Int) + 0) % (SIZE_MOD : Int)).toNat = r._cursor := by
    rw [Int.add_zero, Int.emod_eq_of_lt (by omega) (by exact_mod_cast h), Int.toNat_ofNat]
  rw [this]

theorem Reader.dataAt_of_getElem (r : Reader) (i t : Nat) (h : r._data[i]? = some t) :
    r.dataAt i = t := by
  unfold Reader.dataAt
  rw [List.getD_eq_getElem?_getD, h]; rfl

/-- C20. The two decoders of the `0` depth marker agree. At depth 0, when the
tokens in front of the cursor are `0` and `n` with `0x40 ≤ n ≤ 0x5A`, and at
least one more token follows, `getByte` returns 0, moves the cursor over those
two tokens and sets the depth to `n - 0x40`, and `parse_node_depth` from the
same state moves the cursor over the same two tokens and returns `n - 0x3F`:
one zero now and `n - 0x40` to come, or `n - 0x3F` to come. -/
theorem depth_marker_agree (r : Reader) (n : Nat) (hd : r._depth = 0)
    (hn1 : 0x40 ≤ n) (hn2 : n ≤ 0x5A) (hw : r.EndIsLast) (hsz : r._data.length < SIZE_MOD)
    (ht : r.tokensAt 0 [0x30, n]) (hmore : r._cursor + 2 < r._data.length) :
    r.getByte = some (0, { r with _cursor := r._cursor + 2, _depth := n - 0x40 }) ∧
    r.parse_node_depth = some (((n - 0x3F : Nat) : Int), { r with _cursor := r._cursor + 2 }) ∧
    1 + (n - 0x40) = n - 0x3F := by
  unfold Reader.EndIsLast at hw
  have h0 := Reader.tokensAt_getElem r 0 _ ht 0 0x30 (by simp)
  have h1 := Reader.tokensAt_getElem r 0 _ ht 1 n (by simp)
  simp only [Nat.add_zero] at h0 h1
  have hc0 : r._cursor < r._end := by omega
  have hc1 : r._cursor + 1 < r._end := by omega
  have hg0 : r.get = some (0x30, { r with _cursor := r._cursor + 1 }) := by
    have := Reader.get_before_last r hc0 (by rw [Reader.dataAt_of_getElem r _ _ h0]; decide)
    rwa [Reader.dataAt_of_getElem r _ _ h0] at this
  have hni : Reader._ignorable n = false := Reader._ignorable_of_gt n (by omega)
  have hg1 : Reader.get { r with _cursor := r._cursor + 1 } =
      some (n, { r with _cursor := r._cursor + 2 }) := by
    have hd1 : Reader.dataAt { r with _cursor := r._cursor + 1 } (r._cursor + 1) = n :=
      Reader.dataAt_of_getElem _ _ _ h1
    have := Reader.get_before_last { r with _cursor := r._cursor + 1 } hc1
      (by rw [hd1]; exact hni)
    rw [hd1] at this
    exact this
  have hd0 : ¬ (r._depth > 0) := by omega
  have hn3 : ¬ (n > 0x5A) := by omega
  have hdepth : ((((n : Int) - 0x40) % (SIZE_MOD : Int))).toNat = n - 0x40 := by
    have h1 : ((n : Int) - 0x40) = ((n - 0x40 : Nat) : Int) := by omega
    have h2 : n - 0x40 < SIZE_MOD := by norm_num [SIZE_MOD]; omega
    rw [h1, Int.emod_eq_of_lt (by omega) (by exact_mod_cast h2), Int.toNat_ofNat]
  refine ⟨?_, ?_, by omega⟩
  · unfold Reader.getByte
    rw [if_neg hd0]
    simp only [hg0, if_true, hg1, hn3, if_false, hdepth]
  · unfold Reader.parse_node_depth Reader.parse_node_depth_loop
    have hp : r.peek 0 = 0x30 := by
      rw [Reader.peek_zero r (by omega), Reader.dataAt_of_getElem r _ _ h0]
    have hs : r.step 1 = { r with _cursor := r._cursor + 1 } := Reader.step_one r (by omega)
    have hl : ¬ ((n : Int) - 0x3f > 0x1b) := by omega
    have hv : ((n : Int) - 0x3f) = ((n - 0x3F : Nat) : Int) := by omega
    have h48 : ¬ ((0x30 : Nat) = 0x41) := by decide
    simp only [hp, hs, hg1, hl, h48, if_false, if_true]
    rw [hv]

/-- Witness of C20: in the buffer `0BCD` the marker `0B` stands for three zero
values: `getByte` returns 0 and sets the depth to 2, `parse_node_depth` returns
3, and both leave the cursor on `C`. -/
theorem depth_marker_agree_witness :
    (Reader.new [0x30, 0x42, 0x43, 0x44] false).getByte =
      some (0, { Reader.new [0x30, 0x42, 0x43, 0x44] false with _cursor := 2, _depth := 2 }) ∧
    (Reader.new [0x30, 0x42, 0x43, 0x44] false).parse_node_depth =
      some (3, { Reader.new [0x30, 0x42, 0x43, 0x44] false with _cursor := 2 }) :=
  ⟨(depth_marker_agree (Reader.new [0x30, 0x42, 0x43, 0x44] false) 0x42 (by decide) (by decide)
      (by decide) (by decide) (by decide) (by decide) (by decide)).1,
   (depth_marker_agree (Reader.new [0x30, 0x42, 0x43, 0x44] false) 0x42 (by decide) (by decide)
      (by decide) (by decide) (by decide) (by decide) (by decide)).2.1⟩

/-- C18. The lazy node depth. A positive stored depth is returned by
`get_node_depth` and nothing changes. At stored depth 0 the token at the cursor
is inspected: `A` sets the depth to 1 and moves the cursor over exactly that
token; a token that is neither `A` nor `0` leaves the depth 0 and the cursor
where it was. `decrement_node_depth` returns false exactly when the depth
`get_node_depth` returns is 0, and otherwise returns true with that depth
decreased by one. -/
theorem lazy_node_depth (r : Reader) (hc : r._cursor + 1 < SIZE_MOD) :
    (0 < r._depth → r.get_node_depth = some (r._depth, r)) ∧
    (r._depth = 0 → r.dataAt r._cursor = 0x41 →
      r.get_node_depth = some (1, { r with _cursor := r._cursor + 1, _depth := 1 })) ∧
    (r._depth = 0 → r.dataAt r._cursor ≠ 0x41 → r.dataAt r._cursor ≠ 0x30 →
      r.get_node_depth = some (0, r)) ∧
    (∀ (d : Nat) (r1 : Reader), r.get_node_depth = some (d, r1) →
      d = r1._depth ∧
      (d = 0 → r.decrement_node_depth = some (false, r1)) ∧
      (d ≠ 0 → r.decrement_node_depth = some (true, { r1 with _depth := d - 1 }))) := by
  have hp : r.peek 0 = r.dataAt r._cursor := Reader.peek_zero r (by omega)
  refine ⟨?_, ?_, ?_, ?_⟩
  · intro h
    unfold Reader.get_node_depth
    rw [if_neg (by omega)]
  · intro hd hA
    unfold Reader.get_node_depth Reader.update_node_depth Reader.parse_node_depth
      Reader.parse_node_depth_loop
    simp only [hd, if_true, hp, hA, Reader.step_one r hc]
    rfl
  · intro hd hA h0
    unfold Reader.get_node_depth Reader.update_node_depth Reader.parse_node_depth
      Reader.parse_node_depth_loop
    simp only [hd, if_true, hp, hA, h0, if_false]
    have hz : ((0 : Int) % (SIZE_MOD : Int)).toNat = 0 := by simp
    have hr : ({ r with _depth := 0 } : Reader) = r := by
      cases r
      simp only at hd
      simp [hd]
    simp only [hz, hr]
  · intro d r1 h
    have hdep : d = r1._depth := by
      unfold Reader.get_node_depth at h
      split at h
      · split at h
        · cases h
        · cases h; rfl
      · cases h; rfl
    refine ⟨hdep, ?_, ?_⟩
    · intro h0
      unfold Reader.decrement_node_depth
      simp only [h, h0, if_true]
    · intro h0
      have h1 : ¬ r1._depth = 0 := by rw [← hdep]; exact h0
      unfold Reader.decrement_node_depth
      simp only [h, hdep, h1, if_false]

/-- Witness of C18: in the buffer `AB` the marker `A` gives the depth 1 and the
cursor moves to 1; `decrement_node_depth` then returns true and leaves the
depth 0. -/
theorem lazy_node_depth_witness :
    (Reader.new [0x41, 0x42] false).get_node_depth =
      some (1, { Reader.new [0x41, 0x42] false with _cursor := 1, _depth := 1 }) ∧
    (Reader.new [0x41, 0x42] false).decrement_node_depth =
      some (true, { Reader.new [0x41, 0x42] false with _cursor := 1, _depth := 0 }) :=
  ⟨(lazy_node_depth (Reader.new [0x41, 0x42] false) (by decide)).2.1 (by decide) (by decide),
   ((lazy_node_depth (Reader.new [0x41, 0x42] false) (by decide)).2.2.2 1
      { Reader.new [0x41, 0x42] false with _cursor := 1, _depth := 1 } (by decide)).2.2
      (by decide)⟩

/-! ## What every operation keeps -/

theorem Reader.Sticky.same (r : Reader) : r.Sticky r :=
  ⟨rfl, rfl, fun h => h, fun _ h => h⟩

theorem Reader.Sticky.comp {r r1 r2 : Reader} (h1 : r.Sticky r1) (h2 : r1.Sticky r2) :
    r.Sticky r2 := by
  rcases h1 with ⟨hdata, hend, herr, hcur⟩
  rcases h2 with ⟨kdata, kend, kerr, kcur⟩
  refine ⟨by rw [kdata, hdata], by rw [kend, hend], fun h => kerr (herr h), fun he hc => ?_⟩
  exact kcur (by rw [hend]; exact he) (hcur he hc)

theorem Reader.sticky_depth (r : Reader) (d : Nat) : r.Sticky { r with _depth := d } :=
  ⟨rfl, rfl, fun h => h, fun _ h => h⟩

theorem Reader.sticky_symbols (r : Reader) (m : List (Nat × List Nat)) :
    r.Sticky { r with _symbols := m } :=
  ⟨rfl, rfl, fun h => h, fun _ h => h⟩

theorem Reader.sticky_decode_error (r : Reader) :
    r.Sticky { r with _error := ParseError.DecodeError } :=
  ⟨rfl, rfl, fun _ h => (by cases h), fun _ h => h⟩

theorem Reader.sticky_step (r : Reader) (o : Int) : r.Sticky (r.step o) := by
  refine ⟨rfl, rfl, fun h => h, fun _ _ => ?_⟩
  show (((r._cursor : Int) + o) % (SIZE_MOD : Int)).toNat < SIZE_MOD
  have hM : (0 : Int) < (SIZE_MOD : Int) := by norm_num [SIZE_MOD]
  have h1 := Int.emod_lt_of_pos ((r._cursor : Int) + o) hM
  have h2 := Int.emod_nonneg ((r._cursor : Int) + o) (ne_of_gt hM)
  omega

theorem Reader.sticky_next (r : Reader) : r.Sticky (r._next).2 := by
  unfold Reader._next
  split
  · rename_i hc
    refine ⟨rfl, rfl, fun h => h, fun he _ => ?_⟩
    show r._cursor + 1 < SIZE_MOD
    omega
  · exact ⟨rfl, rfl, fun _ h => (by cases h), fun _ h => h⟩

theorem Reader.sticky_getLoop : ∀ (fuel : Nat) (t : Nat) (r : Reader) (t1 : Nat)
    (r1 : Reader), Reader.getLoop fuel t r = some (t1, r1) → r.Sticky r1
  | 0, _, _, _, _, h => by simp [Reader.getLoop] at h
  | fuel + 1, t, r, t1, r1, h => by
    unfold Reader.getLoop at h
    split at h
    · exact (Reader.sticky_next r).comp (Reader.sticky_getLoop fuel _ _ _ _ h)
    · cases h; exact Reader.Sticky.same r

theorem Reader.sticky_get (r : Reader) (t : Nat) (r1 : Reader) (h : r.get = some (t, r1)) :
    r.Sticky r1 :=
  (Reader.sticky_next r).comp (Reader.sticky_getLoop _ _ _ _ _ h)

theorem Reader.sticky_getByte (r : Reader) (b : Nat) (r1 : Reader)
    (h : r.getByte = some (b, r1)) : r.Sticky r1 := by
  unfold Reader.getByte at h
  split at h
  · cases h; exact Reader.sticky_depth r _
  · split at h
    · cases h
    · rename_i m r2 hg
      have f1 := Reader.sticky_get r m r2 hg
      split at h
      · split at h
        · cases h
        · rename_i n r3 hg2
          have f2 := f1.comp (Reader.sticky_get r2 n r3 hg2)
          split at h
          · cases h; exact f2.comp (Reader.sticky_decode_error r3)
          · cases h; exact f2.comp (Reader.sticky_depth r3 _)
      · split at h
        · split at h
          · cases h; exact f1.comp (Reader.sticky_decode_error r2)
          · split at h
            · cases h
            · rename_i z r3 hg2
              have f2 := f1.comp (Reader.sticky_get r2 z r3 hg2)
              dsimp only at h
              split at h
              · split at h
                · cases h; exact f2.comp (Reader.sticky_decode_error r3)
                · cases h; exact f2
              · cases h; exact f2
        · cases h; exact f1

theorem Reader.sticky_getNumberBytes : ∀ (k i res : Nat) (r : Reader) (x : Nat)
    (r1 : Reader), Reader.getNumberBytes k i res r = some (x, r1) → r.Sticky r1
  | 0, _, _, r, _, _, h => by
    simp only [Reader.getNumberBytes, Option.some.injEq, Prod.mk.injEq] at h
    rw [← h.2]; exact Reader.Sticky.same r
  | k + 1, i, res, r, x, r1, h => by
    unfold Reader.getNumberBytes at h
    split at h
    · cases h
    · rename_i b r2 hb
      exact (Reader.sticky_getByte r b r2 hb).comp
        (Reader.sticky_getNumberBytes k _ _ r2 x r1 h)

theorem Reader.sticky_getNumber (r : Reader) (x : Nat) (r1 : Reader)
    (h : r.getNumber = some (x, r1)) : r.Sticky r1 := by
  unfold Reader.getNumber at h
  split at h
  · cases h; exact Reader.sticky_depth r _
  · split at h
    · cases h
    · rename_i t0 r2 hg
      have f1 := Reader.sticky_get r t0 r2 hg
      split at h
      · cases h
      · rename_i t neg r3 hsel
        have f2 : r.Sticky r3 := by
          split at hsel
          · cases hsel; exact f1
          · split at hsel
            · cases hsel
            · rename_i t1 r4 hg2
              cases hsel
              exact f1.comp (Reader.sticky_get r2 _ _ hg2)
        split at h
        · split at h
          · cases h
          · rename_i res r4 hb
            cases h
            exact f2.comp (Reader.sticky_getNumberBytes _ _ _ _ _ _ hb)
        · split at h
          · cases h
          · rename_i b r4 hb
            cases h
            exact (f2.comp (Reader.sticky_step r3 _)).comp
              (Reader.sticky_getByte _ _ _ hb)

theorem Reader.sticky_getStringLoop : ∀ (k : Nat) (acc : List Nat) (r : Reader)
    (s : List Nat) (r1 : Reader), Reader.getStringLoop k acc r = some (s, r1) → r.Sticky r1
  | 0, _, r, _, _, h => by
    simp only [Reader.getStringLoop, Option.some.injEq, Prod.mk.injEq] at h
    rw [← h.2]; exact Reader.Sticky.same r
  | k + 1, acc, r, s, r1, h => by
    unfold Reader.getStringLoop at h
    split at h
    · cases h
    · rename_i x r2 hx
      exact (Reader.sticky_getNumber r x r2 hx).comp
        (Reader.sticky_getStringLoop k _ r2 s r1 h)

theorem Reader.sticky_getString (r : Reader) (s : List Nat) (r1 : Reader)
    (h : r.getString = some (s, r1)) : r.Sticky r1 := by
  unfold Reader.getString at h
  split at h
  · cases h
  · rename_i x r2 hx
    exact (Reader.sticky_getNumber r x r2 hx).comp
      (Reader.sticky_getStringLoop _ _ r2 s r1 h)

theorem Reader.sticky_getBoolean (r : Reader) (b : Bool) (r1 : Reader)
    (h : r.getBoolean = some (b, r1)) : r.Sticky r1 := by
  unfold Reader.getBoolean at h
  split at h
  · cases h
  · rename_i t r2 hg
    have f1 := Reader.sticky_get r t r2 hg
    split at h
    · cases h; exact f1
    · split at h
      · cases h; exact f1
      · cases h; exact f1.comp (Reader.sticky_decode_error r2)

theorem Reader.sticky_readSID (r : Reader) (s : List Nat) (r1 : Reader)
    (h : r.readSID = some (s, r1)) : r.Sticky r1 := by
  unfold Reader.readSID at h
  split at h
  · cases h
  · rename_i t r2 hg
    have f1 := Reader.sticky_get r t r2 hg
    split at h
    · split at h
      · cases h
      · rename_i symbol r3 hs
        have f2 := f1.comp (Reader.sticky_getString r2 symbol r3 hs)
        split at h
        · cases h
        · rename_i id r4 hn
          have f3 := f2.comp (Reader.sticky_getNumber r3 id r4 hn)
          cases h
          exact f3.comp (Reader.sticky_symbols r4 _)
    · split at h
      · cases h
      · rename_i id r3 hn
        have f2 := (f1.comp (Reader.sticky_step r2 _)).comp
          (Reader.sticky_getNumber _ id r3 hn)
        unfold Reader.getSymbol at h
        split at h
        · cases h; exact f2
        · cases h; exact f2.comp (Reader.sticky_symbols r3 _)

theorem Reader.sticky_getVariant (r : Reader) (v : Option Variant) (r1 : Reader)
    (h : r.getVariant = some (v, r1)) : r.Sticky r1 := by
  unfold Reader.getVariant at h
  split at h
  · cases h
  · rename_i t r2 hg
    have f1 := Reader.sticky_get r t r2 hg
    split at h
    · cases h; exact f1
    · split at h
      · cases h
      · rename_i t2 r3 hg2
        have f2 := (f1.comp (Reader.sticky_step r2 _)).comp (Reader.sticky_get _ t2 r3 hg2)
        dsimp only at h
        split at h
        · cases h; exact f2
        · split at h
          · cases h; exact f2
          · split at h
            · split at h
              · cases h
              · rename_i b r4 hb
                cases h; exact f2.comp (Reader.sticky_getBoolean _ _ _ hb)
            · split at h
              · split at h
                · cases h
                · rename_i x r4 hx
                  cases h; exact f2.comp (Reader.sticky_getNumber _ _ _ hx)
              · split at h
                · split at h
                  · cases h
                  · rename_i s r4 hx
                    cases h; exact f2.comp (Reader.sticky_getString _ _ _ hx)
                · cases h; exact f2.comp (Reader.sticky_decode_error r3)

theorem Reader.sticky_parse_node_depth_loop : ∀ (fuel : Nat) (r : Reader) (d : Int)
    (r1 : Reader), Reader.parse_node_depth_loop fuel r = some (d, r1) → r.Sticky r1
  | 0, _, _, _, h => by simp [Reader.parse_node_depth_loop] at h
  | fuel + 1, r, d, r1, h => by
    unfold Reader.parse_node_depth_loop at h
    dsimp only at h
    split at h
    · cases h; exact Reader.sticky_step r _
    · split at h
      · split at h
        · cases h
        · rename_i t r2 hg
          have f1 := (Reader.sticky_step r 1).comp (Reader.sticky_get _ t r2 hg)
          split at h
          · split at h
            · cases h
            · rename_i d2 r3 hp
              cases h
              exact f1.comp (Reader.sticky_parse_node_depth_loop fuel _ _ _ hp)
          · cases h; exact f1
      · cases h; exact Reader.Sticky.same r

theorem Reader.sticky_get_node_depth (r : Reader) (d : Nat) (r1 : Reader)
    (h : r.get_node_depth = some (d, r1)) : r.Sticky r1 := by
  unfold Reader.get_node_depth at h
  split at h
  · split at h
    · cases h
    · rename_i r2 hu
      cases h
      unfold Reader.update_node_depth at hu
      split at hu
      · cases hu
      · rename_i d2 r3 hp
        cases hu
        exact (Reader.sticky_parse_node_depth_loop _ r d2 r3 hp).comp
          (Reader.sticky_depth r3 _)
  · cases h; exact Reader.Sticky.same r

theorem Reader.sticky_decrement_node_depth (r : Reader) (b : Bool) (r1 : Reader)
    (h : r.decrement_node_depth = some (b, r1)) : r.Sticky r1 := by
  unfold Reader.decrement_node_depth at h
  split at h
  · cases h
  · rename_i d r2 hg
    have f1 := Reader.sticky_get_node_depth r d r2 hg
    split at h
    · cases h; exact f1
    · cases h; exact f1.comp (Reader.sticky_depth r2 _)

theorem Reader.sticky_verifySignature (sig : Signatures) (r : Reader) :
    r.Sticky (r.verifySignature sig).2 := by
  have hadv : ∀ v : JsxbinVersion, r.Sticky
      { r with _version := v
               _cursor := (r._cursor + sig.JSXBIN_SIGNATURE_LEN) % SIZE_MOD
               _start := (r._cursor + sig.JSXBIN_SIGNATURE_LEN) % SIZE_MOD } := by
    intro v
    refine ⟨rfl, rfl, fun h => h, fun _ _ => ?_⟩
    exact Nat.mod_lt _ (by norm_num [SIZE_MOD])
  unfold Reader.verifySignature
  dsimp only
  split
  · exact hadv _
  · split
    · exact hadv _
    · split
      · exact hadv _
      · exact ⟨rfl, rfl, fun _ h => (by cases h), fun _ h => h⟩

/-! ## Every operation returns -/

theorem Reader.Sticky.stripped {r r1 : Reader} (h : r.Sticky r1) (hs : r.Stripped) :
    r1.Stripped := by
  intro t ht
  rw [h.1] at ht
  exact hs t ht

theorem Reader.Sticky.sized {r r1 : Reader} (h : r.Sticky r1) (hz : r.Sized) : r1.Sized := by
  rcases h with ⟨hdata, hend, -, hcur⟩
  rcases hz with ⟨h1, h2, h3⟩
  exact ⟨hcur h2 h1, by rw [hend]; exact h2, by rw [hdata]; exact h3⟩

theorem Reader.getByte_total (r : Reader) (hs : r.Stripped) : ∃ p, r.getByte = some p := by
  have h1 := Reader.get_stripped r hs
  have hs1 : (r._next).2.Stripped := (Reader.sticky_next r).stripped hs
  have h2 := Reader.get_stripped (r._next).2 hs1
  unfold Reader.getByte
  simp only [h1, h2]
  split_ifs <;> exact ⟨_, rfl⟩

theorem Reader.getNumberBytes_total : ∀ (k i res : Nat) (r : Reader), r.Stripped →
    ∃ p, Reader.getNumberBytes k i res r = some p
  | 0, _, _, _, _ => ⟨_, rfl⟩
  | k + 1, i, res, r, hs => by
    obtain ⟨⟨b, r1⟩, hb⟩ := Reader.getByte_total r hs
    have hs1 := (Reader.sticky_getByte r b r1 hb).stripped hs
    obtain ⟨p, hp⟩ := Reader.getNumberBytes_total k (i + 1) (Number.setByte res i b) r1 hs1
    exact ⟨p, by simp only [Reader.getNumberBytes, hb, hp]⟩

theorem Reader.getNumber_total (r : Reader) (hs : r.Stripped) : ∃ p, r.getNumber = some p := by
  have h1 := Reader.get_stripped r hs
  have hs1 : (r._next).2.Stripped := (Reader.sticky_next r).stripped hs
  have h2 := Reader.get_stripped (r._next).2 hs1
  have hs2 : ((r._next).2._next).2.Stripped := (Reader.sticky_next _).stripped hs1
  unfold Reader.getNumber
  split
  · exact ⟨_, rfl⟩
  · simp only [h1]
    by_cases hy : (r._next).1 = 0x79
    · simp only [hy, ne_eq, not_true_eq_false, if_false, h2]
      split
      · obtain ⟨p, hp⟩ := Reader.getNumberBytes_total (((r._next).2._next).1 - 48) 0 0 _ hs2
        rw [hp]; exact ⟨_, rfl⟩
      · obtain ⟨p, hp⟩ := Reader.getByte_total (((r._next).2._next).2.step (-1))
          ((Reader.sticky_step _ _).stripped hs2)
        rw [hp]; exact ⟨_, rfl⟩
    · simp only [hy, ne_eq, not_false_eq_true, if_true]
      split
      · obtain ⟨p, hp⟩ := Reader.getNumberBytes_total ((r._next).1 - 48) 0 0 _ hs1
        rw [hp]; exact ⟨_, rfl⟩
      · obtain ⟨p, hp⟩ := Reader.getByte_total ((r._next).2.step (-1))
          ((Reader.sticky_step _ _).stripped hs1)
        rw [hp]; exact ⟨_, rfl⟩

theorem Reader.getStringLoop_total : ∀ (k : Nat) (acc : List Nat) (r : Reader), r.Stripped →
    ∃ p, Reader.getStringLoop k acc r = some p
  | 0, _, _, _ => ⟨_, rfl⟩
  | k + 1, acc, r, hs => by
    obtain ⟨⟨x, r1⟩, hx⟩ := Reader.getNumber_total r hs
    have hs1 := (Reader.sticky_getNumber r x r1 hx).stripped hs
    obtain ⟨p, hp⟩ := Reader.getStringLoop_total k (acc ++ [number_as_int 16 x]) r1 hs1
    exact ⟨p, by simp only [Reader.getStringLoop, hx, hp]⟩

theorem Reader.getString_total (r : Reader) (hs : r.Stripped) : ∃ p, r.getString = some p := by
  obtain ⟨⟨x, r1⟩, hx⟩ := Reader.getNumber_total r hs
  have hs1 := (Reader.sticky_getNumber r x r1 hx).stripped hs
  obtain ⟨p, hp⟩ := Reader.getStringLoop_total (number_as_int 64 x) [] r1 hs1
  exact ⟨p, by simp only [Reader.getString, hx, hp]⟩

theorem Reader.getBoolean_total (r : Reader) (hs : r.Stripped) :
    ∃ p, r.getBoolean = some p := by
  unfold Reader.getBoolean
  simp only [Reader.get_stripped r hs]
  split_ifs <;> exact ⟨_, rfl⟩

theorem Reader.readSID_total (r : Reader) (hs : r.Stripped) : ∃ p, r.readSID = some p := by
  have h1 := Reader.get_stripped r hs
  have hs1 : (r._next).2.Stripped := (Reader.sticky_next r).stripped hs
  unfold Reader.readSID
  simp only [h1]
  split
  · obtain ⟨⟨s, r2⟩, hstr⟩ := Reader.getString_total _ hs1
    have hs2 := (Reader.sticky_getString _ s r2 hstr).stripped hs1
    obtain ⟨⟨i, r3⟩, hnum⟩ := Reader.getNumber_total r2 hs2
    simp only [hstr, hnum]
    exact ⟨_, rfl⟩
  · obtain ⟨⟨i, r3⟩, hnum⟩ := Reader.getNumber_total ((r._next).2.step (-1))
      ((Reader.sticky_step _ _).stripped hs1)
    simp only [hnum]
    exact ⟨_, rfl⟩

theorem Reader.getVariant_total (r : Reader) (hs : r.Stripped) :
    ∃ p, r.getVariant = some p := by
  have h1 := Reader.get_stripped r hs
  have hs1 : (r._next).2.Stripped := (Reader.sticky_next r).stripped hs
  have hs1' : ((r._next).2.step (-1)).Stripped := (Reader.sticky_step _ _).stripped hs1
  have h2 := Reader.get_stripped _ hs1'
  have hs2 : (((r._next).2.step (-1))._next).2.Stripped := (Reader.sticky_next _).stripped hs1'
  obtain ⟨pb, hb⟩ := Reader.getBoolean_total _ hs2
  obtain ⟨pn, hn⟩ := Reader.getNumber_total _ hs2
  obtain ⟨ps, hstr⟩ := Reader.getString_total _ hs2
  unfold Reader.getVariant
  simp only [h1, h2, hb, hn, hstr]
  split_ifs <;> exact ⟨_, rfl⟩

theorem Reader.parse_node_depth_loop_total : ∀ (fuel : Nat) (r : Reader), r.Stripped →
    r.Sized → r._data.length - r._cursor < fuel →
    ∃ p, Reader.parse_node_depth_loop fuel r = some p
  | 0, _, _, _, h => by omega
  | fuel + 1, r, hs, hz, hf => by
    obtain ⟨hc, he, hl⟩ := hz
    have hp : r.peek 0 = r.dataAt r._cursor := Reader.peek_zero r hc
    unfold Reader.parse_node_depth_loop
    dsimp only
    rw [hp]
    by_cases hA : r.dataAt r._cursor = 0x41
    · simp only [hA, if_true]; exact ⟨_, rfl⟩
    · by_cases h0 : r.dataAt r._cursor = 0x30
      · have hin : r._cursor < r._data.length := by
          by_contra hout
          have : r.dataAt r._cursor = 0 := by
            unfold Reader.dataAt
            rw [List.getD_eq_getElem?_getD, List.getElem?_eq_none (by omega)]; rfl
          rw [this] at h0
          exact absurd h0 (by decide)
        have hst : r.step 1 = { r with _cursor := r._cursor + 1 } :=
          Reader.step_one r (by omega)
        have hs1 : Reader.Stripped { r with _cursor := r._cursor + 1 } := hs
        have hg := Reader.get_stripped _ hs1
        have hs2 : (Reader._next { r with _cursor := r._cursor + 1 }).2.Stripped :=
          (Reader.sticky_next _).stripped hs1
        have hz2 : (Reader._next { r with _cursor := r._cursor + 1 }).2.Sized :=
          (Reader.sticky_next _).sized ⟨by show r._cursor + 1 < SIZE_MOD; omega, he, hl⟩
        have hcur : r._cursor + 1 ≤ (Reader._next { r with _cursor := r._cursor + 1 }).2._cursor := by
          unfold Reader._next
          split
          · show r._cursor + 1 ≤ r._cursor + 1 + 1; omega
          · exact le_refl _
        have hdat : (Reader._next { r with _cursor := r._cursor + 1 }).2._data = r._data :=
          (Reader.sticky_next _).1
        obtain ⟨p, hrec⟩ := Reader.parse_node_depth_loop_total fuel _ hs2 hz2
          (by rw [hdat]; omega)
        simp only [hA, h0, if_false, if_true, hst, hg, hrec]
        split_ifs <;> exact ⟨_, rfl⟩
      · simp only [hA, h0, if_false]; exact ⟨_, rfl⟩

theorem Reader.get_node_depth_total (r : Reader) (hs : r.Stripped) (hz : r.Sized) :
    ∃ p, r.get_node_depth = some p := by
  obtain ⟨p, hp⟩ := Reader.parse_node_depth_loop_total (r._data.length + 1) r hs hz (by omega)
  unfold Reader.get_node_depth Reader.update_node_depth Reader.parse_node_depth
  simp only [hp]
  split_ifs <;> exact ⟨_, rfl⟩

theorem Reader.decrement_node_depth_total (r : Reader) (hs : r.Stripped) (hz : r.Sized) :
    ∃ p, r.decrement_node_depth = some p := by
  obtain ⟨p, hp⟩ := Reader.get_node_depth_total r hs hz
  unfold Reader.decrement_node_depth
  simp only [hp]
  split_ifs <;> exact ⟨_, rfl⟩

/-- Every operation keeps what `Sticky` lists. -/
theorem Reader.sticky_perform (sig : Signatures) (op : Op) (r r1 : Reader)
    (h : r.perform sig op = some r1) : r.Sticky r1 := by
  cases op <;> simp only [Reader.perform, Option.map_eq_some', Option.some.injEq] at h
  · obtain ⟨⟨v, r2⟩, hv, rfl⟩ := h; exact Reader.sticky_get r v r2 hv
  · obtain ⟨⟨v, r2⟩, hv, rfl⟩ := h; exact Reader.sticky_getByte r v r2 hv
  · obtain ⟨⟨v, r2⟩, hv, rfl⟩ := h; exact Reader.sticky_getNumber r v r2 hv
  · obtain ⟨⟨v, r2⟩, hv, rfl⟩ := h; exact Reader.sticky_getString r v r2 hv
  · obtain ⟨⟨v, r2⟩, hv, rfl⟩ := h; exact Reader.sticky_getBoolean r v r2 hv
  · obtain ⟨⟨v, r2⟩, hv, rfl⟩ := h; exact Reader.sticky_getVariant r v r2 hv
  · obtain ⟨⟨v, r2⟩, hv, rfl⟩ := h; exact Reader.sticky_readSID r v r2 hv
  · obtain ⟨⟨v, r2⟩, hv, rfl⟩ := h; exact Reader.sticky_get_node_depth r v r2 hv
  · obtain ⟨⟨v, r2⟩, hv, rfl⟩ := h; exact Reader.sticky_decrement_node_depth r v r2 hv
  · rw [← h]; exact Reader.sticky_verifySignature sig r

/-- In the embedding, where a read outside the buffer gives 0 and the loop of
`getString` counts without bound, every operation on a stripped buffer with
`size_t` fields in range returns. -/
theorem Reader.perform_total (sig : Signatures) (op : Op) (r : Reader) (hs : r.Stripped)
    (hz : r.Sized) : ∃ r1, r.perform sig op = some r1 := by
  cases op
  · exact ⟨(r._next).2, by simp only [Reader.perform, Reader.get_stripped r hs, Option.map_some']⟩
  · obtain ⟨p, hp⟩ := Reader.getByte_total r hs
    exact ⟨p.2, by simp only [Reader.perform, hp, Option.map_some']⟩
  · obtain ⟨p, hp⟩ := Reader.getNumber_total r hs
    exact ⟨p.2, by simp only [Reader.perform, hp, Option.map_some']⟩
  · obtain ⟨p, hp⟩ := Reader.getString_total r hs
    exact ⟨p.2, by simp only [Reader.perform, hp, Option.map_some']⟩
  · obtain ⟨p, hp⟩ := Reader.getBoolean_total r hs
    exact ⟨p.2, by simp only [Reader.perform, hp, Option.map_some']⟩
  · obtain ⟨p, hp⟩ := Reader.getVariant_total r hs
    exact ⟨p.2, by simp only [Reader.perform, hp, Option.map_some']⟩
  · obtain ⟨p, hp⟩ := Reader.readSID_total r hs
    exact ⟨p.2, by simp only [Reader.perform, hp, Option.map_some']⟩
  · obtain ⟨p, hp⟩ := Reader.get_node_depth_total r hs hz
    exact ⟨p.2, by simp only [Reader.perform, hp, Option.map_some']⟩
  · obtain ⟨p, hp⟩ := Reader.decrement_node_depth_total r hs hz
    exact ⟨p.2, by simp only [Reader.perform, hp, Option.map_some']⟩
  · exact ⟨_, rfl⟩

/-- The reader the constructor builds from an input that fits a `size_t` is
such a state. -/
theorem Reader.new_sized (jsxbin : List Nat) (deob : Bool) (h : jsxbin.length < SIZE_MOD) :
    (Reader.new jsxbin deob).Sized := by
  refine ⟨by show 0 < SIZE_MOD; norm_num [SIZE_MOD], ?_, ?_⟩
  · show ((Reader.new jsxbin deob)._data.length + SIZE_MOD - 1) % SIZE_MOD < SIZE_MOD
    exact Nat.mod_lt _ (by norm_num [SIZE_MOD])
  · rw [Reader.new_data]
    exact lt_of_le_of_lt (List.length_filter_le _ _) h

/-- The token `_next` returns is the one at `nextIndex`. -/
theorem Reader.next_reads_nextIndex (r : Reader) : (r._next).1 = r.dataAt r.nextIndex := by
  unfold Reader._next Reader.nextIndex
  split <;> rfl

/-- On a buffer that is not empty and ends at `_end`, `_next` reads inside the
buffer. -/
theorem Reader.nextIndex_lt (r : Reader) (h : r.EndIsLast) : r.nextIndex < r._data.length := by
  unfold Reader.EndIsLast at h
  unfold Reader.nextIndex
  split <;> omega

/-- C12. The error is sticky, but an operation can abort. Whenever one of the
operations `get`, `getByte`, `getNumber`, `getString`, `getBoolean`,
`getVariant`, `readSID`, `get_node_depth`, `decrement_node_depth` and
`verifySignature` returns, an error that was not `None` before it is not `None`
after it. The token-level operations `get`, `getByte`, `getNumber` and
`getBoolean` read the buffer only through `_next`, at the index `nextIndex`; on
a stripped buffer that is not empty and ends at `_end` that index is inside the
buffer and the four return. The reader the constructor builds from the input
of one blank has an empty buffer and `_end = 2 ^ 64 - 1`: there `_next` reads
`_data[0]`, outside the buffer, also once `verifySignature` has raised
`InvalidVersion`. -/
theorem sticky_error :
    (∀ (sig : Signatures) (op : Op) (r r1 : Reader), r._error ≠ ParseError.None →
      r.perform sig op = some r1 → r1._error ≠ ParseError.None) ∧
    (∀ r : Reader, (r._next).1 = r.dataAt r.nextIndex) ∧
    (∀ r : Reader, r.Stripped → r.EndIsLast →
      r.nextIndex < r._data.length ∧
      (∃ p, r.get = some p) ∧ (∃ p, r.getByte = some p) ∧ (∃ p, r.getNumber = some p) ∧
      (∃ p, r.getBoolean = some p)) ∧
    ((Reader.new [0x20] false)._data = [] ∧
      (Reader.new [0x20] false)._error = ParseError.None ∧
      (Reader.new [0x20] false)._cursor = 0 ∧
      (Reader.new [0x20] false)._end = 2 ^ 64 - 1 ∧
      (Reader.new [0x20] false).nextIndex = 0 ∧
      ¬ (Reader.new [0x20] false).nextIndex < (Reader.new [0x20] false)._data.length) ∧
    (((Reader.new [0x20] false).verifySignature jsxbinSignatures).2._error =
        ParseError.InvalidVersion ∧
      ((Reader.new [0x20] false).verifySignature jsxbinSignatures).2.nextIndex = 0 ∧
      ¬ ((Reader.new [0x20] false).verifySignature jsxbinSignatures).2.nextIndex <
        ((Reader.new [0x20] false).verifySignature jsxbinSignatures).2._data.length) := by
  refine ⟨?_, Reader.next_reads_nextIndex, ?_, by decide, by decide⟩
  · intro sig op r r1 he h
    exact (Reader.sticky_perform sig op r r1 h).2.2.1 he
  · intro r hs hl
    exact ⟨Reader.nextIndex_lt r hl, ⟨_, Reader.get_stripped r hs⟩, Reader.getByte_total r hs,
      Reader.getNumber_total r hs, Reader.getBoolean_total r hs⟩

/-- Witness of C12: the reader over `AB` that has read `A` and then `B` carries
`ReachedEnd`; `getBoolean` on it returns with a DecodeError, and the error it
leaves is not `None`. -/
theorem sticky_error_witness :
    Reader.perform jsxbinSignatures Op.getBoolean
        { Reader.new [0x41, 0x42] false with _cursor := 1, _error := ParseError.ReachedEnd } =
      some { Reader.new [0x41, 0x42] false with
        _cursor := 1, _error := ParseError.DecodeError } ∧
    ({ Reader.new [0x41, 0x42] false with
        _cursor := 1, _error := ParseError.DecodeError } : Reader)._error ≠ ParseError.None :=
  ⟨by decide,
   sticky_error.1 jsxbinSignatures Op.getBoolean
    { Reader.new [0x41, 0x42] false with _cursor := 1, _error := ParseError.ReachedEnd }
    { Reader.new [0x41, 0x42] false with _cursor := 1, _error := ParseError.DecodeError }
    (by decide) (by decide)⟩

/-! ## The symbol table over time -/

theorem Number.lt_eq_order (a b : Nat) :
    Number.lt a b =
      if (Number.isNaN a || Number.isNaN b) = true then false
      else decide (Number.order a < Number.order b) := rfl

theorem Number.sameKey_iff (a b : Nat) :
    Number.sameKey a b = true ↔
      (Number.isNaN a = true ∨ Number.isNaN b = true ∨ Number.order a = Number.order b) := by
  unfold Number.sameKey
  rw [Number.lt_eq_order a b, Number.lt_eq_order b a]
  cases ha : Number.isNaN a <;> cases hb : Number.isNaN b <;> simp
  constructor
  · rintro ⟨h1, h2⟩; omega
  · intro h; omega

theorem Number.sameKey_trans (k j i : Nat) (hk : Number.isNaN k = false)
    (h1 : Number.sameKey k j = true) (h2 : Number.sameKey k i = true) :
    Number.sameKey j i = true := by
  rw [Number.sameKey_iff] at h1 h2 ⊢
  rw [hk] at h1 h2
  rcases h1 with h | h | h
  · cases h
  · left; exact h
  · rcases h2 with h' | h' | h'
    · cases h'
    · right; left; exact h'
    · right; right; rw [← h, ← h']

theorem noNaNKey_setSymbol : ∀ (m : List (Nat × List Nat)) (j : Nat) (v : List Nat),
    NoNaNKey m → Number.isNaN j = false → NoNaNKey (Reader.setSymbol m j v)
  | [], j, v, _, hj => by
    intro e he
    simp only [Reader.setSymbol, List.mem_singleton] at he
    rw [he]; exact hj
  | (k, w) :: rest, j, v, hm, hj => by
    have hk : Number.isNaN k = false := hm (k, w) (List.mem_cons_self _ _)
    have hrest : NoNaNKey rest := fun e he => hm e (List.mem_cons_of_mem _ he)
    unfold Reader.setSymbol
    split
    · intro e he
      rcases List.mem_cons.mp he with rfl | he
      · exact hk
      · exact hrest e he
    · intro e he
      rcases List.mem_cons.mp he with rfl | he
      · exact hk
      · exact noNaNKey_setSymbol rest j v hrest hj e he

/-- Writing the entry of a key other than `i` leaves the lookup of `i` as it
was, and adds no NaN key. -/
theorem Reader.findSymbol_setSymbol_other : ∀ (m : List (Nat × List Nat)) (i j : Nat)
    (v name : List Nat), NoNaNKey m → Number.sameKey j i = false →
    Reader.findSymbol m i = some name →
    Reader.findSymbol (Reader.setSymbol m j v) i = some name ∧
      NoNaNKey (Reader.setSymbol m j v)
  | [], _, _, _, _, _, _, h => by simp [Reader.findSymbol] at h
  | (k, w) :: rest, i, j, v, name, hn, hji, h => by
    have hk : Number.isNaN k = false := hn (k, w) (List.mem_cons_self _ _)
    have hrest : NoNaNKey rest := fun e he => hn e (List.mem_cons_of_mem _ he)
    have hjn : Number.isNaN j = false := by
      cases hj : Number.isNaN j with
      | false => rfl
      | true =>
        have : Number.sameKey j i = true := (Number.sameKey_iff j i).mpr (Or.inl hj)
        rw [this] at hji; cases hji
    refine ⟨?_, noNaNKey_setSymbol _ j v hn hjn⟩
    unfold Reader.setSymbol
    by_cases hkj : Number.sameKey k j = true
    · rw [if_pos hkj]
      have hki : ¬ Number.sameKey k i = true := by
        intro hki
        rw [Number.sameKey_trans k j i hk hkj hki] at hji
        cases hji
      unfold Reader.findSymbol at h ⊢
      rw [if_neg hki] at h ⊢
      exact h
    · rw [if_neg hkj]
      unfold Reader.findSymbol at h ⊢
      by_cases hki : Number.sameKey k i = true
      · rw [if_pos hki] at h ⊢
        exact h
      · rw [if_neg hki] at h ⊢
        exact (Reader.findSymbol_setSymbol_other rest i j v name hrest hji h).1

/-- Creating the empty entry of a key that has none leaves every lookup that
had a result as it was, and adds no NaN key to a table that is not empty. -/
theorem Reader.findSymbol_setSymbol_fresh : ∀ (m : List (Nat × List Nat)) (i j : Nat)
    (v name : List Nat), NoNaNKey m → Reader.findSymbol m j = none →
    Reader.findSymbol m i = some name →
    Reader.findSymbol (Reader.setSymbol m j v) i = some name ∧
      NoNaNKey (Reader.setSymbol m j v)
  | [], _, _, _, _, _, _, h => by simp [Reader.findSymbol] at h
  | (k, w) :: rest, i, j, v, name, hn, hj, h => by
    have hk : Number.isNaN k = false := hn (k, w) (List.mem_cons_self _ _)
    have hrest : NoNaNKey rest := fun e he => hn e (List.mem_cons_of_mem _ he)
    unfold Reader.findSymbol at hj
    have hkj : ¬ Number.sameKey k j = true := by
      intro hkj; rw [if_pos hkj] at hj; cases hj
    rw [if_neg hkj] at hj
    have hjn : Number.isNaN j = false := by
      cases hjn : Number.isNaN j with
      | false => rfl
      | true => exact absurd ((Number.sameKey_iff k j).mpr (Or.inr (Or.inl hjn))) hkj
    refine ⟨?_, noNaNKey_setSymbol _ j v hn hjn⟩
    unfold Reader.setSymbol
    rw [if_neg hkj]
    unfold Reader.findSymbol at h ⊢
    by_cases hki : Number.sameKey k i = true
    · rw [if_pos hki] at h ⊢
      exact h
    · rw [if_neg hki] at h ⊢
      cases rest with
      | nil => simp [Reader.findSymbol] at h
      | cons a l =>
        exact (Reader.findSymbol_setSymbol_fresh (a :: l) i j v name hrest hj h).1

/-- Writing an entry removes none: a key that had an entry has one after. -/
theorem Reader.findSymbol_setSymbol_isSome : ∀ (m : List (Nat × List Nat)) (j k : Nat)
    (v : List Nat), (Reader.findSymbol m k).isSome = true →
    (Reader.findSymbol (Reader.setSymbol m j v) k).isSome = true
  | [], _, _, _, h => by simp [Reader.findSymbol] at h
  | (k0, w) :: rest, j, k, v, h => by
    unfold Reader.setSymbol
    by_cases hkj : Number.sameKey k0 j = true
    · rw [if_pos hkj]
      unfold Reader.findSymbol at h ⊢
      by_cases hkk : Number.sameKey k0 k = true
      · rw [if_pos hkk]; rfl
      · rw [if_neg hkk] at h ⊢; exact h
    · rw [if_neg hkj]
      unfold Reader.findSymbol at h ⊢
      by_cases hkk : Number.sameKey k0 k = true
      · rw [if_pos hkk]; rfl
      · rw [if_neg hkk] at h ⊢
        exact Reader.findSymbol_setSymbol_isSome rest j k v h

theorem Reader.sameTable_getBoolean (r : Reader) (b : Bool) (r1 : Reader)
    (h : r.getBoolean = some (b, r1)) : r.SameTable r1 := by
  unfold Reader.getBoolean at h
  split at h
  · cases h
  · rename_i t r2 hg
    have f1 := Reader.sameTable_get r t r2 hg
    split at h
    · cases h; exact f1
    · split at h
      · cases h; exact f1
      · cases h; exact f1.trans (Reader.sameTable_error r2 _)

theorem Reader.sameTable_getVariant (r : Reader) (v : Option Variant) (r1 : Reader)
    (h : r.getVariant = some (v, r1)) : r.SameTable r1 := by
  unfold Reader.getVariant at h
  split at h
  · cases h
  · rename_i t r2 hg
    have f1 := Reader.sameTable_get r t r2 hg
    split at h
    · cases h; exact f1
    · split at h
      · cases h
      · rename_i t2 r3 hg2
        have f2 := (f1.trans (Reader.sameTable_step r2 _)).trans
          (Reader.sameTable_get _ t2 r3 hg2)
        dsimp only at h
        split at h
        · cases h; exact f2
        · split at h
          · cases h; exact f2
          · split at h
            · split at h
              · cases h
              · rename_i b r4 hb
                cases h; exact f2.trans (Reader.sameTable_getBoolean _ _ _ hb)
            · split at h
              · split at h
                · cases h
                · rename_i x r4 hx
                  cases h; exact f2.trans (Reader.sameTable_getNumber _ _ _ hx)
              · split at h
                · split at h
                  · cases h
                  · rename_i s r4 hx
                    cases h; exact f2.trans (Reader.sameTable_getString _ _ _ hx)
                · cases h; exact f2.trans (Reader.sameTable_error r3 _)

theorem Reader.sameTable_parse_node_depth_loop : ∀ (fuel : Nat) (r : Reader) (d : Int)
    (r1 : Reader), Reader.parse_node_depth_loop fuel r = some (d, r1) → r.SameTable r1
  | 0, _, _, _, h => by simp [Reader.parse_node_depth_loop] at h
  | fuel + 1, r, d, r1, h => by
    unfold Reader.parse_node_depth_loop at h
    dsimp only at h
    split at h
    · cases h; exact Reader.sameTable_step r _
    · split at h
      · split at h
        · cases h
        · rename_i t r2 hg
          have f1 := (Reader.sameTable_step r 1).trans (Reader.sameTable_get _ t r2 hg)
          split at h
          · split at h
            · cases h
            · rename_i d2 r3 hp
              cases h
              exact f1.trans (Reader.sameTable_parse_node_depth_loop fuel _ _ _ hp)
          · cases h; exact f1
      · cases h; exact Reader.SameTable.refl r

theorem Reader.sameTable_get_node_depth (r : Reader) (d : Nat) (r1 : Reader)
    (h : r.get_node_depth = some (d, r1)) : r.SameTable r1 := by
  unfold Reader.get_node_depth at h
  split at h
  · split at h
    · cases h
    · rename_i r2 hu
      cases h
      unfold Reader.update_node_depth at hu
      split at hu
      · cases hu
      · rename_i d2 r3 hp
        cases hu
        exact (Reader.sameTable_parse_node_depth_loop _ r d2 r3 hp).trans
          (Reader.sameTable_depth r3 _)
  · cases h; exact Reader.SameTable.refl r

theorem Reader.sameTable_decrement_node_depth (r : Reader) (b : Bool) (r1 : Reader)
    (h : r.decrement_node_depth = some (b, r1)) : r.SameTable r1 := by
  unfold Reader.decrement_node_depth at h
  split at h
  · cases h
  · rename_i d r2 hg
    have f1 := Reader.sameTable_get_node_depth r d r2 hg
    split at h
    · cases h; exact f1
    · cases h; exact f1.trans (Reader.sameTable_depth r2 _)

theorem Reader.symbols_verifySignature (sig : Signatures) (r : Reader) :
    (r.verifySignature sig).2._symbols = r._symbols := by
  unfold Reader.verifySignature
  dsimp only
  split
  · rfl
  · split
    · rfl
    · split <;> rfl

/-- What `readSID` does to the symbol table: a definition writes the entry of
its id, a reference leaves the table alone or creates the empty entry of an id
that had none. -/
theorem Reader.readSID_symbols (r r4 : Reader) (name : List Nat)
    (h : r.readSID = some (name, r4)) :
    (∃ (r1 r2 r3 : Reader) (s : List Nat) (id : Nat), r.get = some (0x7A, r1) ∧
      r1.getString = some (s, r2) ∧ r2.getNumber = some (id, r3) ∧
      r4._symbols = Reader.setSymbol r._symbols id name) ∨
    r4._symbols = r._symbols ∨
    (∃ id : Nat, Reader.findSymbol r._symbols id = none ∧
      r4._symbols = Reader.setSymbol r._symbols id []) := by
  unfold Reader.readSID at h
  split at h
  · cases h
  · rename_i t r1 hg
    have f1 := Reader.sameTable_get r t r1 hg
    split at h
    · rename_i ht
      subst ht
      split at h
      · cases h
      · rename_i s r2 hs
        have f2 := f1.trans (Reader.sameTable_getString r1 s r2 hs)
        split at h
        · cases h
        · rename_i id r3 hn
          have f3 := f2.trans (Reader.sameTable_getNumber r2 id r3 hn)
          left
          refine ⟨r1, r2, r3, s, id, hg, hs, hn, ?_⟩
          simp only [Option.some.injEq, Prod.mk.injEq] at h
          obtain ⟨h1, h2⟩ := h
          rw [← h2, ← h1]
          show Reader.setSymbol r3._symbols id _ = _
          rw [f3.2.2.2.2.2]
    · right
      split at h
      · cases h
      · rename_i id r3 hn
        have f2 := (f1.trans (Reader.sameTable_step r1 _)).trans
          (Reader.sameTable_getNumber _ id r3 hn)
        have hsym : r3._symbols = r._symbols := f2.2.2.2.2.2
        unfold Reader.getSymbol at h
        split at h
        · cases h; left; exact hsym
        · rename_i hnone
          cases h
          right
          refine ⟨id, by rw [← hsym]; exact hnone, ?_⟩
          show Reader.setSymbol r3._symbols id [] = _
          rw [hsym]

/-- What any operation does to the symbol table. -/
theorem Reader.perform_symbols (sig : Signatures) (op : Op) (r r4 : Reader)
    (h : r.perform sig op = some r4) :
    r4._symbols = r._symbols ∨
    (op = Op.readSID ∧
      ((∃ (r1 r2 r3 : Reader) (s : List Nat) (id : Nat) (name : List Nat),
          r.get = some (0x7A, r1) ∧ r1.getString = some (s, r2) ∧
          r2.getNumber = some (id, r3) ∧
          r4._symbols = Reader.setSymbol r._symbols id name) ∨
        (∃ id : Nat, Reader.findSymbol r._symbols id = none ∧
          r4._symbols = Reader.setSymbol r._symbols id []))) := by
  cases op <;> simp only [Reader.perform, Option.map_eq_some', Option.some.injEq] at h
  · obtain ⟨⟨v, r2⟩, hv, rfl⟩ := h; left; exact (Reader.sameTable_get r v r2 hv).2.2.2.2.2
  · obtain ⟨⟨v, r2⟩, hv, rfl⟩ := h; left; exact (Reader.sameTable_getByte r v r2 hv).2.2.2.2.2
  · obtain ⟨⟨v, r2⟩, hv, rfl⟩ := h; left; exact (Reader.sameTable_getNumber r v r2 hv).2.2.2.2.2
  · obtain ⟨⟨v, r2⟩, hv, rfl⟩ := h; left; exact (Reader.sameTable_getString r v r2 hv).2.2.2.2.2
  · obtain ⟨⟨v, r2⟩, hv, rfl⟩ := h; left
    exact (Reader.sameTable_getBoolean r v r2 hv).2.2.2.2.2
  · obtain ⟨⟨v, r2⟩, hv, rfl⟩ := h; left
    exact (Reader.sameTable_getVariant r v r2 hv).2.2.2.2.2
  · obtain ⟨⟨v, r2⟩, hv, rfl⟩ := h
    rcases Reader.readSID_symbols r r2 v hv with hdef | hsame | hfresh
    · obtain ⟨r1, r2', r3, s, id, h1, h2, h3, h4⟩ := hdef
      right; exact ⟨rfl, Or.inl ⟨r1, r2', r3, s, id, v, h1, h2, h3, h4⟩⟩
    · left; exact hsame
    · right; exact ⟨rfl, Or.inr hfresh⟩
  · obtain ⟨⟨v, r2⟩, hv, rfl⟩ := h; left
    exact (Reader.sameTable_get_node_depth r v r2 hv).2.2.2.2.2
  · obtain ⟨⟨v, r2⟩, hv, rfl⟩ := h; left
    exact (Reader.sameTable_decrement_node_depth r v r2 hv).2.2.2.2.2
  · rw [← h]; left; exact Reader.symbols_verifySignature sig r

theorem Reader.reaches_keeps_entry (sig : Signatures) (i : Nat) (name : List Nat)
    (r r' : Reader)
    (hl : Reader.Reaches sig (fun op r1 => ¬ (op = Op.readSID ∧ r1.Redefines i)) r r') :
    Reader.findSymbol r._symbols i = some name → NoNaNKey r._symbols →
    Reader.findSymbol r'._symbols i = some name ∧ NoNaNKey r'._symbols := by
  induction hl with
  | refl => exact fun h1 h2 => ⟨h1, h2⟩
  | step r1 r2 op _ hok hp ih =>
    intro h1 h2
    obtain ⟨hf, hn⟩ := ih h1 h2
    rcases Reader.perform_symbols sig op r1 r2 hp with hsame | ⟨hop, hdef | hfresh⟩
    · rw [hsame]; exact ⟨hf, hn⟩
    · obtain ⟨q1, q2, q3, s, id, nm, g1, g2, g3, g4⟩ := hdef
      have hne : Number.sameKey id i = false := by
        cases hk : Number.sameKey id i with
        | false => rfl
        | true => exact absurd ⟨hop, q1, q2, q3, s, id, g1, g2, g3, hk⟩ hok
      rw [g4]
      exact Reader.findSymbol_setSymbol_other _ i id nm name hn hne hf
    · obtain ⟨id, g1, g2⟩ := hfresh
      rw [g2]
      exact Reader.findSymbol_setSymbol_fresh _ i id [] name hn g1 hf

theorem Reader.reaches_keeps_keys (sig : Signatures) (r r' : Reader)
    (hl : Reader.Reaches sig (fun _ _ => True) r r') (k : Nat) :
    (Reader.findSymbol r._symbols k).isSome = true →
    (Reader.findSymbol r'._symbols k).isSome = true := by
  induction hl with
  | refl => exact fun h => h
  | step r1 r2 op _ _ hp ih =>
    intro h
    have hf := ih h
    rcases Reader.perform_symbols sig op r1 r2 hp with hsame | ⟨-, hdef | hfresh⟩
    · rw [hsame]; exact hf
    · obtain ⟨q1, q2, q3, s, id, nm, -, -, -, g4⟩ := hdef
      rw [g4]; exact Reader.findSymbol_setSymbol_isSome _ id k nm hf
    · obtain ⟨id, -, g2⟩ := hfresh
      rw [g2]; exact Reader.findSymbol_setSymbol_isSome _ id k [] hf

/-- The claim of C15 fails when an id is defined twice. In the buffer
`zBiBFzBiCFFA` id 5 is defined with the name `A`, then defined again with the
name `B`, then referenced: the three `readSID` calls return `A`, `B` and `B`. -/
theorem symbol_redefinition_replaces :
    ((Reader.new [0x7A, 0x42, 0x69, 0x42, 0x46, 0x7A, 0x42, 0x69, 0x43, 0x46, 0x46, 0x41]
        false).readSID).map (fun p => p.1) = some [0x41] ∧
    (((Reader.new [0x7A, 0x42, 0x69, 0x42, 0x46, 0x7A, 0x42, 0x69, 0x43, 0x46, 0x46, 0x41]
        false).readSID).bind (fun p => p.2.readSID)).map (fun p => p.1) = some [0x42] ∧
    ((((Reader.new [0x7A, 0x42, 0x69, 0x42, 0x46, 0x7A, 0x42, 0x69, 0x43, 0x46, 0x46, 0x41]
        false).readSID).bind (fun p => p.2.readSID)).bind (fun p => p.2.readSID)).map
      (fun p => p.1) = some [0x42] := by
  decide

/-- C15, amended. Once an id `i` has the name `name` in a symbol table whose
ids are numbers (no NaN), then after every further sequence of reader
operations in which no `readSID` defines the id `i` again - definitions of
other ids included - the table still gives `name` for `i`, and a reference to
`i` decoded by `readSID` returns `name`. After every sequence of operations
whatsoever, every id that had an entry still has one: entries are never
removed. -/
theorem symbol_entries_persist (sig : Signatures) (i : Nat) (name : List Nat) (r r' : Reader)
    (hfind : Reader.findSymbol r._symbols i = some name) (hnan : NoNaNKey r._symbols) :
    (Reader.Reaches sig (fun op r1 => ¬ (op = Op.readSID ∧ r1.Redefines i)) r r' →
      Reader.findSymbol r'._symbols i = some name ∧
      ∀ (q1 q2 : Reader) (t : Nat), r'.get = some (t, q1) → t ≠ 0x7A →
        (q1.step (-1)).getNumber = some (i, q2) → r'.readSID = some (name, q2)) ∧
    (Reader.Reaches sig (fun _ _ => True) r r' →
      ∀ k : Nat, (Reader.findSymbol r._symbols k).isSome = true →
        (Reader.findSymbol r'._symbols k).isSome = true) := by
  constructor
  · intro hl
    have hf := (Reader.reaches_keeps_entry sig i name r r' hl hfind hnan).1
    exact ⟨hf, fun q1 q2 t hg ht hn => Reader.readSID_reference r' q1 q2 t i name hg ht hn hf⟩
  · intro hl k hk
    exact Reader.reaches_keeps_keys sig r r' hl k hk

/-- Witness of C15: over the buffer `zBiCGFA`, with id 5 registered as `A`, the
call `readSID` defines id 6 as `B`; id 5 still has the name `A`, and the
reference to id 5 that follows returns `A`. -/
theorem symbol_entries_persist_witness :
    Reader.findSymbol
      ({ Reader.new [0x7A, 0x42, 0x69, 0x43, 0x47, 0x46, 0x41] false with
          _cursor := 5
          _symbols := [(Number.ofNat 5, [0x41]), (Number.ofNat 6, [0x42])] } : Reader)._symbols
      (Number.ofNat 5) = some [0x41] ∧
    Reader.readSID
      { Reader.new [0x7A, 0x42, 0x69, 0x43, 0x47, 0x46, 0x41] false with
          _cursor := 5
          _symbols := [(Number.ofNat 5, [0x41]), (Number.ofNat 6, [0x42])] } =
      some ([0x41],
        { Reader.new [0x7A, 0x42, 0x69, 0x43, 0x47, 0x46, 0x41] false with
          _cursor := 6
          _symbols := [(Number.ofNat 5, [0x41]), (Number.ofNat 6, [0x42])] }) := by
  have h := (symbol_entries_persist jsxbinSignatures (Number.ofNat 5) [0x41]
    { Reader.new [0x7A, 0x42, 0x69, 0x43, 0x47, 0x46, 0x41] false with
        _symbols := [(Number.ofNat 5, [0x41])] }
    { Reader.new [0x7A, 0x42, 0x69, 0x43, 0x47, 0x46, 0x41] false with
        _cursor := 5
        _symbols := [(Number.ofNat 5, [0x41]), (Number.ofNat 6, [0x42])] }
    (by decide) (by decide)).1
    (Reader.Reaches.step _ _ _ Op.readSID (Reader.Reaches.refl _)
      (by
        rintro ⟨-, q1, q2, q3, s, id, g1, g2, g3, g4⟩
        have e1 : q1 = { Reader.new [0x7A, 0x42, 0x69, 0x43, 0x47, 0x46, 0x41] false with
            _cursor := 1, _symbols := [(Number.ofNat 5, [0x41])] } := by
          have : Reader.get { Reader.new [0x7A, 0x42, 0x69, 0x43, 0x47, 0x46, 0x41] false with
              _symbols := [(Number.ofNat 5, [0x41])] } = some (0x7A,
              { Reader.new [0x7A, 0x42, 0x69, 0x43, 0x47, 0x46, 0x41] false with
                _cursor := 1, _symbols := [(Number.ofNat 5, [0x41])] }) := by decide
          rw [this] at g1
          simp only [Option.some.injEq, Prod.mk.injEq, true_and] at g1
          exact g1.symm
        subst e1
        have e2 : (s, q2) = ([0x42], { Reader.new [0x7A, 0x42, 0x69, 0x43, 0x47, 0x46, 0x41] false
            with _cursor := 4, _symbols := [(Number.ofNat 5, [0x41])] }) := by
          have : Reader.getString { Reader.new [0x7A, 0x42, 0x69, 0x43, 0x47, 0x46, 0x41] false
              with _cursor := 1, _symbols := [(Number.ofNat 5, [0x41])] } = some ([0x42],
              { Reader.new [0x7A, 0x42, 0x69, 0x43, 0x47, 0x46, 0x41] false with
                _cursor := 4, _symbols := [(Number.ofNat 5, [0x41])] }) := by decide
          rw [this] at g2
          exact (Option.some.inj g2).symm
        cases e2
        have e3 : id = Number.ofNat 6 := by
          have : Reader.getNumber { Reader.new [0x7A, 0x42, 0x69, 0x43, 0x47, 0x46, 0x41] false
              with _cursor := 4, _symbols := [(Number.ofNat 5, [0x41])] } =
              some (Number.ofNat 6,
              { Reader.new [0x7A, 0x42, 0x69, 0x43, 0x47, 0x46, 0x41] false with
                _cursor := 5, _symbols := [(Number.ofNat 5, [0x41])] }) := by decide
          rw [this] at g3
          simp only [Option.some.injEq, Prod.mk.injEq] at g3
          exact g3.1.symm
        subst e3
        revert g4
        decide)
      (by decide))
  exact ⟨h.1, h.2
    { Reader.new [0x7A, 0x42, 0x69, 0x43, 0x47, 0x46, 0x41] false with
        _cursor := 6
        _symbols := [(Number.ofNat 5, [0x41]), (Number.ofNat 6, [0x42])] }
    _ 0x46 (by decide) (by decide) (by decide)⟩

/-! ## References -/

theorem Reader.setSymbol_of_find_none : ∀ (m : List (Nat × List Nat)) (i : Nat) (v : List Nat),
    Reader.findSymbol m i = none → Reader.setSymbol m i v = m ++ [(i, v)]
  | [], _, _, _ => rfl
  | (k, w) :: rest, i, v, h => by
    unfold Reader.findSymbol at h
    by_cases hk : Number.sameKey k i = true
    · rw [if_pos hk] at h; cases h
    · rw [if_neg hk] at h
      unfold Reader.setSymbol
      rw [if_neg hk, Reader.setSymbol_of_find_none rest i v h]
      rfl

theorem Reader.findSymbol_append_empty : ∀ (m : List (Nat × List Nat)) (i j : Nat),
    (Reader.findSymbol (m ++ [(i, [])]) j).getD [] = (Reader.findSymbol m j).getD []
  | [], i, j => by
    simp only [List.nil_append, Reader.findSymbol]
    split <;> rfl
  | (k, w) :: rest, i, j => by
    simp only [List.cons_append, Reader.findSymbol]
    split
    · rfl
    · exact Reader.findSymbol_append_empty rest i j

/-- The claim of C16 fails on a reference to an id that was never defined. The
buffer `FA` holds a reference to id 5 and the table is empty; `readSID` returns
the empty name, and the table has an entry after the call. -/
theorem readSID_reference_adds_entry :
    (Reader.new [0x46, 0x41] false)._symbols = [] ∧
    ((Reader.new [0x46, 0x41] false).readSID).map (fun p => (p.1, p.2._symbols)) =
      some ([], [(Number.ofNat 5, [])]) := by
  decide

/-- C16, amended. When the first token `readSID` reads is not `z`, it steps
back, decodes one number `i` and returns the name the table has for `i`, or the
empty name when it has none. If `i` has an entry the table is the same after
the call; if it has none the table gains the entry of `i` with the empty name
and is otherwise the same. In both cases every id resolves after the call to
the name it resolved to before. -/
theorem readSID_reference_effect (q q1 q2 : Reader) (t i : Nat)
    (hg : q.get = some (t, q1)) (ht : t ≠ 0x7A)
    (hn : (q1.step (-1)).getNumber = some (i, q2)) :
    ∃ r4, q.readSID = some ((Reader.findSymbol q._symbols i).getD [], r4) ∧
      ((Reader.findSymbol q._symbols i).isSome = true → r4 = q2 ∧ r4._symbols = q._symbols) ∧
      (Reader.findSymbol q._symbols i = none →
        r4 = { q2 with _symbols := q._symbols ++ [(i, [])] }) ∧
      (∀ j : Nat, (Reader.findSymbol r4._symbols j).getD [] =
        (Reader.findSymbol q._symbols j).getD []) := by
  have hsym : q2._symbols = q._symbols :=
    (((Reader.sameTable_get q _ q1 hg).trans (Reader.sameTable_step q1 _)).trans
      (Reader.sameTable_getNumber _ i q2 hn)).2.2.2.2.2
  cases hf : Reader.findSymbol q._symbols i with
  | some v =>
    refine ⟨q2, ?_, fun _ => ⟨rfl, hsym⟩, fun h => (by cases h), fun j => (by rw [hsym])⟩
    unfold Reader.readSID
    simp only [hg, ht, if_false, hn, Reader.getSymbol, hsym, hf, Option.getD_some]
  | none =>
    refine ⟨{ q2 with _symbols := q._symbols ++ [(i, [])] }, ?_, fun h => (by cases h),
      fun _ => rfl, fun j => Reader.findSymbol_append_empty _ i j⟩
    unfold Reader.readSID
    simp only [hg, ht, if_false, hn, Reader.getSymbol, hsym, hf, Option.getD_none,
      Reader.setSymbol_of_find_none _ i [] hf]

/-- Witness of C16: in the buffer `FA`, with id 5 registered as `A`, the
reference to id 5 returns `A` and the table is unchanged. -/
theorem readSID_reference_effect_witness :
    ∃ r4, Reader.readSID
        { Reader.new [0x46, 0x41] false with _symbols := [(Number.ofNat 5, [0x41])] } =
        some ((Reader.findSymbol [(Number.ofNat 5, [0x41])] (Number.ofNat 5)).getD [], r4) ∧
      ((Reader.findSymbol [(Number.ofNat 5, [0x41])] (Number.ofNat 5)).isSome = true →
        r4 = { Reader.new [0x46, 0x41] false with
            _cursor := 1, _symbols := [(Number.ofNat 5, [0x41])] } ∧
          r4._symbols = [(Number.ofNat 5, [0x41])]) ∧
      (Reader.findSymbol [(Number.ofNat 5, [0x41])] (Number.ofNat 5) = none →
        r4 = { Reader.new [0x46, 0x41] false with
            _cursor := 1, _symbols := [(Number.ofNat 5, [0x41])] ++ [(Number.ofNat 5, [])] }) ∧
      (∀ j : Nat, (Reader.findSymbol r4._symbols j).getD [] =
        (Reader.findSymbol [(Number.ofNat 5, [0x41])] j).getD []) :=
  readSID_reference_effect
    { Reader.new [0x46, 0x41] false with _symbols := [(Number.ofNat 5, [0x41])] }
    { Reader.new [0x46, 0x41] false with
        _cursor := 1, _symbols := [(Number.ofNat 5, [0x41])] }
    { Reader.new [0x46, 0x41] false with
        _cursor := 1, _symbols := [(Number.ofNat 5, [0x41])] }
    0x46 (Number.ofNat 5) (by decide) (by decide) (by decide)

/-! ## The XML assignment expression -/

theorem insert_or_assign_fresh : ∀ (children : List (AstNode × Int)) (child : AstNode)
    (tag : Int), (∀ e ∈ children, e.1.addr ≠ child.addr) →
    insert_or_assign children child tag = children ++ [(child, tag)]
  | [], _, _, _ => rfl
  | (c, t) :: rest, child, tag, h => by
    have hc : c.addr ≠ child.addr := h (c, t) (List.mem_cons_self _ _)
    unfold insert_or_assign
    rw [if_neg hc, insert_or_assign_fresh rest child tag
      (fun e he => h e (List.mem_cons_of_mem _ he))]
    rfl

theorem foldl_insert_distinct : ∀ (pairs acc : List (AstNode × Int)),
    (∀ e ∈ acc, ∀ p ∈ pairs, e.1.addr ≠ p.1.addr) → DistinctChildren pairs →
    pairs.foldl (fun children p => insert_or_assign children p.1 p.2) acc = acc ++ pairs
  | [], acc, _, _ => by simp
  | p :: ps, acc, hacc, hd => by
    have hp := List.pairwise_cons.mp hd
    rw [List.foldl_cons, insert_or_assign_fresh acc p.1 p.2
      (fun e he => hacc e he p (List.mem_cons_self _ _))]
    rw [foldl_insert_distinct ps (acc ++ [(p.1, p.2)]) ?_ hp.2]
    · simp
    · intro e he q hq
      rcases List.mem_append.mp he with he | he
      · exact hacc e he q (List.mem_cons_of_mem _ hq)
      · rw [List.mem_singleton] at he
        rw [he]
        exact hp.1 q hq

/-- The loop of `jsx` appends the texts of the children in order. -/
theorem jsx_foldl : ∀ (children : List (AstNode × Int)) (acc : String),
    children.foldl
      (fun result child =>
        if child.2 = XMLAssignmentExpr.TYPE_NORMAL then result ++ child.1.jsx
        else result ++ (" + " ++ child.1.jsx ++ " + "))
      acc = acc ++ renderChildren children
  | [], acc => by simp [renderChildren]
  | c :: cs, acc => by
    have e : renderChildren (c :: cs) = renderChild c ++ renderChildren cs := rfl
    rw [List.foldl_cons, jsx_foldl cs, e]
    unfold renderChild XMLAssignmentExpr.TYPE_NORMAL
    split
    · rw [String.append_assoc]
    · rw [String.append_assoc]

/-- C11. The render of the XML assignment expression. For every sequence of
(child, tag) pairs with different child nodes, inserted in the order they were
parsed, the association holds the pairs in that order and `jsx()` returns the
concatenation, in that order, of the child's text for each child tagged 0
(NORMAL) and of the child's text between two ` + ` for each child tagged
otherwise. -/
theorem xml_render (pairs : List (AstNode × Int)) (hd : DistinctChildren pairs) :
    insertAll pairs = pairs ∧
    XMLAssignmentExpr.jsx (insertAll pairs) = renderChildren pairs ∧
    (∀ child ∈ pairs, child.2 = 0 → renderChild child = child.1.jsx) ∧
    (∀ child ∈ pairs, child.2 ≠ 0 → renderChild child = " + " ++ child.1.jsx ++ " + ") := by
  have h1 : insertAll pairs = pairs := by
    unfold insertAll
    rw [foldl_insert_distinct pairs [] (fun e he => by cases he) hd]
    rfl
  refine ⟨h1, ?_, ?_, ?_⟩
  · rw [h1]
    unfold XMLAssignmentExpr.jsx
    rw [jsx_foldl]
    exact String.empty_append _
  · intro child _ h
    simp [renderChild, h]
  · intro child _ h
    simp [renderChild, h]

/-- Witness of C11: the children `a` tagged NORMAL and `b` tagged
ATTR_PLACEHOLDER render to `a + b + `. -/
theorem xml_render_witness :
    XMLAssignmentExpr.jsx
        (insertAll [(⟨0x1000, "a"⟩, XMLAssignmentExpr.TYPE_NORMAL),
          (⟨0x2000, "b"⟩, XMLAssignmentExpr.TYPE_ATTR_PLACEHOLDER)]) = "a + b + " :=
  (xml_render [(⟨0x1000, "a"⟩, XMLAssignmentExpr.TYPE_NORMAL),
      (⟨0x2000, "b"⟩, XMLAssignmentExpr.TYPE_ATTR_PLACEHOLDER)] (by decide)).2.1.trans
    (by decide)

/-- When the compiler evaluates the arguments left to right, `parse` reads the
length, then child, tag, child, tag, ... and inserts the pairs in that order. -/
theorem XMLAssignmentExpr.parseLoop_left_to_right (dec : Decoders) :
    ∀ (k : Nat) (children : List (AstNode × Int)) (r : Reader),
    XMLAssignmentExpr.parseLoop dec true k children r =
      (decodePairs dec k r).map
        (fun p => (p.1.foldl (fun ch q => insert_or_assign ch q.1 q.2) children, p.2))
  | 0, children, r => by simp [XMLAssignmentExpr.parseLoop, decodePairs]
  | k + 1, children, r => by
    unfold XMLAssignmentExpr.parseLoop decodePairs
    simp only [if_true]
    cases dec.d_node r with
    | none => rfl
    | some p =>
      obtain ⟨child, r1⟩ := p
      simp only
      cases dec.d_length r1 with
      | none => rfl
      | some q =>
        obtain ⟨tag, r2⟩ := q
        simp only [XMLAssignmentExpr.parseLoop_left_to_right dec k _ r2]
        cases decodePairs dec k r2 <;> simp

/-- C17 under right-to-left evaluation. The buffer `BxCA` holds the length 1,
the child `x` and the tag 2. Evaluating the arguments left to right, `parse`
stores the child `x` with the tag 2. Evaluating them right to left, it decodes
the tag from `x` (a decode error, tag 0) and then the child from `C`: it stores
the child `C` with the tag 0. -/
theorem xml_parse_argument_order :
    (XMLAssignmentExpr.parse leafDecoders true []
        (Reader.new [0x42, 0x78, 0x43, 0x41] false)).map (fun p => (p.1, p.2._error)) =
      some ([(⟨1, "x"⟩, 2)], ParseError.None) ∧
    (XMLAssignmentExpr.parse leafDecoders false []
        (Reader.new [0x42, 0x78, 0x43, 0x41] false)).map (fun p => (p.1, p.2._error)) =
      some ([(⟨2, "C"⟩, 0)], ParseError.DecodeError) := by
  decide

end jsxer
